import Mathlib

/-!
# ShoniIsland: spatial index (octree) and significance manager

A shallow embedding of `OctreeManager.h/.cpp` and `ShoniSignificanceManager.h/.cpp`.

Conventions of the embedding

* Coordinates, radii and scores are exact rationals (`ℚ`) in place of `float`/`double`.
* An `AActor*` / `UObject*` is a pointer identity (`Nat`); what the engine answers for an
  object (its location, whether it is still alive, its class) is a parameter of the operation.
* A `UClass*` used as a bucket key is a class identity (`Nat`); the null pointer occurs only as
  the absent filter of a query (`Option UClass`).
* `TMap` is an association list in iteration order, `TArray` a `List`.
* `int32` counters are `Int`.
-/

namespace ShoniIsland

/-! ## Engine types used by the sources -/

/-- Pointer identity of an actor. -/
abbrev AActor := Nat

/-- Pointer identity of a class (a non-null `UClass*`). -/
abbrev UClass := Nat

/-- Engine type `FVector`. -/
structure FVector where
  X : ℚ
  Y : ℚ
  Z : ℚ
  deriving DecidableEq

/-- Engine type `FVector2D`. -/
structure FVector2D where
  X : ℚ
  Y : ℚ
  deriving DecidableEq

/-- Engine type `FBox`: an axis-aligned box given by its two corners. -/
structure FBox where
  Min : FVector
  Max : FVector
  deriving DecidableEq

/-- Engine `FBox::IsInside(FVector)`: strict on every axis, a point on the surface of the box
is not inside. -/
def FBox.IsInside (b : FBox) (p : FVector) : Bool :=
  decide (p.X > b.Min.X) && decide (p.X < b.Max.X) &&
  decide (p.Y > b.Min.Y) && decide (p.Y < b.Max.Y) &&
  decide (p.Z > b.Min.Z) && decide (p.Z < b.Max.Z)

/-- Engine `FBox::IsInsideXY(FVector)`: the same strict test on the X and Y axes only. -/
def FBox.IsInsideXY (b : FBox) (p : FVector) : Bool :=
  decide (p.X > b.Min.X) && decide (p.X < b.Max.X) &&
  decide (p.Y > b.Min.Y) && decide (p.Y < b.Max.Y)

/-- Engine `FBox::BuildAABB(Origin, Extent)`: the box `[Origin - Extent, Origin + Extent]`. -/
def FBox.BuildAABB (Origin Extent : FVector) : FBox :=
  { Min := ⟨Origin.X - Extent.X, Origin.Y - Extent.Y, Origin.Z - Extent.Z⟩
    Max := ⟨Origin.X + Extent.X, Origin.Y + Extent.Y, Origin.Z + Extent.Z⟩ }

/-- Engine `FBox::GetCenter`: `(Min + Max) * 0.5`. -/
def FBox.GetCenter (b : FBox) : FVector :=
  ⟨(b.Min.X + b.Max.X) * (1 / 2), (b.Min.Y + b.Max.Y) * (1 / 2), (b.Min.Z + b.Max.Z) * (1 / 2)⟩

/-- Engine `FBox::GetExtent`: `0.5 * (Max - Min)`. -/
def FBox.GetExtent (b : FBox) : FVector :=
  ⟨(1 / 2) * (b.Max.X - b.Min.X), (1 / 2) * (b.Max.Y - b.Min.Y), (1 / 2) * (b.Max.Z - b.Min.Z)⟩

/-- Engine `FMath::Clamp(X, MinValue, MaxValue)`: `Max(Min(X, MaxValue), MinValue)`. -/
def FMath.Clamp (x lo hi : ℚ) : ℚ :=
  max (min x hi) lo

/-- Engine `FMath::Square`. -/
def FMath.Square (x : ℚ) : ℚ := x * x

/-- Engine `FVector2D::DistSquared`. -/
def FVector2D.DistSquared (a b : FVector2D) : ℚ :=
  FMath.Square (b.X - a.X) + FMath.Square (b.Y - a.Y)

/-- The test `FVector2D::Distance(a, b) <= r`. The distance is the non-negative square root of
`DistSquared a b`, so the comparison holds exactly when `r` is non-negative and
`DistSquared a b <= r * r`. -/
def FVector2D.DistanceLE (a b : FVector2D) (r : ℚ) : Bool :=
  decide (0 ≤ r) && decide (FVector2D.DistSquared a b ≤ r * r)

/-! ## `TMap` as an association list -/

/-- Engine `TMap::Contains`. -/
def TMap.Contains {K V : Type} [DecidableEq K] (m : List (K × V)) (k : K) : Bool :=
  m.any (fun p => decide (p.1 = k))

/-- Engine `TMap::Find` / `operator[]` on a present key. -/
def TMap.Find {K V : Type} [DecidableEq K] (m : List (K × V)) (k : K) : Option V :=
  (m.find? (fun p => decide (p.1 = k))).map Prod.snd

/-- Overwrite the value stored under a present key, keeping its place in the map. -/
def TMap.Set {K V : Type} [DecidableEq K] (m : List (K × V)) (k : K) (v : V) : List (K × V) :=
  m.map (fun p => if p.1 = k then (k, v) else p)

/-- Engine `TMap::Add`: replaces the value of a present key, otherwise adds a new pair. -/
def TMap.Add {K V : Type} [DecidableEq K] (m : List (K × V)) (k : K) (v : V) : List (K × V) :=
  if TMap.Contains m k then TMap.Set m k v else m ++ [(k, v)]

/-- Engine `TMap::Remove`. -/
def TMap.Remove {K V : Type} [DecidableEq K] (m : List (K × V)) (k : K) : List (K × V) :=
  m.filter (fun p => !decide (p.1 = k))

/-! ## `FOctreeNode` -/

/-- The data members of `FOctreeNode<AActor>` other than `Children`. -/
structure FOctreeNodeData where
  Bounds : FBox
  ClassBuckets : List (UClass × List AActor)
  MaxObjectsPerNode : Int
  MaxDepth : Int
  Depth : Int
  TotalObjectCount : Int

/-- An `FOctreeNode<AActor>`: `leaf` when `Children[0] == nullptr`, otherwise `node` with its
eight children. -/
inductive FOctreeNode where
  | leaf (d : FOctreeNodeData)
  | node (d : FOctreeNodeData) (Children : Fin 8 → FOctreeNode)

/-- The data members of a node. -/
def FOctreeNode.data : FOctreeNode → FOctreeNodeData
  | .leaf d => d
  | .node d _ => d

/-- Member `Bounds`. -/
def FOctreeNode.Bounds (n : FOctreeNode) : FBox := n.data.Bounds

/-- The constructor `FOctreeNode(InBounds, InMaxObjects, InDepth, InMaxDepth)`. -/
def FOctreeNode.new (InBounds : FBox) (InMaxObjects InDepth InMaxDepth : Int) : FOctreeNode :=
  .leaf { Bounds := InBounds, ClassBuckets := [], MaxObjectsPerNode := InMaxObjects,
          MaxDepth := InMaxDepth, Depth := InDepth, TotalObjectCount := 0 }

/-- Source `ClassBuckets.FindOrAdd(ClassKey).Add(Object)`. -/
def BucketAdd (m : List (UClass × List AActor)) (ClassKey : UClass) (Object : AActor) :
    List (UClass × List AActor) :=
  match TMap.Find m ClassKey with
  | some bucket => TMap.Set m ClassKey (bucket ++ [Object])
  | none => m ++ [(ClassKey, [Object])]

/-- The bounds of child `i` computed in `Subdivide`. -/
def ChildBounds (b : FBox) (i : Fin 8) : FBox :=
  let Center := b.GetCenter
  let ChildExtent : FVector :=
    ⟨b.GetExtent.X * (1 / 2), b.GetExtent.Y * (1 / 2), b.GetExtent.Z * (1 / 2)⟩
  let Offset : FVector :=
    ⟨if i.val &&& 1 ≠ 0 then ChildExtent.X else -ChildExtent.X,
     if i.val &&& 2 ≠ 0 then ChildExtent.Y else -ChildExtent.Y,
     if i.val &&& 4 ≠ 0 then ChildExtent.Z else -ChildExtent.Z⟩
  let ChildCenter : FVector := ⟨Center.X + Offset.X, Center.Y + Offset.Y, Center.Z + Offset.Z⟩
  FBox.BuildAABB ChildCenter ChildExtent

/-- Source `Subdivide`: the eight fresh children of a node. -/
def Subdivide (d : FOctreeNodeData) : Fin 8 → FOctreeNode :=
  fun i => FOctreeNode.new (ChildBounds d.Bounds i) d.MaxObjectsPerNode (d.Depth + 1) d.MaxDepth

/-- The loop `for i in 0..8: if (Children[i]->Bounds.IsInside(Loc)) ...; break`: the first
child whose bounds contain the location. -/
def FindChild (Children : Fin 8 → FOctreeNode) (Loc : FVector) : Option (Fin 8) :=
  (List.finRange 8).find? (fun i => (Children i).Bounds.IsInside Loc)

/-- The entries of a `ClassBuckets` map in iteration order (`for Pair : ClassBuckets`,
`for Object : Pair.Value`). -/
def BucketEntries (m : List (UClass × List AActor)) : List AActor :=
  m.flatMap Prod.snd

/-- The final loop of `Insert`: hand the new object to the first child whose bounds contain
its location (`ins` is the recursive call `Children[i]->Insert`); no child, no change. -/
def InsertIntoChild (ins : FOctreeNode → AActor → FVector → UClass → Option FOctreeNode)
    (d : FOctreeNodeData) (Children : Fin 8 → FOctreeNode)
    (Object : AActor) (ObjectLocation : FVector) (ClassKey : UClass) : Option FOctreeNode :=
  match FindChild Children ObjectLocation with
  | some i =>
    (ins (Children i) Object ObjectLocation ClassKey).map
      (fun c => FOctreeNode.node d (Function.update Children i c))
  | none => some (FOctreeNode.node d Children)

/-- One step of the redistribution loop of `Insert`: the existing object is handed to the
first child whose bounds contain its current location, with the `ClassKey` of the running
`Insert` call. -/
def ReinsertExisting (GetActorLocation : AActor → FVector)
    (ins : FOctreeNode → AActor → FVector → UClass → Option FOctreeNode) (ClassKey : UClass)
    (Children : Fin 8 → FOctreeNode) (ExistingObject : AActor) : Option (Fin 8 → FOctreeNode) :=
  let Loc := GetActorLocation ExistingObject
  match FindChild Children Loc with
  | some i => (ins (Children i) ExistingObject Loc ClassKey).map
      (fun c => Function.update Children i c)
  | none => some Children

/-- Source `FOctreeNode::Insert`. `GetActorLocation` is the engine's answer for the current location
of an actor, read when existing objects are redistributed. The first argument bounds the depth
of nested calls; `none` means that the bound was reached. -/
def FOctreeNode.Insert (GetActorLocation : AActor → FVector) :
    Nat → FOctreeNode → AActor → FVector → UClass → Option FOctreeNode
  | 0, _, _, _, _ => none
  | fuel + 1, n, Object, ObjectLocation, ClassKey =>
    if !n.Bounds.IsInside ObjectLocation then some n
    else
      match n with
      | .leaf d =>
        if d.TotalObjectCount < d.MaxObjectsPerNode ∨ d.Depth = d.MaxDepth then
          some (.leaf { d with ClassBuckets := BucketAdd d.ClassBuckets ClassKey Object,
                               TotalObjectCount := d.TotalObjectCount + 1 })
        else
          match (BucketEntries d.ClassBuckets).foldlM
              (ReinsertExisting GetActorLocation (FOctreeNode.Insert GetActorLocation fuel)
                ClassKey) (Subdivide d) with
          | some Children =>
            InsertIntoChild (FOctreeNode.Insert GetActorLocation fuel)
              { d with ClassBuckets := [] } Children Object ObjectLocation ClassKey
          | none => none
      | .node d Children =>
        InsertIntoChild (FOctreeNode.Insert GetActorLocation fuel) d Children
          Object ObjectLocation ClassKey

/-- Source `FOctreeNode::Remove`. -/
def FOctreeNode.Remove : FOctreeNode → AActor → FVector → UClass → FOctreeNode
  | .leaf d, Object, ObjectLocation, ClassKey =>
    if !d.Bounds.IsInside ObjectLocation then .leaf d
    else
      match TMap.Find d.ClassBuckets ClassKey with
      | some bucket =>
        let bucket' := bucket.erase Object
        .leaf { d with
          ClassBuckets :=
            if bucket'.length = 0 then TMap.Remove d.ClassBuckets ClassKey
            else TMap.Set d.ClassBuckets ClassKey bucket'
          TotalObjectCount := d.TotalObjectCount - 1 }
      | none => .leaf d
  | .node d Children, Object, ObjectLocation, ClassKey =>
    if !d.Bounds.IsInside ObjectLocation then .node d Children
    else
      match FindChild Children ObjectLocation with
      | some i =>
        .node d (Function.update Children i
          ((Children i).Remove Object ObjectLocation ClassKey))
      | none => .node d Children

/-- Source `FOctreeNode::UpdateObject`: the returned flag and the node afterwards. -/
def FOctreeNode.UpdateObject (n : FOctreeNode) (Object : AActor)
    (OldLocation NewLocation : FVector) (NativeClass : UClass) : Bool × FOctreeNode :=
  if n.Bounds.IsInside NewLocation then (true, n)
  else (false, n.Remove Object OldLocation NativeClass)

/-- Source `FOctreeNode::Intersects2D`. -/
def Intersects2D (Box : FBox) (CircleCenter : FVector2D) (CircleRadius : ℚ) : Bool :=
  let ClampedX := FMath.Clamp CircleCenter.X Box.Min.X Box.Max.X
  let ClampedY := FMath.Clamp CircleCenter.Y Box.Min.Y Box.Max.Y
  let ClosestPoint : FVector2D := ⟨ClampedX, ClampedY⟩
  decide (FVector2D.DistSquared CircleCenter ClosestPoint ≤ FMath.Square CircleRadius)

/-- The test applied to one object of a visited leaf in `QueryOctree2D`. -/
def InQueryRange (GetActorLocation : AActor → FVector) (QueryCenter : FVector2D)
    (QueryRadius : ℚ) (Object : AActor) : Bool :=
  let ObjLocation := GetActorLocation Object
  let ObjXY : FVector2D := ⟨ObjLocation.X, ObjLocation.Y⟩
  FVector2D.DistanceLE ObjXY QueryCenter QueryRadius

/-- Source `UOctreeManager::QueryOctree2D` on a non-null node: the objects appended to `OutResults`.
`FilterClass = none` is the null filter. -/
def QueryOctree2D (GetActorLocation : AActor → FVector) :
    FOctreeNode → FVector2D → ℚ → Option UClass → List AActor
  | .leaf d, QueryCenter, QueryRadius, FilterClass =>
    if !Intersects2D d.Bounds QueryCenter QueryRadius then []
    else
      match FilterClass.bind (TMap.Find d.ClassBuckets) with
      | some bucket => bucket.filter (InQueryRange GetActorLocation QueryCenter QueryRadius)
      | none =>
        (BucketEntries d.ClassBuckets).filter
          (InQueryRange GetActorLocation QueryCenter QueryRadius)
  | .node d Children, QueryCenter, QueryRadius, FilterClass =>
    if !Intersects2D d.Bounds QueryCenter QueryRadius then []
    else
      (List.finRange 8).flatMap
        (fun i => QueryOctree2D GetActorLocation (Children i) QueryCenter QueryRadius FilterClass)

/-- Source `UOctreeManager::Initialize`: the new root. -/
def Initialize (Center Dimensions : FVector) : FOctreeNode :=
  FOctreeNode.new (FBox.BuildAABB Center Dimensions) 10 0 3

/-- Source `UOctreeManager::ResetOctree`: the new root. -/
def ResetOctree (Center Dimensions : FVector) : FOctreeNode :=
  FOctreeNode.new (FBox.BuildAABB Center Dimensions) 10 0 10


/-! ## Observations on a tree -/

/-- Brute-force scan: the objects of all leaves, leaves in child order, within a leaf in
bucket iteration order. -/
def StoredObjects : FOctreeNode → List AActor
  | .leaf d => BucketEntries d.ClassBuckets
  | .node _ Children => (List.finRange 8).flatMap (fun i => StoredObjects (Children i))

/-- Brute-force scan of the objects stored under one class key. -/
def StoredUnder (ClassKey : UClass) : FOctreeNode → List AActor
  | .leaf d => (TMap.Find d.ClassBuckets ClassKey).getD []
  | .node _ Children => (List.finRange 8).flatMap (fun i => StoredUnder ClassKey (Children i))

/-- Every object stored below a node is located inside the bounds of that node, and the same
holds in every subtree. -/
def PositionsInside (GetActorLocation : AActor → FVector) : FOctreeNode → Prop
  | .leaf d => ∀ a ∈ BucketEntries d.ClassBuckets, d.Bounds.IsInside (GetActorLocation a) = true
  | .node d Children =>
    (∀ i, PositionsInside GetActorLocation (Children i)) ∧
    ∀ i, ∀ a ∈ StoredObjects (Children i), d.Bounds.IsInside (GetActorLocation a) = true

/-- Trees built from an initialized (or reset) root by `Insert` calls, each passed the
object's own location. -/
inductive Built (GetActorLocation : AActor → FVector) : FOctreeNode → Prop
  | init (Center Dimensions : FVector) : Built GetActorLocation (Initialize Center Dimensions)
  | reset (Center Dimensions : FVector) : Built GetActorLocation (ResetOctree Center Dimensions)
  | insert {t t' : FOctreeNode} (fuel : Nat) (Object : AActor) (ClassKey : UClass) :
      Built GetActorLocation t →
      t.Insert GetActorLocation fuel Object (GetActorLocation Object) ClassKey = some t' →
      Built GetActorLocation t'

/-- A sequence of `Insert` calls, each passed the object's own location. -/
def InsertAll (GetActorLocation : AActor → FVector) (fuel : Nat) :
    List (AActor × UClass) → FOctreeNode → Option FOctreeNode
  | [], t => some t
  | (Object, ClassKey) :: rest, t =>
    (t.Insert GetActorLocation fuel Object (GetActorLocation Object) ClassKey).bind
      (InsertAll GetActorLocation fuel rest)

/-- The property of a recursive call of `Insert` that the induction on the call depth carries:
stored objects stay inside the bounds of their nodes, bounds are unchanged, and no object other
than the inserted one appears. -/
def InsertKeeps (loc : AActor → FVector)
    (ins : FOctreeNode → AActor → FVector → UClass → Option FOctreeNode) : Prop :=
  ∀ n o k n', PositionsInside loc n → ins n o (loc o) k = some n' →
    PositionsInside loc n' ∧ n'.Bounds = n.Bounds ∧
      ∀ a ∈ StoredObjects n', a = o ∨ a ∈ StoredObjects n

/-- The depth bookkeeping of a tree with maximum depth `md`: every node carries `MaxDepth = md`,
a leaf has `Depth <= md`, a subdivided node has `Depth < md`, and every child is one level
deeper than its parent. -/
def DepthOK (md : Int) : FOctreeNode → Prop
  | .leaf d => d.MaxDepth = md ∧ d.Depth ≤ md
  | .node d Children =>
    d.MaxDepth = md ∧ d.Depth < md ∧
      ∀ i, (Children i).data.Depth = d.Depth + 1 ∧ DepthOK md (Children i)

/-- The property of a recursive call of `Insert`: the depth bookkeeping is kept. -/
def InsertKeepsDepth (md : Int)
    (ins : FOctreeNode → AActor → FVector → UClass → Option FOctreeNode) : Prop :=
  ∀ n o p k n', DepthOK md n → ins n o p k = some n' →
    DepthOK md n' ∧ n'.data.Depth = n.data.Depth

/-- The property of a recursive call of `Insert`: it returns on every node that has fewer than
`budget` levels left below it. -/
def InsertReturns (md : Int) (budget : Int)
    (ins : FOctreeNode → AActor → FVector → UClass → Option FOctreeNode) : Prop :=
  ∀ n o p k, DepthOK md n → md - n.data.Depth < budget → ∃ n', ins n o p k = some n'

/-! ## Concrete scenes used to run the code -/

/-- A world in which actor `a` stands at `(a, a, a)`. -/
def DiagonalWorld : AActor → FVector := fun a => ⟨a, a, a⟩

/-- A world in which actor `a` stands at `(a + 1, a + 1, a + 1)`. -/
def ShiftedWorld : AActor → FVector := fun a => ⟨a + 1, a + 1, a + 1⟩

/-- The root made by `Initialize` with centre `(0,0,0)` and extents `(1000,1000,1000)`. -/
def Root1000 : FOctreeNode := Initialize ⟨0, 0, 0⟩ ⟨1000, 1000, 1000⟩

/-- Actors `0 .. 10`, all of class `7`. -/
def ElevenOfClass7 : List (AActor × UClass) := (List.range 11).map (fun a => (a, 7))

/-- Actors `0 .. 9` of class `1`, then actor `10` of class `2`. -/
def TenOfClass1ThenClass2 : List (AActor × UClass) :=
  (List.range 10).map (fun a => (a, 1)) ++ [(10, 2)]

/-- The tree after a sequence of `Insert` calls on `Root1000` (the root itself should a call
not return within the bound on nested calls). -/
def TreeAfter (GetActorLocation : AActor → FVector) (calls : List (AActor × UClass)) :
    FOctreeNode :=
  (InsertAll GetActorLocation 5 calls Root1000).getD Root1000

/-! ## `UShoniSignificanceManager` -/

/-- Pointer identity of a `UObject`. -/
abbrev UObject := Nat

/-- Engine type `FTransform`, reduced to the location it carries. -/
abbrev FTransform := FVector

/-- The enumeration `ESignificanceTag`. -/
inductive ESignificanceTag where
  | SIG_Gameplay
  | SIG_Rendering
  | SIG_Audio
  | SIG_Niagara
  deriving DecidableEq

/-- What the engine answers about objects at the moment of a call. -/
structure Engine where
  /-- `TWeakObjectPtr::IsValid` for a pointer to the object. -/
  IsValid : UObject → Bool
  /-- `IsA(AActor::StaticClass()) || IsA(USceneComponent::StaticClass())`. -/
  IsSpatial : UObject → Bool
  /-- `GetWorld() != nullptr`. -/
  HasWorld : UObject → Bool
  /-- `Cast<ISignificanceInterface>` of a live object succeeds. -/
  ImplementsInterface : UObject → Bool
  /-- `IsA(AVillager::StaticClass())`. -/
  IsVillager : UObject → Bool
  /-- `GetActorTransform` / `GetComponentTransform` of a live object. -/
  Transform : UObject → FTransform

/-- The struct `FSignificanceObject`; `Source` is the object the weak pointers were made
from. -/
structure FSignificanceObject where
  Source : UObject
  SignificanceTag : ESignificanceTag
  CachedSignificance : ℚ
  deriving DecidableEq

/-- The constructor `FSignificanceObject(InObject, InTag)`. -/
def FSignificanceObject.new (InObject : UObject) (InTag : ESignificanceTag) :
    FSignificanceObject :=
  { Source := InObject, SignificanceTag := InTag, CachedSignificance := 0 }

/-- Source `FSignificanceObject::GetTransform`: identity once the object is gone. -/
def FSignificanceObject.GetTransform (e : Engine) (r : FSignificanceObject) : FTransform :=
  if e.IsValid r.Source then e.Transform r.Source else ⟨0, 0, 0⟩

/-- The state of the manager (its static and instance members), together with the number of
`UpdateContainers` callbacks that the timer manager holds for the next tick. -/
structure UShoniSignificanceManager where
  bIsInited : Bool
  bFirstPassComplete : Bool
  RegisteredObjects : List FSignificanceObject
  ObjectLookupTable : List (UObject × Nat)
  AsyncTransformQueue : List (FTransform × ℚ)
  bAsyncOperationInProgress : Bool
  ElementsToAdd : List (UObject × ESignificanceTag)
  ElementsToRemove : List UObject
  bRequiresUpdate : Bool
  bDebouncePending : Bool
  NextTickUpdateContainers : Nat
  deriving DecidableEq

/-- The state at program start (static initialisers). -/
def UShoniSignificanceManager.initial : UShoniSignificanceManager :=
  { bIsInited := false, bFirstPassComplete := false, RegisteredObjects := [],
    ObjectLookupTable := [], AsyncTransformQueue := [], bAsyncOperationInProgress := false,
    ElementsToAdd := [], ElementsToRemove := [], bRequiresUpdate := false,
    bDebouncePending := false, NextTickUpdateContainers := 0 }

/-- Source `UShoniSignificanceManager::Init`; `CameraInWorld` is `Camera && Camera->GetWorld()`. -/
def Init (CameraInWorld : Bool) (s : UShoniSignificanceManager) : UShoniSignificanceManager :=
  if CameraInWorld then { s with bAsyncOperationInProgress := false, bIsInited := true }
  else s

/-- Source `UShoniSignificanceManager::RegisterObject`; `none` is the null pointer. -/
def RegisterObject (e : Engine) (s : UShoniSignificanceManager) (NewObject : Option UObject)
    (SignificanceTag : ESignificanceTag) : UShoniSignificanceManager :=
  match NewObject with
  | none => s
  | some o =>
    if !e.IsSpatial o then s
    else
      let s1 := { s with ElementsToAdd := s.ElementsToAdd ++ [(o, SignificanceTag)],
                         bRequiresUpdate := true }
      if !s1.bDebouncePending then
        { s1 with
          NextTickUpdateContainers :=
            if e.HasWorld o then s1.NextTickUpdateContainers + 1
            else s1.NextTickUpdateContainers
          bDebouncePending := true }
      else s1

/-- Engine `TArray::AddUnique`. -/
def AddUnique (l : List UObject) (o : UObject) : List UObject :=
  if o ∈ l then l else l ++ [o]

/-- Source `UShoniSignificanceManager::DeregisterObject`; `none` is the null pointer. -/
def DeregisterObject (e : Engine) (s : UShoniSignificanceManager) (OldObject : Option UObject) :
    UShoniSignificanceManager :=
  match OldObject with
  | none => s
  | some o =>
    if !e.HasWorld o then s
    else
      let s1 := { s with ElementsToRemove := AddUnique s.ElementsToRemove o,
                         bRequiresUpdate := true }
      if !s1.bDebouncePending then
        { s1 with
          NextTickUpdateContainers :=
            if e.HasWorld o then s1.NextTickUpdateContainers + 1
            else s1.NextTickUpdateContainers
          bDebouncePending := true }
      else s1

/-- Engine `TArray::RemoveAtSwap(Idx, 1, false)` on a valid index: the last element takes the
place of the removed one. -/
def RemoveAtSwap (l : List FSignificanceObject) (Idx : Nat) : List FSignificanceObject :=
  match l.getLast? with
  | some last => (l.set Idx last).dropLast
  | none => l

/-- One iteration of the removal loop of `UpdateContainers`. -/
def RemoveStep (e : Engine) (st : List FSignificanceObject × List (UObject × Nat))
    (Obj : UObject) : List FSignificanceObject × List (UObject × Nat) :=
  if e.IsValid Obj then
    match TMap.Find st.2 Obj with
    | some Idx =>
      match st.1[Idx]? with
      | some r =>
        if e.IsValid r.Source then (RemoveAtSwap st.1 Idx, TMap.Remove st.2 r.Source)
        else st
      | none => st
    | none => st
  else st

/-- One iteration of the addition loop of `UpdateContainers`. -/
def AddStep (e : Engine) (st : List FSignificanceObject × List (UObject × Nat))
    (Obj : UObject × ESignificanceTag) : List FSignificanceObject × List (UObject × Nat) :=
  if e.IsValid Obj.1 then
    let NewIdx := st.1.length
    (st.1 ++ [FSignificanceObject.new Obj.1 Obj.2], TMap.Add st.2 Obj.1 NewIdx)
  else st

/-- Source `UShoniSignificanceManager::UpdateContainers` (the reconciliation of the registry). -/
def UpdateContainers (e : Engine) (s : UShoniSignificanceManager) : UShoniSignificanceManager :=
  let st :=
    if s.ElementsToAdd.length ≠ 0 ∨ s.ElementsToRemove.length ≠ 0 then
      s.ElementsToAdd.foldl (AddStep e)
        (s.ElementsToRemove.foldl (RemoveStep e) (s.RegisteredObjects, s.ObjectLookupTable))
    else (s.RegisteredObjects, s.ObjectLookupTable)
  { s with RegisteredObjects := st.1, ObjectLookupTable := st.2, ElementsToAdd := [],
           ElementsToRemove := [], bRequiresUpdate := false, bDebouncePending := false }

/-- The timer manager runs one `UpdateContainers` callback held for the next tick. -/
def NextTick (e : Engine) (s : UShoniSignificanceManager) : UShoniSignificanceManager :=
  if s.NextTickUpdateContainers = 0 then s
  else UpdateContainers e { s with NextTickUpdateContainers := s.NextTickUpdateContainers - 1 }

/-- Source `UShoniSignificanceManager::GetSignificance`. -/
def GetSignificance (s : UShoniSignificanceManager) (Caller : UObject) : ℚ :=
  match TMap.Find s.ObjectLookupTable Caller with
  | some Index =>
    match s.RegisteredObjects[Index]? with
    | some r => r.CachedSignificance
    | none => 0
  | none => 0

/-- Engine `FMath::Lerp`. -/
def FMath.Lerp (A B Alpha : ℚ) : ℚ := A + Alpha * (B - A)

/-- The constant `CAM_DIST_MAX`. -/
def CAM_DIST_MAX : ℚ := 20000

/-- The score computed by the background pass of `CalculateSignificance` for one entry, from
the distance to the camera and the dot product of the camera direction with the direction to
the object. -/
def ComputeSignificance (Dist FacingDot : ℚ) : ℚ :=
  let DistanceScale := FMath.Lerp (1 / 2) 1 ((FacingDot + 1) * (1 / 2))
  let ScaledMaxDist := CAM_DIST_MAX * DistanceScale
  if Dist ≤ ScaledMaxDist ∧ ScaledMaxDist > 0 then 1 - Dist / ScaledMaxDist else 0

/-- The camera snapshot as the background pass uses it: for a location, `FVector::Dist` to the
camera location and the dot product of the camera direction with the normalised direction to
the location. -/
structure CameraView where
  Dist : FVector → ℚ
  FacingDot : FVector → ℚ

/-- The timer callback `CalculateSignificance` on the game thread, up to the launch of the
background task; `CameraValid` is `CameraActor.IsValid()`. -/
def CalculateSignificance (e : Engine) (CameraValid : Bool) (s : UShoniSignificanceManager) :
    UShoniSignificanceManager :=
  if !s.bIsInited || s.bAsyncOperationInProgress || !CameraValid then s
  else
    let queue := s.RegisteredObjects.map (fun r => (r.GetTransform e, (0 : ℚ)))
    if queue.length ≠ 0 then
      { s with AsyncTransformQueue := queue, bAsyncOperationInProgress := true }
    else { s with AsyncTransformQueue := queue }

/-- The background task: every entry of the snapshot gets its score. -/
def BackgroundPass (cam : CameraView) (s : UShoniSignificanceManager) :
    UShoniSignificanceManager :=
  let scored := s.AsyncTransformQueue.map
    (fun q => (q.1, ComputeSignificance (cam.Dist q.1) (cam.FacingDot q.1)))
  { s with AsyncTransformQueue := scored }

/-- A call made on an object through `ISignificanceInterface`. -/
inductive Notification where
  | OnSignificanceChanged (bSignificant : Bool)
  | OnSignificanceValueChanged (OldValue NewValue : ℚ)
  deriving DecidableEq

/-- The interface calls that the loop body of the game-thread task selects for one record, in
call order, before the `Cast<ISignificanceInterface>` guard of each call. -/
def SelectNotifications (bFirstPassComplete SourceValid : Bool) (Tag : ESignificanceTag)
    (IsVillager : Bool) (CachedSignificance Value : ℚ) : List Notification :=
  if !bFirstPassComplete then
    if Value > 0 then [.OnSignificanceChanged true]
    else [.OnSignificanceChanged false]
  else
    if !SourceValid then []
    else if Tag = .SIG_Niagara then []
    else
      if CachedSignificance ≤ 0 ∧ Value > 0 then [.OnSignificanceChanged true]
      else if CachedSignificance > 0 ∧ Value ≤ 0 then [.OnSignificanceChanged false]
      else if Value > 0 ∧ IsVillager = true then
        [.OnSignificanceValueChanged CachedSignificance Value]
      else []

/-- The loop body of the game-thread task for one record and its snapshot entry: the calls
delivered (the cast succeeds on a live object that implements the interface) and the record
afterwards. On later passes a record whose source is gone is skipped by `continue`, its cached
value included. -/
def ReconcileRecord (e : Engine) (bFirstPassComplete : Bool) (r : FSignificanceObject)
    (Value : ℚ) : List (UObject × Notification) × FSignificanceObject :=
  let calls :=
    if e.IsValid r.Source && e.ImplementsInterface r.Source then
      (SelectNotifications bFirstPassComplete (e.IsValid r.Source) r.SignificanceTag
        (e.IsVillager r.Source) r.CachedSignificance Value).map (fun n => (r.Source, n))
    else []
  if bFirstPassComplete && !e.IsValid r.Source then (calls, r)
  else (calls, { r with CachedSignificance := Value })

/-- The loop of the game-thread task over the records, record `i` with snapshot entry `i`;
`none` when `AsyncTransformQueue[i]` is read past the end of the snapshot (a record skipped by
`continue` reads no entry). -/
def ReconcileRecords (e : Engine) (bFirstPassComplete : Bool) :
    List FSignificanceObject → List (FTransform × ℚ) →
      Option (List (UObject × Notification) × List FSignificanceObject)
  | [], _ => some ([], [])
  | r :: rs, queue =>
    match ReconcileRecords e bFirstPassComplete rs queue.tail with
    | some (calls, rs') =>
      if bFirstPassComplete && !e.IsValid r.Source then some (calls, r :: rs')
      else
        match queue.head? with
        | some q =>
          let step := ReconcileRecord e bFirstPassComplete r q.2
          some (step.1 ++ calls, step.2 :: rs')
        | none => none
    | none => none

/-- The game-thread task that ends a scoring cycle: the delivered calls and the state
afterwards. -/
def CompleteCycle (e : Engine) (s : UShoniSignificanceManager) :
    Option (List (UObject × Notification) × UShoniSignificanceManager) :=
  match ReconcileRecords e s.bFirstPassComplete s.RegisteredObjects s.AsyncTransformQueue with
  | some (calls, recs) =>
    let s1 := { s with RegisteredObjects := recs, AsyncTransformQueue := [] }
    let s2 := if s1.bRequiresUpdate && !s1.bDebouncePending then UpdateContainers e s1 else s1
    some (calls, { s2 with bAsyncOperationInProgress := false, bFirstPassComplete := true })
  | none => none

/-- The decision table of the specification for the notification of one record: the first
pass announces the state of every record; later passes announce nothing for an invalid
reference or for the effects category, a crossing of zero otherwise, and the changed value of
a continuously tracked kind that stays significant. -/
def SpecNotification (firstPassComplete valid : Bool) (category : ESignificanceTag)
    (tracked : Bool) (old new : ℚ) : Option Notification :=
  match firstPassComplete with
  | false => some (.OnSignificanceChanged (decide (new > 0)))
  | true =>
    match valid, decide (category = .SIG_Niagara) with
    | false, _ => none
    | true, true => none
    | true, false =>
      match decide (old > 0), decide (new > 0) with
      | false, true => some (.OnSignificanceChanged true)
      | true, false => some (.OnSignificanceChanged false)
      | true, true => if tracked then some (.OnSignificanceValueChanged old new) else none
      | false, false => none

/-- The table maps every entity to its index in the record sequence, and every entry of the
table points at a record of its entity. -/
def IndexConsistent (s : UShoniSignificanceManager) : Prop :=
  (∀ i r, s.RegisteredObjects[i]? = some r → TMap.Find s.ObjectLookupTable r.Source = some i) ∧
  (∀ p ∈ s.ObjectLookupTable, ∃ r, s.RegisteredObjects[p.2]? = some r ∧ r.Source = p.1)

/-- An engine in which every object is alive, spatial, in a world and implements the
interface, no object is a villager, and object `o` stands at `(o, 0, 0)`. -/
def PlainEngine : Engine :=
  { IsValid := fun _ => true, IsSpatial := fun _ => true, HasWorld := fun _ => true,
    ImplementsInterface := fun _ => true, IsVillager := fun _ => false,
    Transform := fun o => ⟨o, 0, 0⟩ }

/-- A camera at the origin that looks along the X axis at objects standing on the positive
X axis: the distance is the X coordinate and the facing dot product is `1`. -/
def AxisCamera : CameraView :=
  { Dist := fun p => p.X, FacingDot := fun _ => 1 }

/-- A call on the interface of the manager, or an event of the engine. -/
inductive Event where
  | Register (NewObject : UObject) (Tag : ESignificanceTag)
  | Deregister (OldObject : UObject)
  | NextTick
  | TimerTick
  | PassCompletes

/-- One event on the state, with `PlainEngine` and `AxisCamera`. `PassCompletes` is the end of
an outstanding background pass followed by the game-thread task; `none` is a read past the end
of the snapshot. -/
def RunEvent (s : UShoniSignificanceManager) : Event → Option UShoniSignificanceManager
  | .Register o tag => some (RegisterObject PlainEngine s (some o) tag)
  | .Deregister o => some (DeregisterObject PlainEngine s (some o))
  | .NextTick => some (NextTick PlainEngine s)
  | .TimerTick => some (CalculateSignificance PlainEngine true s)
  | .PassCompletes =>
    if s.bAsyncOperationInProgress then
      (CompleteCycle PlainEngine (BackgroundPass AxisCamera s)).map Prod.snd
    else some s

/-- A run of events from the initialised manager. -/
def Run (events : List Event) : Option UShoniSignificanceManager :=
  events.foldlM RunEvent (Init true UShoniSignificanceManager.initial)

/-- The registry (records and table) of a state. -/
def Registry (s : UShoniSignificanceManager) :
    List FSignificanceObject × List (UObject × Nat) :=
  (s.RegisteredObjects, s.ObjectLookupTable)

/-- The idle initialised manager with the given records and table. -/
def IdleWith (records : List FSignificanceObject) (table : List (UObject × Nat)) :
    UShoniSignificanceManager :=
  { Init true UShoniSignificanceManager.initial with
    RegisteredObjects := records, ObjectLookupTable := table }

/-! ## `UOctreeManager` -/

/-- The object `UOctreeManager`: its member `OctreeRoot`, `none` for the null pointer. -/
structure UOctreeManager where
  OctreeRoot : Option FOctreeNode

/-- Source `UOctreeManager::Initialize` on the manager: whatever tree was held is replaced. -/
def UOctreeManager.Initialize (_m : UOctreeManager) (Center Dimensions : FVector) :
    UOctreeManager :=
  { OctreeRoot := some (ShoniIsland.Initialize Center Dimensions) }

/-- Source `UOctreeManager::ResetOctree` on the manager: the old tree is deleted and a new root
is made. -/
def UOctreeManager.ResetOctree (_m : UOctreeManager) (Center Dimensions : FVector) :
    UOctreeManager :=
  { OctreeRoot := some (ShoniIsland.ResetOctree Center Dimensions) }

/-- Source `UOctreeManager::FindObjectsInRange`: the objects appended to `OutResults`. -/
def UOctreeManager.FindObjectsInRange (GetActorLocation : AActor → FVector) (m : UOctreeManager)
    (QueryCenter : FVector) (QueryRadius : ℚ) (FilteredClass : Option UClass) : List AActor :=
  match m.OctreeRoot with
  | some root =>
    QueryOctree2D GetActorLocation root ⟨QueryCenter.X, QueryCenter.Y⟩ QueryRadius FilteredClass
  | none => []

/-- The number of subdivided nodes of a tree. -/
def SubdivisionCount : FOctreeNode → Nat
  | .leaf _ => 0
  | .node _ Children => 1 + ((List.finRange 8).map (fun i => SubdivisionCount (Children i))).sum

/-- The node is a leaf (`Children[0] == nullptr`). -/
def FOctreeNode.IsLeaf : FOctreeNode → Bool
  | .leaf _ => true
  | .node _ _ => false

/-- The nodes of a tree: the tree itself and the nodes of its children. -/
inductive IsNodeOf : FOctreeNode → FOctreeNode → Prop
  | self (t : FOctreeNode) : IsNodeOf t t
  | child {n : FOctreeNode} (d : FOctreeNodeData) (Children : Fin 8 → FOctreeNode) (i : Fin 8) :
      IsNodeOf n (Children i) → IsNodeOf n (.node d Children)

/-- Trees reached from an initialized (or reset) root by `Insert` calls, each passed the
object's own location, and by `Remove` calls with any arguments. -/
inductive BuiltWithRemove (GetActorLocation : AActor → FVector) : FOctreeNode → Prop
  | init (Center Dimensions : FVector) :
      BuiltWithRemove GetActorLocation (Initialize Center Dimensions)
  | reset (Center Dimensions : FVector) :
      BuiltWithRemove GetActorLocation (ResetOctree Center Dimensions)
  | insert {t t' : FOctreeNode} (fuel : Nat) (Object : AActor) (ClassKey : UClass) :
      BuiltWithRemove GetActorLocation t →
      t.Insert GetActorLocation fuel Object (GetActorLocation Object) ClassKey = some t' →
      BuiltWithRemove GetActorLocation t'
  | remove {t : FOctreeNode} (Object : AActor) (ObjectLocation : FVector) (ClassKey : UClass) :
      BuiltWithRemove GetActorLocation t →
      BuiltWithRemove GetActorLocation (t.Remove Object ObjectLocation ClassKey)

/-! ## The scoring formula and the scheduler -/

/-- The local `ScaledMaxDist` of the background pass: the effective horizon for a facing dot
product. -/
def ScaledMaxDist (FacingDot : ℚ) : ℚ :=
  CAM_DIST_MAX * FMath.Lerp (1 / 2) 1 ((FacingDot + 1) * (1 / 2))

/-- Child `i` of a subdivided node (the node itself for a leaf). -/
def RootChild (t : FOctreeNode) (i : Fin 8) : FOctreeNode :=
  match t with
  | .node _ Children => Children i
  | .leaf d => .leaf d

/-- A burst of `RegisterObject` calls made within one tick, in list order. -/
def RegisterAll (e : Engine) (s : UShoniSignificanceManager)
    (objs : List (UObject × ESignificanceTag)) : UShoniSignificanceManager :=
  objs.foldl (fun s p => RegisterObject e s (some p.1) p.2) s

/-- The score that the background pass computes for a record from its snapshot transform. -/
def RecordScore (e : Engine) (cam : CameraView) (r : FSignificanceObject) : ℚ :=
  ComputeSignificance (cam.Dist (r.GetTransform e)) (cam.FacingDot (r.GetTransform e))

/-- One scoring cycle with nothing else in between: the timer callback, the background pass
with the given camera snapshot and the game-thread task. The delivered calls and the state
afterwards; a tick that launches no pass delivers nothing. -/
def ScoringCycle (e : Engine) (cam : CameraView) (s : UShoniSignificanceManager) :
    Option (List (UObject × Notification) × UShoniSignificanceManager) :=
  if (!s.bAsyncOperationInProgress &&
      (CalculateSignificance e true s).bAsyncOperationInProgress) = true then
    CompleteCycle e (BackgroundPass cam (CalculateSignificance e true s))
  else some ([], CalculateSignificance e true s)

/-- Consecutive scoring cycles, one per camera snapshot: the calls delivered in each cycle. -/
def CycleCalls (e : Engine) :
    List CameraView → UShoniSignificanceManager → Option (List (List (UObject × Notification)))
  | [], _ => some []
  | cam :: cams, s =>
    match ScoringCycle e cam s with
    | some (calls, s') => (CycleCalls e cams s').map (fun rest => calls :: rest)
    | none => none

/-- The loop body of the game-thread task applied to one record in consecutive scoring cycles
of an unchanged registry, one score per cycle: the calls delivered in each cycle. The flag is
`bFirstPassComplete` at the first of these cycles. -/
def RecordCalls (e : Engine) :
    Bool → FSignificanceObject → List ℚ → List (List (UObject × Notification))
  | _, _, [] => []
  | first, r, v :: vs =>
    (ReconcileRecord e first r v).1 :: RecordCalls e true (ReconcileRecord e first r v).2 vs

/-- The record after the consecutive scoring cycles of `RecordCalls`. -/
def RecordAfter (e : Engine) : Bool → FSignificanceObject → List ℚ → FSignificanceObject
  | _, r, [] => r
  | first, r, v :: vs => RecordAfter e true (ReconcileRecord e first r v).2 vs

/-- The call `n` is delivered to object `o` in cycle `k` (counted from 0) of a trace. -/
def DeliveredIn (trace : List (List (UObject × Notification))) (k : Nat) (o : UObject)
    (n : Notification) : Prop :=
  (o, n) ∈ trace.getD k []

/-- The engine of `PlainEngine` in which every object is a villager. -/
def VillagerEngine : Engine :=
  { PlainEngine with IsVillager := fun _ => true }

/-- A camera on the X axis at `x` that looks along the axis at objects further up the axis: the
distance of a location is its X coordinate minus `x` and the facing dot product is `1`. -/
def CameraOnAxis (x : ℚ) : CameraView :=
  { Dist := fun p => p.X - x, FacingDot := fun _ => 1 }

/-! ## The scheduler as a step relation -/

/-- The timer callback `CalculateSignificance` reaches its `AsyncTask` call, that is, it
launches a background pass. -/
def LaunchesPass (e : Engine) (CameraValid : Bool) (s : UShoniSignificanceManager) : Bool :=
  if !s.bIsInited || s.bAsyncOperationInProgress || !CameraValid then false
  else
    let queue := s.RegisteredObjects.map (fun r => (r.GetTransform e, (0 : ℚ)))
    if queue.length ≠ 0 then true else false

/-- The manager together with the number of background passes that were launched and have not
completed yet. -/
structure Scheduler where
  Manager : UShoniSignificanceManager
  OutstandingPasses : Nat
  deriving DecidableEq

/-- The scheduler after `Init`: no pass outstanding. -/
def Scheduler.initial : Scheduler :=
  { Manager := Init true UShoniSignificanceManager.initial, OutstandingPasses := 0 }

/-- A `RegisterObject` call. -/
def Scheduler.Register (e : Engine) (σ : Scheduler) (NewObject : Option UObject)
    (Tag : ESignificanceTag) : Scheduler :=
  { σ with Manager := RegisterObject e σ.Manager NewObject Tag }

/-- A `DeregisterObject` call. -/
def Scheduler.Deregister (e : Engine) (σ : Scheduler) (OldObject : Option UObject) : Scheduler :=
  { σ with Manager := DeregisterObject e σ.Manager OldObject }

/-- The next tick of the timer manager: a held `UpdateContainers` callback runs. -/
def Scheduler.NextTick (e : Engine) (σ : Scheduler) : Scheduler :=
  { σ with Manager := ShoniIsland.NextTick e σ.Manager }

/-- The repeating timer fires: `CalculateSignificance` runs, and a launched pass is counted. -/
def Scheduler.TimerTick (e : Engine) (CameraValid : Bool) (σ : Scheduler) : Scheduler :=
  { Manager := CalculateSignificance e CameraValid σ.Manager
    OutstandingPasses :=
      if LaunchesPass e CameraValid σ.Manager then σ.OutstandingPasses + 1
      else σ.OutstandingPasses }

/-- An outstanding background pass ends and its game-thread task runs; `none` when no pass is
outstanding or the task reads past the end of the snapshot. -/
def Scheduler.PassCompletes (e : Engine) (cam : CameraView) (σ : Scheduler) : Option Scheduler :=
  if 0 < σ.OutstandingPasses then
    (CompleteCycle e (BackgroundPass cam σ.Manager)).map
      (fun res => { Manager := res.2, OutstandingPasses := σ.OutstandingPasses - 1 })
  else none

/-- One step of the scheduler: a registration call, the debounced reconciliation on the next
tick, a timer tick, or the completion of a background pass (whose camera snapshot measures
distances, which are not negative). -/
inductive SchedulerStep : Scheduler → Scheduler → Prop
  | register (e : Engine) (σ : Scheduler) (NewObject : Option UObject) (Tag : ESignificanceTag) :
      SchedulerStep σ (σ.Register e NewObject Tag)
  | deregister (e : Engine) (σ : Scheduler) (OldObject : Option UObject) :
      SchedulerStep σ (σ.Deregister e OldObject)
  | nextTick (e : Engine) (σ : Scheduler) : SchedulerStep σ (σ.NextTick e)
  | timerTick (e : Engine) (CameraValid : Bool) (σ : Scheduler) :
      SchedulerStep σ (σ.TimerTick e CameraValid)
  | passCompletes (e : Engine) (cam : CameraView) (σ σ' : Scheduler) :
      (∀ p, 0 ≤ cam.Dist p) → σ.PassCompletes e cam = some σ' → SchedulerStep σ σ'

/-- The scheduler states reachable from the initialised manager. -/
inductive SchedulerReachable : Scheduler → Prop
  | init : SchedulerReachable Scheduler.initial
  | step {σ σ' : Scheduler} : SchedulerReachable σ → SchedulerStep σ σ' → SchedulerReachable σ'

/-- Every cached significance of the list lies in `[0, 1]`. -/
def CachedInUnit (l : List FSignificanceObject) : Prop :=
  ∀ r ∈ l, 0 ≤ r.CachedSignificance ∧ r.CachedSignificance ≤ 1

/-- The scheduler after object `5000` was registered, reconciled on the next tick and the
timer fired: a background pass is outstanding. -/
def SchedulerInFlight : Scheduler :=
  (((Scheduler.initial.Register PlainEngine (some 5000) .SIG_Gameplay).NextTick
    PlainEngine).TimerTick PlainEngine true)

/-- A camera at the origin that looks along the X axis, for objects on that axis: the distance
is the absolute value of the X coordinate and the facing dot product is taken as `1`. -/
def OriginCamera : CameraView :=
  { Dist := fun p => |p.X|, FacingDot := fun _ => 1 }

/-- The scheduler after the outstanding pass of `SchedulerInFlight` completed with the camera
`OriginCamera`. -/
def SchedulerAfterCycle : Scheduler :=
  { Manager :=
      { IdleWith [⟨5000, .SIG_Gameplay, 3 / 4⟩] [(5000, 0)] with bFirstPassComplete := true }
    OutstandingPasses := 0 }

/-! ## Further observations on trees and boxes -/

/-- Engine `FBox::IsInsideOrOn(FVector)`: the closed test, a point on the surface of the box is
inside. -/
def FBox.IsInsideOrOn (b : FBox) (p : FVector) : Bool :=
  decide (p.X ≥ b.Min.X) && decide (p.X ≤ b.Max.X) &&
  decide (p.Y ≥ b.Min.Y) && decide (p.Y ≤ b.Max.Y) &&
  decide (p.Z ≥ b.Min.Z) && decide (p.Z ≤ b.Max.Z)

/-- For every leaf of a tree, in child order: its `TotalObjectCount` and the number of entries
that its buckets hold. -/
def LeafCounts : FOctreeNode → List (Int × Nat)
  | .leaf d => [(d.TotalObjectCount, (BucketEntries d.ClassBuckets).length)]
  | .node _ Children => (List.finRange 8).flatMap (fun i => LeafCounts (Children i))

/-- The number of children of a node: none for a leaf, the eight of `Children[8]` otherwise. -/
def FOctreeNode.ChildCount : FOctreeNode → Nat
  | .leaf _ => 0
  | .node _ _ => 8

/-- The storage discipline of a tree: a subdivided node holds no buckets, and no bucket of a
leaf is empty. -/
def StorageOK : FOctreeNode → Prop
  | .leaf d => ∀ p ∈ d.ClassBuckets, p.2 ≠ []
  | .node d Children => d.ClassBuckets = [] ∧ ∀ i, StorageOK (Children i)

/-- The property of a recursive call of `Insert`: the storage discipline is kept. -/
def InsertKeepsStorage
    (ins : FOctreeNode → AActor → FVector → UClass → Option FOctreeNode) : Prop :=
  ∀ n o p k n', StorageOK n → ins n o p k = some n' → StorageOK n'

/-! ## Further scenes of the scheduler -/

/-- The engine of `PlainEngine` in which object `1` has no world. -/
def NoWorldEngine : Engine :=
  { PlainEngine with HasWorld := fun o => decide (o ≠ 1) }

/-- The game-thread task that ends a scoring cycle when its final `UpdateContainers` call is not
taken. -/
def CompleteCycleWithoutUpdate (e : Engine) (s : UShoniSignificanceManager) :
    Option (List (UObject × Notification) × UShoniSignificanceManager) :=
  match ReconcileRecords e s.bFirstPassComplete s.RegisteredObjects s.AsyncTransformQueue with
  | some (calls, recs) =>
    some (calls, { s with RegisteredObjects := recs, AsyncTransformQueue := [],
                          bAsyncOperationInProgress := false, bFirstPassComplete := true })
  | none => none

/-- The scheduler after objects `5000` and `10000` were registered and reconciled, the timer
fired (snapshot of two entries), and object `5000` was deregistered and reconciled while the
pass was outstanding. -/
def SchedulerShrunkInFlight : Scheduler :=
  ((((((Scheduler.initial.Register PlainEngine (some 5000) .SIG_Gameplay).Register PlainEngine
    (some 10000) .SIG_Gameplay).NextTick PlainEngine).TimerTick PlainEngine true).Deregister
    PlainEngine (some 5000)).NextTick PlainEngine)

/-- The scheduler after object `5000` was registered and reconciled, the timer fired (snapshot
of one entry), and object `10000` was registered and reconciled while the pass was
outstanding. -/
def SchedulerGrownInFlight : Scheduler :=
  ((SchedulerInFlight.Register PlainEngine (some 10000) .SIG_Gameplay).NextTick PlainEngine)

/-- The scheduler after `RegisterObject` for object `1`, which has no world. -/
def SchedulerStuck : Scheduler :=
  Scheduler.initial.Register NoWorldEngine (some 1) .SIG_Gameplay

/-- The lookup table maps object `o` to the index of a record of `o` whose cached significance
is `0`. -/
def RegisteredFresh (RegisteredObjects : List FSignificanceObject)
    (ObjectLookupTable : List (UObject × Nat)) (o : UObject) : Prop :=
  ∃ i r, TMap.Find ObjectLookupTable o = some i ∧ RegisteredObjects[i]? = some r ∧
    r.Source = o ∧ r.CachedSignificance = 0

/-! ## The order of the results of a leaf -/

/-- The classes of a sequence of `Insert` calls, in the order of their first call. -/
def ClassesInOrder (calls : List (AActor × UClass)) : List UClass :=
  calls.foldl (fun acc x => if x.2 ∈ acc then acc else acc ++ [x.2]) []

/-- The objects of a sequence of `Insert` calls grouped by class: the classes in the order of
their first call, the objects of one class in call order. -/
def GroupedByClass (calls : List (AActor × UClass)) : List AActor :=
  (ClassesInOrder calls).flatMap
    (fun k => (calls.filter (fun x => decide (x.2 = k))).map Prod.fst)

/-- Actor `0` of class `1`, actor `1` of class `2`, actor `2` of class `1`. -/
def InterleavedClasses : List (AActor × UClass) := [(0, 1), (1, 2), (2, 1)]

/-! # Theorems -/

/-! ## Lemmas on buckets -/

theorem mem_BucketEntries {m : List (UClass × List AActor)} {a : AActor} :
    a ∈ BucketEntries m ↔ ∃ p ∈ m, a ∈ p.2 := by
  simp [BucketEntries, List.mem_flatMap]

theorem mem_BucketEntries_BucketAdd {m : List (UClass × List AActor)} {k : UClass}
    {o a : AActor} (h : a ∈ BucketEntries (BucketAdd m k o)) : a = o ∨ a ∈ BucketEntries m := by
  unfold BucketAdd at h
  cases hf : TMap.Find m k with
  | none =>
    rw [hf] at h
    simp [BucketEntries] at h ⊢
    rcases h with h | h
    · exact Or.inr h
    · exact Or.inl h
  | some bucket =>
    rw [hf] at h
    simp only [TMap.Find, Option.map_eq_some'] at hf
    obtain ⟨q, hq, hq2⟩ := hf
    have hqm := List.mem_of_find?_eq_some hq
    rw [mem_BucketEntries] at h
    obtain ⟨p, hp, hap⟩ := h
    simp only [TMap.Set, List.mem_map] at hp
    obtain ⟨p0, hp0, rfl⟩ := hp
    by_cases hk : p0.1 = k
    · simp only [hk, if_true] at hap
      rcases List.mem_append.1 hap with h1 | h1
      · right
        rw [mem_BucketEntries]
        exact ⟨q, hqm, hq2 ▸ h1⟩
      · left
        simpa using h1
    · simp only [hk, if_false] at hap
      right
      rw [mem_BucketEntries]
      exact ⟨p0, hp0, hap⟩

/-! ## Pruning is sound -/

theorem Clamp_sq_le {c lo hi p : ℚ} (h1 : lo < p) (h2 : p < hi) :
    FMath.Square (FMath.Clamp c lo hi - c) ≤ FMath.Square (c - p) := by
  unfold FMath.Clamp FMath.Square
  rcases le_total c hi with h3 | h3 <;> rcases le_total c lo with h4 | h4
  · rw [min_eq_left h3, max_eq_right h4]; nlinarith
  · rw [min_eq_left h3, max_eq_left h4]; nlinarith [sq_nonneg (c - p)]
  · rw [min_eq_right h3, max_eq_left (by linarith)]; nlinarith
  · rw [min_eq_right h3, max_eq_left (by linarith)]; nlinarith

theorem Intersects2D_of_inside {b : FBox} {p : FVector} {c : FVector2D} {r : ℚ}
    (hin : b.IsInside p = true)
    (hd : FVector2D.DistanceLE ⟨p.X, p.Y⟩ c r = true) : Intersects2D b c r = true := by
  simp only [FBox.IsInside, Bool.and_eq_true, decide_eq_true_eq] at hin
  simp only [FVector2D.DistanceLE, Bool.and_eq_true, decide_eq_true_eq,
    FVector2D.DistSquared] at hd
  obtain ⟨⟨⟨⟨⟨hx1, hx2⟩, hy1⟩, hy2⟩, _⟩, _⟩ := hin
  simp only [Intersects2D, decide_eq_true_eq, FVector2D.DistSquared]
  have hX := Clamp_sq_le (c := c.X) hx1 hx2
  have hY := Clamp_sq_le (c := c.Y) hy1 hy2
  have : FMath.Square r = r * r := rfl
  linarith [hd.2]

/-! ## The query against the brute-force scan -/

theorem StoredObjects_inside {loc : AActor → FVector} :
    ∀ n, PositionsInside loc n → ∀ a ∈ StoredObjects n, n.Bounds.IsInside (loc a) = true
  | .leaf _, h, a, ha => h a ha
  | .node _ _, h, a, ha => by
    simp only [StoredObjects, List.mem_flatMap] at ha
    obtain ⟨i, _, hi⟩ := ha
    exact h.2 i a hi

theorem filter_flatMap_eq {α β : Type} (p : β → Bool) (f : α → List β) (l : List α) :
    (l.flatMap f).filter p = l.flatMap (fun x => (f x).filter p) := by
  induction l with
  | nil => rfl
  | cons x xs ih => simp [List.flatMap_cons, List.filter_append, ih]

theorem filter_pruned {loc : AActor → FVector} {n : FOctreeNode} {c : FVector2D} {r : ℚ}
    (h : PositionsInside loc n) (hp : Intersects2D n.Bounds c r = false) :
    (StoredObjects n).filter (InQueryRange loc c r) = [] := by
  rw [List.filter_eq_nil_iff]
  intro a ha hq
  have hin := StoredObjects_inside n h a ha
  have := Intersects2D_of_inside (c := c) (r := r) hin hq
  rw [hp] at this
  exact Bool.noConfusion this

theorem Query_none_eq_filter (loc : AActor → FVector) (c : FVector2D) (r : ℚ) :
    ∀ n, PositionsInside loc n →
      QueryOctree2D loc n c r none = (StoredObjects n).filter (InQueryRange loc c r) := by
  intro n
  induction n with
  | leaf d =>
    intro h
    cases hI : Intersects2D d.Bounds c r with
    | false =>
      rw [filter_pruned h (by simpa [FOctreeNode.Bounds, FOctreeNode.data] using hI)]
      simp [QueryOctree2D, hI]
    | true => simp [QueryOctree2D, hI, StoredObjects]
  | node d ch ih =>
    intro h
    cases hI : Intersects2D d.Bounds c r with
    | false =>
      rw [filter_pruned h (by simpa [FOctreeNode.Bounds, FOctreeNode.data] using hI)]
      simp [QueryOctree2D, hI]
    | true =>
      simp only [QueryOctree2D, hI, StoredObjects, filter_flatMap_eq]
      have : ∀ i, QueryOctree2D loc (ch i) c r none
          = (StoredObjects (ch i)).filter (InQueryRange loc c r) := fun i => ih i (h.1 i)
      simp [this]

/-! ## `Insert` keeps every stored object inside the bounds of its nodes -/

theorem update_child_keeps {loc : AActor → FVector} {ch : Fin 8 → FOctreeNode} {i : Fin 8}
    {c : FOctreeNode} {o : AActor} (hch : ∀ j, PositionsInside loc (ch j))
    (hc : PositionsInside loc c ∧ c.Bounds = (ch i).Bounds ∧
      ∀ a ∈ StoredObjects c, a = o ∨ a ∈ StoredObjects (ch i)) :
    (∀ j, PositionsInside loc (Function.update ch i c j)) ∧
    (∀ j, (Function.update ch i c j).Bounds = (ch j).Bounds) ∧
    ∀ j, ∀ a ∈ StoredObjects (Function.update ch i c j), a = o ∨ a ∈ StoredObjects (ch j) := by
  refine ⟨fun j => ?_, fun j => ?_, fun j a ha => ?_⟩
  · by_cases hj : j = i
    · subst hj; simpa using hc.1
    · simpa [Function.update_noteq hj] using hch j
  · by_cases hj : j = i
    · subst hj; simpa using hc.2.1
    · simp [Function.update_noteq hj]
  · by_cases hj : j = i
    · subst hj
      rw [Function.update_same] at ha
      exact hc.2.2 a ha
    · rw [Function.update_noteq hj] at ha
      exact Or.inr ha

theorem ReinsertExisting_keeps {loc : AActor → FVector}
    {ins : FOctreeNode → AActor → FVector → UClass → Option FOctreeNode}
    (hins : InsertKeeps loc ins) {k : UClass} {ch ch' : Fin 8 → FOctreeNode} {e : AActor}
    (hch : ∀ j, PositionsInside loc (ch j))
    (h : ReinsertExisting loc ins k ch e = some ch') :
    (∀ j, PositionsInside loc (ch' j)) ∧ (∀ j, (ch' j).Bounds = (ch j).Bounds) ∧
    ∀ j, ∀ a ∈ StoredObjects (ch' j), a = e ∨ a ∈ StoredObjects (ch j) := by
  unfold ReinsertExisting at h
  cases hf : FindChild ch (loc e) with
  | none =>
    simp only [hf, Option.some.injEq] at h
    subst h
    exact ⟨hch, fun _ => rfl, fun _ _ ha => Or.inr ha⟩
  | some i =>
    simp only [hf, Option.map_eq_some'] at h
    obtain ⟨c, hc, rfl⟩ := h
    exact update_child_keeps hch (hins _ _ _ _ (hch i) hc)

theorem Redistribute_keeps {loc : AActor → FVector}
    {ins : FOctreeNode → AActor → FVector → UClass → Option FOctreeNode}
    (hins : InsertKeeps loc ins) (k : UClass) :
    ∀ (es : List AActor) (ch ch' : Fin 8 → FOctreeNode),
      (∀ j, PositionsInside loc (ch j)) →
      es.foldlM (ReinsertExisting loc ins k) ch = some ch' →
      (∀ j, PositionsInside loc (ch' j)) ∧ (∀ j, (ch' j).Bounds = (ch j).Bounds) ∧
      ∀ j, ∀ a ∈ StoredObjects (ch' j), a ∈ es ∨ a ∈ StoredObjects (ch j) := by
  intro es
  induction es with
  | nil =>
    intro ch ch' hch h
    simp only [List.foldlM_nil, pure, Option.some.injEq] at h
    subst h
    exact ⟨hch, fun _ => rfl, fun _ _ ha => Or.inr ha⟩
  | cons e es ih =>
    intro ch ch' hch h
    rw [List.foldlM_cons] at h
    cases h1 : ReinsertExisting loc ins k ch e with
    | none => simp [h1, bind, Option.bind] at h
    | some ch1 =>
      simp only [h1, bind, Option.bind] at h
      have s1 := ReinsertExisting_keeps hins hch h1
      have s2 := ih ch1 ch' s1.1 h
      refine ⟨s2.1, fun j => (s2.2.1 j).trans (s1.2.1 j), fun j a ha => ?_⟩
      rcases s2.2.2 j a ha with h3 | h3
      · exact Or.inl (List.mem_cons_of_mem _ h3)
      · rcases s1.2.2 j a h3 with h4 | h4
        · exact Or.inl (h4 ▸ List.mem_cons_self _ _)
        · exact Or.inr h4

theorem InsertIntoChild_keeps {loc : AActor → FVector}
    {ins : FOctreeNode → AActor → FVector → UClass → Option FOctreeNode}
    (hins : InsertKeeps loc ins) {d : FOctreeNodeData} {ch : Fin 8 → FOctreeNode}
    {o : AActor} {k : UClass} {n' : FOctreeNode}
    (hch : ∀ j, PositionsInside loc (ch j))
    (h : InsertIntoChild ins d ch o (loc o) k = some n') :
    ∃ ch', n' = .node d ch' ∧
      (∀ j, PositionsInside loc (ch' j)) ∧ (∀ j, (ch' j).Bounds = (ch j).Bounds) ∧
      ∀ j, ∀ a ∈ StoredObjects (ch' j), a = o ∨ a ∈ StoredObjects (ch j) := by
  unfold InsertIntoChild at h
  cases hf : FindChild ch (loc o) with
  | none =>
    simp only [hf, Option.some.injEq] at h
    exact ⟨ch, h.symm, hch, fun _ => rfl, fun _ _ ha => Or.inr ha⟩
  | some i =>
    simp only [hf, Option.map_eq_some'] at h
    obtain ⟨c, hc, rfl⟩ := h
    exact ⟨_, rfl, update_child_keeps hch (hins _ _ _ _ (hch i) hc)⟩

theorem Subdivide_PositionsInside (loc : AActor → FVector) (d : FOctreeNodeData) (j : Fin 8) :
    PositionsInside loc (Subdivide d j) := by
  intro a ha
  simp [BucketEntries] at ha

theorem Subdivide_StoredObjects (d : FOctreeNodeData) (j : Fin 8) :
    StoredObjects (Subdivide d j) = [] := rfl

theorem Insert_keeps (loc : AActor → FVector) :
    ∀ fuel, InsertKeeps loc (FOctreeNode.Insert loc fuel) := by
  intro fuel
  induction fuel with
  | zero => intro n o k n' _ h; simp [FOctreeNode.Insert] at h
  | succ fuel ih =>
    intro n o k n' hn h
    cases hin : n.Bounds.IsInside (loc o) with
    | false =>
      simp only [FOctreeNode.Insert, hin, Bool.not_false, if_true, Option.some.injEq] at h
      subst h
      exact ⟨hn, rfl, fun _ ha => Or.inr ha⟩
    | true =>
      cases n with
      | leaf d =>
        simp only [FOctreeNode.Insert, hin, Bool.not_true, Bool.false_eq_true, if_false] at h
        split_ifs at h with hroom
        · simp only [Option.some.injEq] at h
          subst h
          refine ⟨?_, rfl, ?_⟩
          · intro a ha
            rcases mem_BucketEntries_BucketAdd ha with h1 | h1
            · subst h1; exact hin
            · exact hn a h1
          · intro a ha
            exact mem_BucketEntries_BucketAdd ha
        · cases hr : (BucketEntries d.ClassBuckets).foldlM
              (ReinsertExisting loc (FOctreeNode.Insert loc fuel) k) (Subdivide d) with
          | none => simp [hr] at h
          | some ch1 =>
            simp only [hr] at h
            have s1 := Redistribute_keeps ih k _ _ _ (Subdivide_PositionsInside loc d) hr
            obtain ⟨ch2, rfl, s2⟩ := InsertIntoChild_keeps ih s1.1 h
            have key : ∀ j, ∀ a ∈ StoredObjects (ch2 j),
                a = o ∨ a ∈ BucketEntries d.ClassBuckets := by
              intro j a ha
              rcases s2.2.2 j a ha with h3 | h3
              · exact Or.inl h3
              · rcases s1.2.2 j a h3 with h4 | h4
                · exact Or.inr h4
                · rw [Subdivide_StoredObjects] at h4
                  exact absurd h4 (List.not_mem_nil _)
            refine ⟨⟨s2.1, ?_⟩, rfl, ?_⟩
            · intro j a ha
              rcases key j a ha with h3 | h3
              · subst h3; exact hin
              · exact hn a h3
            · intro a ha
              simp only [StoredObjects, List.mem_flatMap] at ha
              obtain ⟨j, _, hj⟩ := ha
              exact key j a hj
      | node d ch =>
        simp only [FOctreeNode.Insert, hin, Bool.not_true, Bool.false_eq_true, if_false] at h
        obtain ⟨ch2, rfl, s2⟩ := InsertIntoChild_keeps ih hn.1 h
        refine ⟨⟨s2.1, ?_⟩, rfl, ?_⟩
        · intro j a ha
          rcases s2.2.2 j a ha with h3 | h3
          · subst h3; exact hin
          · exact hn.2 j a h3
        · intro a ha
          simp only [StoredObjects, List.mem_flatMap] at ha ⊢
          obtain ⟨j, hj1, hj⟩ := ha
          rcases s2.2.2 j a hj with h3 | h3
          · exact Or.inl h3
          · exact Or.inr ⟨j, hj1, h3⟩

theorem Built_PositionsInside {loc : AActor → FVector} {t : FOctreeNode} (h : Built loc t) :
    PositionsInside loc t := by
  induction h with
  | init c d => intro a ha; simp [BucketEntries] at ha
  | reset c d => intro a ha; simp [BucketEntries] at ha
  | insert fuel o k _ hins ih => exact (Insert_keeps loc fuel _ _ _ _ ih hins).1

/-! ## `Insert` returns on every tree made by `Initialize` / `ResetOctree` and `Insert` -/

theorem update_child_depth {md D : Int} {ch : Fin 8 → FOctreeNode} {i : Fin 8}
    {c : FOctreeNode} (hch : ∀ j, (ch j).data.Depth = D ∧ DepthOK md (ch j))
    (hc : DepthOK md c ∧ c.data.Depth = (ch i).data.Depth) :
    ∀ j, (Function.update ch i c j).data.Depth = D ∧ DepthOK md (Function.update ch i c j) := by
  intro j
  by_cases hj : j = i
  · subst hj
    simp only [Function.update_same]
    exact ⟨hc.2.trans (hch j).1, hc.1⟩
  · simpa [Function.update_noteq hj] using hch j

theorem ReinsertExisting_depth {loc : AActor → FVector} {md D : Int}
    {ins : FOctreeNode → AActor → FVector → UClass → Option FOctreeNode}
    (hins : InsertKeepsDepth md ins) {k : UClass} {ch ch' : Fin 8 → FOctreeNode} {e : AActor}
    (hch : ∀ j, (ch j).data.Depth = D ∧ DepthOK md (ch j))
    (h : ReinsertExisting loc ins k ch e = some ch') :
    ∀ j, (ch' j).data.Depth = D ∧ DepthOK md (ch' j) := by
  unfold ReinsertExisting at h
  cases hf : FindChild ch (loc e) with
  | none =>
    simp only [hf, Option.some.injEq] at h
    exact h ▸ hch
  | some i =>
    simp only [hf, Option.map_eq_some'] at h
    obtain ⟨c, hc, rfl⟩ := h
    exact update_child_depth hch (hins _ _ _ _ _ (hch i).2 hc)

theorem Redistribute_depth {loc : AActor → FVector} {md D : Int}
    {ins : FOctreeNode → AActor → FVector → UClass → Option FOctreeNode}
    (hins : InsertKeepsDepth md ins) (k : UClass) :
    ∀ (es : List AActor) (ch ch' : Fin 8 → FOctreeNode),
      (∀ j, (ch j).data.Depth = D ∧ DepthOK md (ch j)) →
      es.foldlM (ReinsertExisting loc ins k) ch = some ch' →
      ∀ j, (ch' j).data.Depth = D ∧ DepthOK md (ch' j) := by
  intro es
  induction es with
  | nil =>
    intro ch ch' hch h
    simp only [List.foldlM_nil, pure, Option.some.injEq] at h
    exact h ▸ hch
  | cons e es ih =>
    intro ch ch' hch h
    rw [List.foldlM_cons] at h
    cases h1 : ReinsertExisting loc ins k ch e with
    | none => simp [h1, bind, Option.bind] at h
    | some ch1 =>
      simp only [h1, bind, Option.bind] at h
      exact ih ch1 ch' (ReinsertExisting_depth hins hch h1) h

theorem InsertIntoChild_depth {md D : Int}
    {ins : FOctreeNode → AActor → FVector → UClass → Option FOctreeNode}
    (hins : InsertKeepsDepth md ins) {d : FOctreeNodeData} {ch : Fin 8 → FOctreeNode}
    {o : AActor} {p : FVector} {k : UClass} {n' : FOctreeNode}
    (hch : ∀ j, (ch j).data.Depth = D ∧ DepthOK md (ch j))
    (h : InsertIntoChild ins d ch o p k = some n') :
    ∃ ch', n' = .node d ch' ∧ ∀ j, (ch' j).data.Depth = D ∧ DepthOK md (ch' j) := by
  unfold InsertIntoChild at h
  cases hf : FindChild ch p with
  | none =>
    simp only [hf, Option.some.injEq] at h
    exact ⟨ch, h.symm, hch⟩
  | some i =>
    simp only [hf, Option.map_eq_some'] at h
    obtain ⟨c, hc, rfl⟩ := h
    exact ⟨_, rfl, update_child_depth hch (hins _ _ _ _ _ (hch i).2 hc)⟩

theorem Subdivide_depth {md : Int} {d : FOctreeNodeData} (h1 : d.MaxDepth = md)
    (h2 : d.Depth < md) (j : Fin 8) :
    (Subdivide d j).data.Depth = d.Depth + 1 ∧ DepthOK md (Subdivide d j) := by
  refine ⟨rfl, ?_⟩
  show d.MaxDepth = md ∧ d.Depth + 1 ≤ md
  exact ⟨h1, by omega⟩

theorem Insert_keeps_depth (loc : AActor → FVector) (md : Int) :
    ∀ fuel, InsertKeepsDepth md (FOctreeNode.Insert loc fuel) := by
  intro fuel
  induction fuel with
  | zero => intro n o p k n' _ h; simp [FOctreeNode.Insert] at h
  | succ fuel ih =>
    intro n o p k n' hn h
    cases hin : n.Bounds.IsInside p with
    | false =>
      simp only [FOctreeNode.Insert, hin, Bool.not_false, if_true, Option.some.injEq] at h
      subst h
      exact ⟨hn, rfl⟩
    | true =>
      cases n with
      | leaf d =>
        simp only [FOctreeNode.Insert, hin, Bool.not_true, Bool.false_eq_true, if_false] at h
        split_ifs at h with hroom
        · simp only [Option.some.injEq] at h
          subst h
          exact ⟨hn, rfl⟩
        · have hlt : d.Depth < md := by
            have h1 := hn.1
            have h2 := hn.2
            have h3 : d.Depth ≠ d.MaxDepth := fun hh => hroom (Or.inr hh)
            omega
          cases hr : (BucketEntries d.ClassBuckets).foldlM
              (ReinsertExisting loc (FOctreeNode.Insert loc fuel) k) (Subdivide d) with
          | none => simp [hr] at h
          | some ch1 =>
            simp only [hr] at h
            have s1 := Redistribute_depth ih k _ _ _ (Subdivide_depth hn.1 hlt) hr
            obtain ⟨ch2, rfl, s2⟩ := InsertIntoChild_depth ih s1 h
            exact ⟨⟨hn.1, hlt, s2⟩, rfl⟩
      | node d ch =>
        simp only [FOctreeNode.Insert, hin, Bool.not_true, Bool.false_eq_true, if_false] at h
        obtain ⟨ch2, rfl, s2⟩ := InsertIntoChild_depth ih hn.2.2 h
        exact ⟨⟨hn.1, hn.2.1, s2⟩, rfl⟩

theorem DepthOK_le {md : Int} : ∀ n, DepthOK md n → n.data.Depth ≤ md
  | .leaf _, h => h.2
  | .node _ _, h => le_of_lt h.2.1

theorem ReinsertExisting_returns (loc : AActor → FVector) {md D budget : Int}
    {ins : FOctreeNode → AActor → FVector → UClass → Option FOctreeNode}
    (hret : InsertReturns md budget ins) (hD : md - D < budget) (k : UClass)
    (ch : Fin 8 → FOctreeNode) (e : AActor)
    (hch : ∀ j, (ch j).data.Depth = D ∧ DepthOK md (ch j)) :
    ∃ ch', ReinsertExisting loc ins k ch e = some ch' := by
  cases hf : FindChild ch (loc e) with
  | none => exact ⟨ch, by simp [ReinsertExisting, hf]⟩
  | some i =>
    obtain ⟨c, hc⟩ := hret (ch i) e (loc e) k (hch i).2 (by rw [(hch i).1]; exact hD)
    exact ⟨Function.update ch i c, by simp [ReinsertExisting, hf, hc]⟩

theorem Redistribute_returns (loc : AActor → FVector) {md D budget : Int}
    {ins : FOctreeNode → AActor → FVector → UClass → Option FOctreeNode}
    (hins : InsertKeepsDepth md ins) (hret : InsertReturns md budget ins)
    (hD : md - D < budget) (k : UClass) :
    ∀ (es : List AActor) (ch : Fin 8 → FOctreeNode),
      (∀ j, (ch j).data.Depth = D ∧ DepthOK md (ch j)) →
      ∃ ch', es.foldlM (ReinsertExisting loc ins k) ch = some ch' := by
  intro es
  induction es with
  | nil => intro ch _; exact ⟨ch, rfl⟩
  | cons e es ih =>
    intro ch hch
    obtain ⟨ch1, h1⟩ := ReinsertExisting_returns loc hret hD k ch e hch
    obtain ⟨ch2, h2⟩ := ih ch1 (ReinsertExisting_depth hins hch h1)
    exact ⟨ch2, by rw [List.foldlM_cons, h1]; exact h2⟩

theorem InsertIntoChild_returns {md D budget : Int}
    {ins : FOctreeNode → AActor → FVector → UClass → Option FOctreeNode}
    (hret : InsertReturns md budget ins) (hD : md - D < budget)
    (d : FOctreeNodeData) (ch : Fin 8 → FOctreeNode) (o : AActor) (p : FVector) (k : UClass)
    (hch : ∀ j, (ch j).data.Depth = D ∧ DepthOK md (ch j)) :
    ∃ n', InsertIntoChild ins d ch o p k = some n' := by
  cases hf : FindChild ch p with
  | none => exact ⟨.node d ch, by simp [InsertIntoChild, hf]⟩
  | some i =>
    obtain ⟨c, hc⟩ := hret (ch i) o p k (hch i).2 (by rw [(hch i).1]; exact hD)
    exact ⟨.node d (Function.update ch i c), by simp [InsertIntoChild, hf, hc]⟩

theorem Insert_returns (loc : AActor → FVector) (md : Int) :
    ∀ fuel : Nat, InsertReturns md fuel (FOctreeNode.Insert loc fuel) := by
  intro fuel
  induction fuel with
  | zero =>
    intro n o p k hn hb
    have := DepthOK_le n hn
    simp only [Nat.cast_zero] at hb
    omega
  | succ fuel ih =>
    intro n o p k hn hb
    have hkeep := Insert_keeps_depth loc md fuel
    cases hin : n.Bounds.IsInside p with
    | false => exact ⟨n, by simp [FOctreeNode.Insert, hin]⟩
    | true =>
      cases n with
      | leaf d =>
        simp only [FOctreeNode.Insert, hin, Bool.not_true, Bool.false_eq_true, if_false]
        split_ifs with hroom
        · exact ⟨_, rfl⟩
        · have hlt : d.Depth < md := by
            have h1 := hn.1
            have h2 := hn.2
            have h3 : d.Depth ≠ d.MaxDepth := fun hh => hroom (Or.inr hh)
            omega
          have hD : md - (d.Depth + 1) < (fuel : Int) := by
            simp only [FOctreeNode.data, Nat.cast_add, Nat.cast_one] at hb
            omega
          obtain ⟨ch1, hr⟩ := Redistribute_returns loc hkeep ih hD k
            (BucketEntries d.ClassBuckets) (Subdivide d) (Subdivide_depth hn.1 hlt)
          rw [hr]
          exact InsertIntoChild_returns ih hD _ ch1 o p k
            (Redistribute_depth hkeep k _ _ _ (Subdivide_depth hn.1 hlt) hr)
      | node d ch =>
        simp only [FOctreeNode.Insert, hin, Bool.not_true, Bool.false_eq_true, if_false]
        have hD : md - (d.Depth + 1) < (fuel : Int) := by
          simp only [FOctreeNode.data, Nat.cast_add, Nat.cast_one] at hb
          omega
        exact InsertIntoChild_returns ih hD d ch o p k hn.2.2

theorem Built_DepthOK {loc : AActor → FVector} {t : FOctreeNode} (h : Built loc t) :
    ∃ md : Int, md ≤ 10 ∧ DepthOK md t ∧ t.data.Depth = 0 := by
  induction h with
  | init c d => exact ⟨3, by norm_num, ⟨rfl, by simp [Initialize, FOctreeNode.new]⟩, rfl⟩
  | reset c d => exact ⟨10, le_refl _, ⟨rfl, by simp [ResetOctree, FOctreeNode.new]⟩, rfl⟩
  | insert fuel o k _ hins ih =>
    obtain ⟨md, h1, h2, h3⟩ := ih
    have := Insert_keeps_depth loc md fuel _ _ _ _ _ h2 hins
    exact ⟨md, h1, this.1, this.2.trans h3⟩

/-- On a tree built from an initialized root by `Insert` calls, every `Insert` returns, with
at most eleven nested calls. -/
theorem Built_Insert_returns {loc : AActor → FVector} {t : FOctreeNode} (h : Built loc t)
    (Object : AActor) (ObjectLocation : FVector) (ClassKey : UClass) :
    ∃ t', t.Insert loc 11 Object ObjectLocation ClassKey = some t' := by
  obtain ⟨md, h1, h2, h3⟩ := Built_DepthOK h
  exact Insert_returns loc md 11 t Object ObjectLocation ClassKey h2
    (by rw [h3]; simp only [Nat.cast_ofNat]; omega)

/-! ## Claims on the spatial index -/

theorem Built_InsertAll {loc : AActor → FVector} (fuel : Nat) :
    ∀ (calls : List (AActor × UClass)) (t t' : FOctreeNode),
      Built loc t → InsertAll loc fuel calls t = some t' → Built loc t' := by
  intro calls
  induction calls with
  | nil =>
    intro t t' ht h
    simp only [InsertAll, Option.some.injEq] at h
    exact h ▸ ht
  | cons c cs ih =>
    intro t t' ht h
    obtain ⟨o, k⟩ := c
    simp only [InsertAll, Option.bind_eq_some] at h
    obtain ⟨t1, h1, h2⟩ := h
    exact ih t1 t' (Built.insert fuel o k ht h1) h2

theorem TreeAfter_eq {loc : AActor → FVector} {calls : List (AActor × UClass)}
    (h : (InsertAll loc 5 calls Root1000).isSome = true) :
    InsertAll loc 5 calls Root1000 = some (TreeAfter loc calls) := by
  unfold TreeAfter
  cases hx : InsertAll loc 5 calls Root1000 with
  | none => rw [hx] at h; exact Bool.noConfusion h
  | some v => rfl

theorem Built_TreeAfter {loc : AActor → FVector} {calls : List (AActor × UClass)}
    (h : (InsertAll loc 5 calls Root1000).isSome = true) : Built loc (TreeAfter loc calls) :=
  Built_InsertAll 5 calls _ _ (Built.init _ _) (TreeAfter_eq h)

theorem InQueryRange_iff (loc : AActor → FVector) (c : FVector2D) (r : ℚ) (hr : 0 ≤ r)
    (a : AActor) :
    InQueryRange loc c r a
      = decide (((loc a).X - c.X) ^ 2 + ((loc a).Y - c.Y) ^ 2 ≤ r ^ 2) := by
  simp only [InQueryRange, FVector2D.DistanceLE, FVector2D.DistSquared, FMath.Square, hr,
    decide_True, Bool.true_and]
  congr 1
  rw [eq_iff_iff]
  constructor <;> intro h <;> nlinarith [h]

/-- C1: on every tree built from an initialized root by `Insert` calls that are passed the
object's own location, a query without class filter and with a radius `>= 0` returns exactly
the brute-force scan of all leaves restricted to the objects whose XY position lies within the
radius of the centre (same objects, same multiplicities, even the same order). -/
theorem C1_query_eq_bruteforce_scan (loc : AActor → FVector) (t : FOctreeNode)
    (hbuilt : Built loc t) (c : FVector2D) (r : ℚ) (hr : 0 ≤ r) :
    QueryOctree2D loc t c r none
      = (StoredObjects t).filter
          (fun a => decide (((loc a).X - c.X) ^ 2 + ((loc a).Y - c.Y) ^ 2 ≤ r ^ 2)) := by
  rw [Query_none_eq_filter loc c r t (Built_PositionsInside hbuilt)]
  congr 1
  funext a
  exact InQueryRange_iff loc c r hr a

/-- Witness of C1: the tree after eleven inserts (one subdivision on the way), queried with
radius 5 around `(3, 3)`. -/
theorem C1_query_eq_bruteforce_scan_witness :
    Built ShiftedWorld (TreeAfter ShiftedWorld ElevenOfClass7) ∧ (0 : ℚ) ≤ 5 ∧
    QueryOctree2D ShiftedWorld (TreeAfter ShiftedWorld ElevenOfClass7) ⟨3, 3⟩ 5 none
      = (StoredObjects (TreeAfter ShiftedWorld ElevenOfClass7)).filter
          (fun a => decide (((ShiftedWorld a).X - 3) ^ 2 + ((ShiftedWorld a).Y - 3) ^ 2
            ≤ (5 : ℚ) ^ 2)) :=
  ⟨Built_TreeAfter (by decide!), by norm_num,
    C1_query_eq_bruteforce_scan ShiftedWorld _ (Built_TreeAfter (by decide!)) ⟨3, 3⟩ 5
      (by norm_num)⟩

/-- C2 fails on the code: an actor stored under class `7` only is returned by a query that
filters on class `8`, because a visited leaf without a bucket for the filter class falls into
the branch that scans every bucket. -/
theorem C2_filter_returns_other_class :
    (InsertAll ShiftedWorld 5 [(0, 7)] Root1000).map
      (fun t => (StoredUnder 8 t, StoredUnder 7 t,
        QueryOctree2D ShiftedWorld t ⟨1, 1⟩ 1 (some 8)))
      = some ([], [0], [0]) := by
  decide!

/-- C3 fails on the code: actor `0` is inserted at `(0,0,0)`, inside the root with bounds
`+-1000`, and a query around it returns it; the eleventh insert subdivides the root, the
centre lies strictly inside no octant, and actor `0` is gone from the tree and from the
query around its position. -/
theorem C3_centre_entity_lost :
    Root1000.Bounds.IsInside (DiagonalWorld 0) = true ∧
    (InsertAll DiagonalWorld 5 [(0, 7)] Root1000).map
      (fun t => QueryOctree2D DiagonalWorld t ⟨0, 0⟩ 1 none) = some [0] ∧
    (InsertAll DiagonalWorld 5 ElevenOfClass7 Root1000).map
      (fun t => (QueryOctree2D DiagonalWorld t ⟨0, 0⟩ 1 none, StoredObjects t))
      = some ([], [1, 2, 3, 4, 5, 6, 7, 8, 9, 10]) := by
  decide!

/-- C4 fails on the code: actor `0` is inserted once, with class `1`; the eleventh insert (of
class `2`) subdivides and files actor `0` under class `2`, so `Remove(0, pos, 1)` finds no
bucket of class `1` and a query at the position of actor `0` still returns it. -/
theorem C4_removed_entity_still_returned :
    (InsertAll ShiftedWorld 5 TenOfClass1ThenClass2 Root1000).map
      (fun t => QueryOctree2D ShiftedWorld (t.Remove 0 (ShiftedWorld 0) 1) ⟨1, 1⟩ 0 none)
      = some [0] := by
  decide!

/-- C5 fails on the code: a leaf holding ten actors of class `1` subdivides on the insert of an
actor of class `2`; afterwards nothing is stored under class `1` and all eleven actors are
stored under class `2`. -/
theorem C5_redistribution_uses_new_class :
    (InsertAll ShiftedWorld 5 (TenOfClass1ThenClass2.take 10) Root1000).map (StoredUnder 1)
      = some [0, 1, 2, 3, 4, 5, 6, 7, 8, 9] ∧
    (InsertAll ShiftedWorld 5 TenOfClass1ThenClass2 Root1000).map
      (fun t => (StoredUnder 1 t, StoredUnder 2 t))
      = some ([], [0, 1, 2, 3, 4, 5, 6, 7, 8, 9, 10]) := by
  decide!

/-! ## Claims on the significance manager -/

/-- C6 fails on the code: with records `[1, 2]` and a consistent table, deregistering entity
`1` swaps the record of entity `2` into slot `0` but leaves the table entry `2 -> 1`, which
now points past the end of the record sequence. -/
theorem C6_swap_removal_leaves_stale_index :
    Run [.Register 1 .SIG_Gameplay, .Register 2 .SIG_Gameplay, .NextTick]
      = some (IdleWith [⟨1, .SIG_Gameplay, 0⟩, ⟨2, .SIG_Gameplay, 0⟩] [(1, 0), (2, 1)]) ∧
    IndexConsistent (IdleWith [⟨1, .SIG_Gameplay, 0⟩, ⟨2, .SIG_Gameplay, 0⟩] [(1, 0), (2, 1)]) ∧
    Run [.Register 1 .SIG_Gameplay, .Register 2 .SIG_Gameplay, .NextTick, .Deregister 1,
      .NextTick] = some (IdleWith [⟨2, .SIG_Gameplay, 0⟩] [(2, 1)]) ∧
    ¬ IndexConsistent (IdleWith [⟨2, .SIG_Gameplay, 0⟩] [(2, 1)]) := by
  refine ⟨by decide!, ⟨?_, ?_⟩, by decide!, ?_⟩
  · intro i r hr
    match i, hr with
    | 0, hr =>
      simp only [IdleWith, List.getElem?_cons_zero, Option.some.injEq] at hr
      subst hr
      decide
    | 1, hr =>
      simp only [IdleWith, List.getElem?_cons_succ, List.getElem?_cons_zero,
        Option.some.injEq] at hr
      subst hr
      decide
    | n + 2, hr => simp [IdleWith] at hr
  · intro p hp
    simp only [IdleWith, List.mem_cons, List.mem_singleton, List.not_mem_nil, or_false] at hp
    rcases hp with rfl | rfl
    · exact ⟨_, rfl, rfl⟩
    · exact ⟨_, rfl, rfl⟩
  · intro hc
    have := hc.1 0 ⟨2, .SIG_Gameplay, 0⟩ rfl
    exact absurd this (by decide)

/-- C7 fails on the code: after entity `5000` is deregistered, the registered entity `15000`
(cached significance `1/4`) reads `0`; after entity `2000` is registered and scored `9/10`,
`GetSignificance 15000` is `9/10`, the cached score of entity `2000`. -/
theorem C7_GetSignificance_reads_wrong_record :
    (Run [.Register 5000 .SIG_Gameplay, .Register 10000 .SIG_Gameplay,
      .Register 15000 .SIG_Gameplay, .NextTick, .TimerTick, .PassCompletes, .Deregister 5000,
      .NextTick]).map (fun s => (s.RegisteredObjects, GetSignificance s 15000))
      = some ([⟨15000, .SIG_Gameplay, 1 / 4⟩, ⟨10000, .SIG_Gameplay, 1 / 2⟩], 0) ∧
    (Run [.Register 5000 .SIG_Gameplay, .Register 10000 .SIG_Gameplay,
      .Register 15000 .SIG_Gameplay, .NextTick, .TimerTick, .PassCompletes, .Deregister 5000,
      .NextTick, .Register 2000 .SIG_Gameplay, .NextTick, .TimerTick, .PassCompletes]).map
        (fun s => (s.RegisteredObjects, GetSignificance s 15000))
      = some ([⟨15000, .SIG_Gameplay, 1 / 4⟩, ⟨10000, .SIG_Gameplay, 1 / 2⟩,
          ⟨2000, .SIG_Gameplay, 9 / 10⟩], 9 / 10) := by
  decide!

/-- C8 fails on the code: from the consistent registry `[1, 2, 3]` with entities `1` and `3`
queued for removal, one `UpdateContainers` removes entity `1` only; entity `3`, moved into
slot `0`, keeps its record and its (stale) table entry. -/
theorem C8_queued_entity_survives_reconcile :
    (Run [.Register 1 .SIG_Gameplay, .Register 2 .SIG_Gameplay, .Register 3 .SIG_Gameplay,
      .NextTick, .Deregister 1, .Deregister 3]).map (fun s => (Registry s, s.ElementsToRemove))
      = some (([⟨1, .SIG_Gameplay, 0⟩, ⟨2, .SIG_Gameplay, 0⟩, ⟨3, .SIG_Gameplay, 0⟩],
          [(1, 0), (2, 1), (3, 2)]), [1, 3]) ∧
    (Run [.Register 1 .SIG_Gameplay, .Register 2 .SIG_Gameplay, .Register 3 .SIG_Gameplay,
      .NextTick, .Deregister 1, .Deregister 3, .NextTick]).map Registry
      = some ([⟨3, .SIG_Gameplay, 0⟩, ⟨2, .SIG_Gameplay, 0⟩], [(2, 1), (3, 2)]) := by
  decide!

/-- C9 fails on the code: two `RegisterObject` calls for entity `1` in one tick leave two
records for it after the reconciliation, and so do two calls in different ticks. -/
theorem C9_double_register_two_records :
    (Run [.Register 1 .SIG_Gameplay, .Register 1 .SIG_Gameplay, .NextTick]).map Registry
      = some ([⟨1, .SIG_Gameplay, 0⟩, ⟨1, .SIG_Gameplay, 0⟩], [(1, 1)]) ∧
    (Run [.Register 1 .SIG_Gameplay, .NextTick, .Register 1 .SIG_Gameplay, .NextTick]).map
      Registry = some ([⟨1, .SIG_Gameplay, 0⟩, ⟨1, .SIG_Gameplay, 0⟩], [(1, 1)]) := by
  decide!

/-- C10: for every first-pass flag, validity, category, kind, old and new score, the interface
calls selected by the loop body of the game-thread task are exactly the notification of the
decision table of the specification, and there is at most one call. -/
theorem C10_selected_notification_eq_decision_table (bFirstPassComplete SourceValid : Bool)
    (Tag : ESignificanceTag) (IsVillager : Bool) (CachedSignificance Value : ℚ) :
    SelectNotifications bFirstPassComplete SourceValid Tag IsVillager CachedSignificance Value
      = (SpecNotification bFirstPassComplete SourceValid Tag IsVillager CachedSignificance
          Value).toList ∧
    (SelectNotifications bFirstPassComplete SourceValid Tag IsVillager CachedSignificance
      Value).length ≤ 1 := by
  have key : SelectNotifications bFirstPassComplete SourceValid Tag IsVillager
      CachedSignificance Value
      = (SpecNotification bFirstPassComplete SourceValid Tag IsVillager CachedSignificance
          Value).toList := by
    unfold SelectNotifications SpecNotification
    cases bFirstPassComplete <;> cases SourceValid <;> cases IsVillager <;>
      rcases lt_or_le 0 Value with h1 | h1 <;>
      rcases lt_or_le 0 CachedSignificance with h2 | h2 <;>
      by_cases h3 : Tag = ESignificanceTag.SIG_Niagara <;>
      simp [h1, h2, h3, not_le_of_lt, not_lt_of_le]
  refine ⟨key, ?_⟩
  rw [key]
  cases SpecNotification bFirstPassComplete SourceValid Tag IsVillager CachedSignificance
    Value <;> simp

/-- The calls delivered for a live object that implements the interface are the selected
ones. -/
theorem ReconcileRecord_calls (e : Engine) (first : Bool) (r : FSignificanceObject) (v : ℚ)
    (hv : e.IsValid r.Source = true) (hi : e.ImplementsInterface r.Source = true) :
    (ReconcileRecord e first r v).1
      = (SelectNotifications first true r.SignificanceTag (e.IsVillager r.Source)
          r.CachedSignificance v).map (fun n => (r.Source, n)) := by
  simp [ReconcileRecord, hv, hi]

/-! ## The scoring formula -/

theorem ComputeSignificance_eq (Dist FacingDot : ℚ) :
    ComputeSignificance Dist FacingDot
      = if Dist ≤ ScaledMaxDist FacingDot ∧ ScaledMaxDist FacingDot > 0
        then 1 - Dist / ScaledMaxDist FacingDot else 0 := rfl

theorem ComputeSignificance_mem_unit (Dist FacingDot : ℚ) (h : 0 ≤ Dist) :
    0 ≤ ComputeSignificance Dist FacingDot ∧ ComputeSignificance Dist FacingDot ≤ 1 := by
  rw [ComputeSignificance_eq]
  split_ifs with hc
  · obtain ⟨h1, h2⟩ := hc
    have hq1 : Dist / ScaledMaxDist FacingDot ≤ 1 := (div_le_one h2).mpr h1
    have hq0 : 0 ≤ Dist / ScaledMaxDist FacingDot := div_nonneg h (le_of_lt h2)
    constructor <;> linarith
  · exact ⟨le_refl _, zero_le_one⟩

theorem ScaledMaxDist_eq (FacingDot : ℚ) : ScaledMaxDist FacingDot = 5000 * FacingDot + 15000 := by
  unfold ScaledMaxDist CAM_DIST_MAX FMath.Lerp
  ring

/-- C13: for a facing dot product of at least `-1` (so in particular in `[-1, 1]`) and
distances `d1 < d2` (so in particular `0 <= d1 < d2`), the score does not increase from `d1` to
`d2`; when `d2` is within the effective horizon `20000 * lerp(0.5, 1, (dot + 1) / 2)` the score
is `1 - d / horizon` at both distances and strictly larger at `d1`. -/
theorem C13_score_decreasing_in_distance (FacingDot d1 d2 : ℚ) (hlo : -1 ≤ FacingDot)
    (h12 : d1 < d2) :
    ComputeSignificance d2 FacingDot ≤ ComputeSignificance d1 FacingDot ∧
    (d2 ≤ ScaledMaxDist FacingDot →
      ComputeSignificance d1 FacingDot = 1 - d1 / ScaledMaxDist FacingDot ∧
      ComputeSignificance d2 FacingDot = 1 - d2 / ScaledMaxDist FacingDot ∧
      ComputeSignificance d2 FacingDot < ComputeSignificance d1 FacingDot) := by
  have hH : 0 < ScaledMaxDist FacingDot := by rw [ScaledMaxDist_eq]; linarith
  have hdiv : d1 / ScaledMaxDist FacingDot < d2 / ScaledMaxDist FacingDot :=
    div_lt_div_of_pos_right h12 hH
  constructor
  · rw [ComputeSignificance_eq d2, ComputeSignificance_eq d1]
    by_cases h2 : d2 ≤ ScaledMaxDist FacingDot
    · have h1 : d1 ≤ ScaledMaxDist FacingDot := le_trans (le_of_lt h12) h2
      simp only [h1, h2, hH, gt_iff_lt, and_self, if_true]
      linarith
    · simp only [h2, false_and, if_false]
      split_ifs with h1
      · have : d1 / ScaledMaxDist FacingDot ≤ 1 := (div_le_one hH).mpr h1.1
        linarith
      · exact le_refl _
  · intro h2
    have h1 : d1 ≤ ScaledMaxDist FacingDot := le_trans (le_of_lt h12) h2
    rw [ComputeSignificance_eq d2, ComputeSignificance_eq d1]
    simp only [h1, h2, hH, gt_iff_lt, and_self, if_true, true_and]
    linarith

/-- Witness of C13: facing dot product `0` (horizon `15000`), distances `3000` and `6000`. -/
theorem C13_score_decreasing_in_distance_witness :
    (-1 : ℚ) ≤ 0 ∧ (3000 : ℚ) < 6000 ∧ (6000 : ℚ) ≤ ScaledMaxDist 0 ∧
    ComputeSignificance 6000 0 ≤ ComputeSignificance 3000 0 ∧
    ComputeSignificance 3000 0 = 1 - 3000 / ScaledMaxDist 0 ∧
    ComputeSignificance 6000 0 = 1 - 6000 / ScaledMaxDist 0 ∧
    ComputeSignificance 6000 0 < ComputeSignificance 3000 0 :=
  ⟨by norm_num, by norm_num, by decide!,
    (C13_score_decreasing_in_distance 0 3000 6000 (by norm_num) (by norm_num)).1,
    (C13_score_decreasing_in_distance 0 3000 6000 (by norm_num) (by norm_num)).2 (by decide!)⟩

/-! ## `UpdateObject`, `ResetOctree` and the insert into a leaf -/

/-- C15: `UpdateObject` on a node returns true exactly when the new location is inside the
bounds of that node, and then the node is unchanged, whatever leaves the old and the new
location belong to; otherwise it returns false and the node is the result of
`Remove(Object, OldLocation, NativeClass)`. -/
theorem C15_UpdateObject_tests_root_bounds_only (n : FOctreeNode) (Object : AActor)
    (OldLocation NewLocation : FVector) (NativeClass : UClass) :
    (n.UpdateObject Object OldLocation NewLocation NativeClass).1
      = n.Bounds.IsInside NewLocation ∧
    (n.UpdateObject Object OldLocation NewLocation NativeClass).2
      = if n.Bounds.IsInside NewLocation = true then n
        else n.Remove Object OldLocation NativeClass := by
  unfold FOctreeNode.UpdateObject
  cases h : n.Bounds.IsInside NewLocation <;> simp

theorem Query_empty_leaf (loc : AActor → FVector) (d : FOctreeNodeData)
    (h : d.ClassBuckets = []) (c : FVector2D) (r : ℚ) (f : Option UClass) :
    QueryOctree2D loc (.leaf d) c r f = [] := by
  cases f <;> simp [QueryOctree2D, h, BucketEntries, TMap.Find]

/-- C16: whatever tree the manager held, after `ResetOctree(Center, Dimensions)` the root is a
single leaf without entries at depth 0 with bounds `[Center - Dimensions, Center + Dimensions]`,
capacity 10 and maximum depth 10 (after `Initialize` the same with maximum depth 3), and every
query on it returns the empty sequence. -/
theorem C16_reset_gives_empty_root (loc : AActor → FVector) (m : UOctreeManager)
    (Center Dimensions : FVector) (QueryCenter : FVector) (QueryRadius : ℚ)
    (FilteredClass : Option UClass) :
    (m.ResetOctree Center Dimensions).OctreeRoot
      = some (.leaf
          { Bounds :=
              { Min := ⟨Center.X - Dimensions.X, Center.Y - Dimensions.Y,
                        Center.Z - Dimensions.Z⟩
                Max := ⟨Center.X + Dimensions.X, Center.Y + Dimensions.Y,
                        Center.Z + Dimensions.Z⟩ }
            ClassBuckets := [], MaxObjectsPerNode := 10, MaxDepth := 10, Depth := 0,
            TotalObjectCount := 0 }) ∧
    (m.Initialize Center Dimensions).OctreeRoot
      = some (.leaf
          { Bounds :=
              { Min := ⟨Center.X - Dimensions.X, Center.Y - Dimensions.Y,
                        Center.Z - Dimensions.Z⟩
                Max := ⟨Center.X + Dimensions.X, Center.Y + Dimensions.Y,
                        Center.Z + Dimensions.Z⟩ }
            ClassBuckets := [], MaxObjectsPerNode := 10, MaxDepth := 3, Depth := 0,
            TotalObjectCount := 0 }) ∧
    (m.ResetOctree Center Dimensions).FindObjectsInRange loc QueryCenter QueryRadius
      FilteredClass = [] ∧
    (m.Initialize Center Dimensions).FindObjectsInRange loc QueryCenter QueryRadius
      FilteredClass = [] := by
  refine ⟨rfl, rfl, ?_, ?_⟩
  · exact Query_empty_leaf loc _ rfl _ _ _
  · exact Query_empty_leaf loc _ rfl _ _ _

theorem TMap_Find_Set_self {K V : Type} [DecidableEq K] (m : List (K × V)) (k : K) (v w : V)
    (h : TMap.Find m k = some w) : TMap.Find (TMap.Set m k v) k = some v := by
  induction m with
  | nil => simp [TMap.Find] at h
  | cons p ps ih =>
    by_cases hp : p.1 = k
    · simp [TMap.Find, TMap.Set, hp]
    · have h' : TMap.Find ps k = some w := by
        simpa [TMap.Find, List.find?_cons, hp] using h
      have := ih h'
      simpa [TMap.Find, TMap.Set, List.find?_cons, hp] using this

theorem TMap_Find_Set_other {K V : Type} [DecidableEq K] (m : List (K × V)) (k k' : K) (v : V)
    (hk : k' ≠ k) : TMap.Find (TMap.Set m k v) k' = TMap.Find m k' := by
  induction m with
  | nil => rfl
  | cons p ps ih =>
    obtain ⟨a, b⟩ := p
    have hkk : ¬ k = k' := fun h => hk h.symm
    by_cases hp : a = k
    · have hp' : ¬ a = k' := fun h => hk (h.symm.trans hp)
      simpa [TMap.Find, TMap.Set, List.find?_cons, hp, hp', hkk] using ih
    · by_cases hp' : a = k'
      · subst hp'
        simp [TMap.Find, TMap.Set, List.find?_cons, hp]
      · simpa [TMap.Find, TMap.Set, List.find?_cons, hp, hp'] using ih

theorem TMap_Find_append_none {K V : Type} [DecidableEq K] (m : List (K × V)) (k k' : K) (v : V)
    (h : TMap.Find m k = none) :
    TMap.Find (m ++ [(k, v)]) k' = if k' = k then some v else TMap.Find m k' := by
  induction m with
  | nil =>
    by_cases hk : k = k'
    · simp [TMap.Find, hk]
    · have : ¬ k' = k := fun h => hk h.symm
      simp [TMap.Find, hk, this]
  | cons p ps ih =>
    have hp : ¬ p.1 = k := by
      intro hp
      simp [TMap.Find, List.find?_cons, hp] at h
    have h' : TMap.Find ps k = none := by
      simpa [TMap.Find, List.find?_cons, hp] using h
    by_cases hp' : p.1 = k'
    · have : ¬ k' = k := fun h => hp (hp'.trans h)
      simp [TMap.Find, List.find?_cons, hp', this]
    · simpa [TMap.Find, List.find?_cons, hp'] using ih h'

theorem Find_BucketAdd (m : List (UClass × List AActor)) (k k' : UClass) (o : AActor) :
    TMap.Find (BucketAdd m k o) k'
      = if k' = k then some ((TMap.Find m k).getD [] ++ [o]) else TMap.Find m k' := by
  unfold BucketAdd
  cases hf : TMap.Find m k with
  | none =>
    simp only [Option.getD_none, List.nil_append]
    exact TMap_Find_append_none m k k' [o] hf
  | some bucket =>
    simp only [Option.getD_some]
    by_cases hk : k' = k
    · subst hk
      simp only [if_true]
      exact TMap_Find_Set_self m k' _ bucket hf
    · simp only [hk, if_false]
      exact TMap_Find_Set_other m k k' _ hk

/-- C19: on a leaf whose bounds contain the location and which has room (its count is below
the capacity) or sits at the maximum depth (whatever its count), `Insert` returns the same
leaf with the object appended at the end of the bucket of the given class, no other bucket
changed and the count increased by one; no children are made and the object is not dropped. -/
theorem C19_insert_appends_in_leaf (loc : AActor → FVector) (fuel : Nat)
    (d : FOctreeNodeData) (Object : AActor) (ObjectLocation : FVector) (ClassKey : UClass)
    (hin : d.Bounds.IsInside ObjectLocation = true)
    (hroom : d.TotalObjectCount < d.MaxObjectsPerNode ∨ d.Depth = d.MaxDepth) :
    ∃ buckets,
      (FOctreeNode.leaf d).Insert loc (fuel + 1) Object ObjectLocation ClassKey
        = some (.leaf { d with ClassBuckets := buckets,
                               TotalObjectCount := d.TotalObjectCount + 1 }) ∧
      TMap.Find buckets ClassKey
        = some ((TMap.Find d.ClassBuckets ClassKey).getD [] ++ [Object]) ∧
      ∀ k, k ≠ ClassKey → TMap.Find buckets k = TMap.Find d.ClassBuckets k := by
  refine ⟨BucketAdd d.ClassBuckets ClassKey Object, ?_, ?_, ?_⟩
  · have hin' : (FOctreeNode.leaf d).Bounds.IsInside ObjectLocation = true := hin
    simp only [FOctreeNode.Insert, hin', Bool.not_true, Bool.false_eq_true, if_false, hroom,
      if_true]
  · rw [Find_BucketAdd]; simp
  · intro k hk
    rw [Find_BucketAdd]; simp [hk]

/-- Witness of C19: a leaf at maximum depth that already holds twelve objects of class `7`
(capacity 10) takes a thirteenth. -/
theorem C19_insert_appends_in_leaf_witness :
    (FBox.BuildAABB ⟨0, 0, 0⟩ ⟨1000, 1000, 1000⟩).IsInside ⟨5, 5, 5⟩ = true ∧
    ((12 : Int) < 10 ∨ (3 : Int) = 3) ∧
    ∃ buckets,
      (FOctreeNode.leaf
        { Bounds := FBox.BuildAABB ⟨0, 0, 0⟩ ⟨1000, 1000, 1000⟩
          ClassBuckets := [(7, [0, 1, 2, 3, 4, 5, 6, 7, 8, 9, 10, 11])]
          MaxObjectsPerNode := 10, MaxDepth := 3, Depth := 3,
          TotalObjectCount := 12 }).Insert DiagonalWorld (0 + 1) 12 ⟨5, 5, 5⟩ 7
        = some (.leaf
            { Bounds := FBox.BuildAABB ⟨0, 0, 0⟩ ⟨1000, 1000, 1000⟩
              ClassBuckets := buckets
              MaxObjectsPerNode := 10, MaxDepth := 3, Depth := 3,
              TotalObjectCount := 12 + 1 }) ∧
      TMap.Find buckets 7
        = some ((TMap.Find [(7, [0, 1, 2, 3, 4, 5, 6, 7, 8, 9, 10, 11])] 7).getD [] ++ [12]) ∧
      ∀ k, k ≠ 7 → TMap.Find buckets k
        = TMap.Find [(7, [0, 1, 2, 3, 4, 5, 6, 7, 8, 9, 10, 11])] k :=
  ⟨by decide!, Or.inr rfl,
    C19_insert_appends_in_leaf DiagonalWorld 0 _ 12 ⟨5, 5, 5⟩ 7 (by decide!) (Or.inr rfl)⟩

/-! ## `Remove` and the placement of stored objects -/

theorem mem_BucketEntries_Remove {m : List (UClass × List AActor)} {k : UClass} {a : AActor}
    (h : a ∈ BucketEntries (TMap.Remove m k)) : a ∈ BucketEntries m := by
  rw [mem_BucketEntries] at h ⊢
  obtain ⟨p, hp, hap⟩ := h
  exact ⟨p, (List.mem_filter.1 hp).1, hap⟩

theorem mem_BucketEntries_Set_erase {m : List (UClass × List AActor)} {k : UClass}
    {bucket : List AActor} {o a : AActor} (hf : TMap.Find m k = some bucket)
    (h : a ∈ BucketEntries (TMap.Set m k (bucket.erase o))) : a ∈ BucketEntries m := by
  simp only [TMap.Find, Option.map_eq_some'] at hf
  obtain ⟨q, hq, hq2⟩ := hf
  have hqm := List.mem_of_find?_eq_some hq
  rw [mem_BucketEntries] at h ⊢
  obtain ⟨p, hp, hap⟩ := h
  simp only [TMap.Set, List.mem_map] at hp
  obtain ⟨p0, hp0, rfl⟩ := hp
  by_cases hk : p0.1 = k
  · simp only [hk, if_true] at hap
    exact ⟨q, hqm, hq2 ▸ List.mem_of_mem_erase hap⟩
  · simp only [hk, if_false] at hap
    exact ⟨p0, hp0, hap⟩

theorem Remove_keeps (loc : AActor → FVector) (o : AActor) (p : FVector) (k : UClass) :
    ∀ n, PositionsInside loc n →
      PositionsInside loc (n.Remove o p k) ∧ (n.Remove o p k).Bounds = n.Bounds ∧
      ∀ a ∈ StoredObjects (n.Remove o p k), a ∈ StoredObjects n := by
  intro n
  induction n with
  | leaf d =>
    intro hn
    cases hin : d.Bounds.IsInside p with
    | false =>
      have e : (FOctreeNode.leaf d).Remove o p k = .leaf d := by
        simp only [FOctreeNode.Remove, hin, Bool.not_false, if_true]
      rw [e]
      exact ⟨hn, rfl, fun _ ha => ha⟩
    | true =>
      cases hf : TMap.Find d.ClassBuckets k with
      | none =>
        have e : (FOctreeNode.leaf d).Remove o p k = .leaf d := by
          simp only [FOctreeNode.Remove, hin, hf, Bool.not_true, Bool.false_eq_true, if_false]
        rw [e]
        exact ⟨hn, rfl, fun _ ha => ha⟩
      | some bucket =>
        simp only [FOctreeNode.Remove, hin, hf, Bool.not_true, Bool.false_eq_true, if_false]
        have key : ∀ a ∈ BucketEntries
            (if (bucket.erase o).length = 0 then TMap.Remove d.ClassBuckets k
              else TMap.Set d.ClassBuckets k (bucket.erase o)),
            a ∈ BucketEntries d.ClassBuckets := by
          intro a ha
          split_ifs at ha
          · exact mem_BucketEntries_Remove ha
          · exact mem_BucketEntries_Set_erase hf ha
        exact ⟨fun a ha => hn a (key a ha), rfl, key⟩
  | node d ch ih =>
    intro hn
    cases hin : d.Bounds.IsInside p with
    | false =>
      have e : (FOctreeNode.node d ch).Remove o p k = .node d ch := by
        simp only [FOctreeNode.Remove, hin, Bool.not_false, if_true]
      rw [e]
      exact ⟨hn, rfl, fun _ ha => ha⟩
    | true =>
      cases hf : FindChild ch p with
      | none =>
        have e : (FOctreeNode.node d ch).Remove o p k = .node d ch := by
          simp only [FOctreeNode.Remove, hin, hf, Bool.not_true, Bool.false_eq_true, if_false]
        rw [e]
        exact ⟨hn, rfl, fun _ ha => ha⟩
      | some i =>
        simp only [FOctreeNode.Remove, hin, hf, Bool.not_true, Bool.false_eq_true, if_false]
        have hi := ih i (hn.1 i)
        have hch : ∀ j, PositionsInside loc (Function.update ch i ((ch i).Remove o p k) j) ∧
            ∀ a ∈ StoredObjects (Function.update ch i ((ch i).Remove o p k) j),
              a ∈ StoredObjects (ch j) := by
          intro j
          by_cases hj : j = i
          · subst hj
            simp only [Function.update_same]
            exact ⟨hi.1, hi.2.2⟩
          · simp only [Function.update_noteq hj]
            exact ⟨hn.1 j, fun _ ha => ha⟩
        refine ⟨⟨fun j => (hch j).1, fun j a ha => hn.2 j a ((hch j).2 a ha)⟩, rfl, ?_⟩
        intro a ha
        simp only [StoredObjects, List.mem_flatMap] at ha ⊢
        obtain ⟨j, hj1, hj⟩ := ha
        exact ⟨j, hj1, (hch j).2 a hj⟩

theorem BuiltWithRemove_PositionsInside {loc : AActor → FVector} {t : FOctreeNode}
    (h : BuiltWithRemove loc t) : PositionsInside loc t := by
  induction h with
  | init c d => intro a ha; simp [BucketEntries] at ha
  | reset c d => intro a ha; simp [BucketEntries] at ha
  | insert fuel o k _ hins ih => exact (Insert_keeps loc fuel _ _ _ _ ih hins).1
  | remove o p k _ ih => exact (Remove_keeps loc o p k _ ih).1

theorem PositionsInside_of_IsNodeOf {loc : AActor → FVector} {n t : FOctreeNode}
    (hn : IsNodeOf n t) : PositionsInside loc t → PositionsInside loc n := by
  induction hn with
  | self => exact id
  | child d ch i _ ih => exact fun h => ih (h.1 i)

theorem BuiltWithRemove_of_Built {loc : AActor → FVector} {t : FOctreeNode} (h : Built loc t) :
    BuiltWithRemove loc t := by
  induction h with
  | init c d => exact .init c d
  | reset c d => exact .reset c d
  | insert fuel o k _ hins ih => exact .insert fuel o k ih hins

/-- C20: in every tree reached from an initialized or reset root by `Insert` calls that are
passed the object's own location and by `Remove` calls, every object stored below a node of
the tree (the leaf that holds it and each of its ancestors up to the root) is located inside
the bounds of that node; so each child made by a subdivision holds only objects located in
its octant. -/
theorem C20_stored_objects_inside_their_nodes (loc : AActor → FVector) (t : FOctreeNode)
    (hbuilt : BuiltWithRemove loc t) (n : FOctreeNode) (hn : IsNodeOf n t) (a : AActor)
    (ha : a ∈ StoredObjects n) : n.Bounds.IsInside (loc a) = true :=
  StoredObjects_inside n
    (PositionsInside_of_IsNodeOf hn (BuiltWithRemove_PositionsInside hbuilt)) a ha

theorem IsNodeOf_RootChild (t : FOctreeNode) (i : Fin 8) : IsNodeOf (RootChild t i) t := by
  cases t with
  | leaf d => exact .self _
  | node d ch => exact .child d ch i (.self _)

/-- Witness of C20: eleven inserts (the root subdivides), one removal; actor `3` is stored
below child `7` of the root. -/
theorem C20_stored_objects_inside_their_nodes_witness :
    BuiltWithRemove ShiftedWorld
      ((TreeAfter ShiftedWorld ElevenOfClass7).Remove 5 (ShiftedWorld 5) 7) ∧
    IsNodeOf (RootChild ((TreeAfter ShiftedWorld ElevenOfClass7).Remove 5 (ShiftedWorld 5) 7) 7)
      ((TreeAfter ShiftedWorld ElevenOfClass7).Remove 5 (ShiftedWorld 5) 7) ∧
    3 ∈ StoredObjects
      (RootChild ((TreeAfter ShiftedWorld ElevenOfClass7).Remove 5 (ShiftedWorld 5) 7) 7) ∧
    (RootChild ((TreeAfter ShiftedWorld ElevenOfClass7).Remove 5 (ShiftedWorld 5) 7) 7).Bounds.IsInside
      (ShiftedWorld 3) = true :=
  ⟨.remove 5 _ 7 (BuiltWithRemove_of_Built (Built_TreeAfter (by decide!))),
    IsNodeOf_RootChild _ 7, by decide!,
    C20_stored_objects_inside_their_nodes ShiftedWorld _
      (.remove 5 _ 7 (BuiltWithRemove_of_Built (Built_TreeAfter (by decide!)))) _
      (IsNodeOf_RootChild _ 7) 3 (by decide!)⟩

/-! ## The subdivision threshold -/

theorem ChildBounds_inside_parent {b : FBox} {i : Fin 8} {p : FVector}
    (h : (ChildBounds b i).IsInside p = true) : b.IsInside p = true := by
  simp only [ChildBounds, FBox.BuildAABB, FBox.GetCenter, FBox.GetExtent, FBox.IsInside,
    Bool.and_eq_true, decide_eq_true_eq] at h ⊢
  obtain ⟨⟨⟨⟨⟨hx1, hx2⟩, hy1⟩, hy2⟩, hz1⟩, hz2⟩ := h
  refine ⟨⟨⟨⟨⟨?_, ?_⟩, ?_⟩, ?_⟩, ?_⟩, ?_⟩
  · split_ifs at hx1 hx2 <;> linarith
  · split_ifs at hx1 hx2 <;> linarith
  · split_ifs at hy1 hy2 <;> linarith
  · split_ifs at hy1 hy2 <;> linarith
  · split_ifs at hz1 hz2 <;> linarith
  · split_ifs at hz1 hz2 <;> linarith

theorem InsertAll_append (loc : AActor → FVector) (fuel : Nat) :
    ∀ (l1 l2 : List (AActor × UClass)) (t : FOctreeNode),
      InsertAll loc fuel (l1 ++ l2) t = (InsertAll loc fuel l1 t).bind (InsertAll loc fuel l2) := by
  intro l1
  induction l1 with
  | nil => intro l2 t; rfl
  | cons c cs ih =>
    intro l2 t
    obtain ⟨o, k⟩ := c
    simp only [List.cons_append, InsertAll]
    cases h : t.Insert loc fuel o (loc o) k with
    | none => rfl
    | some t1 => exact ih l2 t1

theorem Insert_leaf_room (loc : AActor → FVector) (fuel : Nat) (d : FOctreeNodeData)
    (o : AActor) (p : FVector) (k : UClass) (hin : d.Bounds.IsInside p = true)
    (hroom : d.TotalObjectCount < d.MaxObjectsPerNode ∨ d.Depth = d.MaxDepth) :
    (FOctreeNode.leaf d).Insert loc (fuel + 1) o p k
      = some (.leaf { d with ClassBuckets := BucketAdd d.ClassBuckets k o,
                             TotalObjectCount := d.TotalObjectCount + 1 }) := by
  have hin' : (FOctreeNode.leaf d).Bounds.IsInside p = true := hin
  simp only [FOctreeNode.Insert, hin', Bool.not_true, Bool.false_eq_true, if_false, hroom,
    if_true]

theorem Insert_leaf_subdivide (loc : AActor → FVector) (fuel : Nat) (d : FOctreeNodeData)
    (o : AActor) (p : FVector) (k : UClass) (hin : d.Bounds.IsInside p = true)
    (hfull : ¬ (d.TotalObjectCount < d.MaxObjectsPerNode ∨ d.Depth = d.MaxDepth)) :
    (FOctreeNode.leaf d).Insert loc (fuel + 1) o p k
      = match (BucketEntries d.ClassBuckets).foldlM
            (ReinsertExisting loc (FOctreeNode.Insert loc fuel) k) (Subdivide d) with
        | some Children =>
          InsertIntoChild (FOctreeNode.Insert loc fuel) { d with ClassBuckets := [] } Children
            o p k
        | none => none := by
  have hin' : (FOctreeNode.leaf d).Bounds.IsInside p = true := hin
  simp only [FOctreeNode.Insert, hin', Bool.not_true, Bool.false_eq_true, if_false, hfull]

theorem InsertAll_fills_leaf (loc : AActor → FVector) (fuel : Nat) :
    ∀ (l : List (AActor × UClass)) (d : FOctreeNodeData),
      (∀ c ∈ l, d.Bounds.IsInside (loc c.1) = true) →
      d.TotalObjectCount + l.length ≤ d.MaxObjectsPerNode →
      ∃ buckets, InsertAll loc (fuel + 1) l (.leaf d)
        = some (.leaf { d with ClassBuckets := buckets,
                               TotalObjectCount := d.TotalObjectCount + l.length }) := by
  intro l
  induction l with
  | nil =>
    intro d _ _
    exact ⟨d.ClassBuckets, by simp [InsertAll]⟩
  | cons c cs ih =>
    intro d hin hcap
    obtain ⟨o, k⟩ := c
    have hroom : d.TotalObjectCount < d.MaxObjectsPerNode := by
      simp only [List.length_cons, Nat.cast_add, Nat.cast_one] at hcap
      omega
    have h1 := Insert_leaf_room loc fuel d o (loc o) k (hin (o, k) (List.mem_cons_self _ _))
      (Or.inl hroom)
    obtain ⟨buckets, hb⟩ := ih
      { d with ClassBuckets := BucketAdd d.ClassBuckets k o,
               TotalObjectCount := d.TotalObjectCount + 1 }
      (fun c hc => hin c (List.mem_cons_of_mem _ hc))
      (by simp only [List.length_cons, Nat.cast_add, Nat.cast_one] at hcap ⊢; omega)
    refine ⟨buckets, ?_⟩
    simp only [InsertAll, h1, Option.bind, hb, List.length_cons, Nat.cast_add, Nat.cast_one]
    congr 3
    ring

/-- A leaf at its maximum depth is a leaf at its maximum depth after `Insert`. -/
theorem Insert_leaf_at_max_depth (loc : AActor → FVector) (fuel : Nat) (d : FOctreeNodeData)
    (o : AActor) (p : FVector) (k : UClass) (hmax : d.Depth = d.MaxDepth) :
    ∃ d', (FOctreeNode.leaf d).Insert loc (fuel + 1) o p k = some (.leaf d') ∧
      d'.Depth = d'.MaxDepth := by
  cases hin : d.Bounds.IsInside p with
  | false =>
    have hin' : (FOctreeNode.leaf d).Bounds.IsInside p = false := hin
    exact ⟨d, by simp only [FOctreeNode.Insert, hin', Bool.not_false, if_true], hmax⟩
  | true => exact ⟨_, Insert_leaf_room loc fuel d o p k hin (Or.inr hmax), hmax⟩

theorem update_leaves_at_max {ch : Fin 8 → FOctreeNode} {i : Fin 8} {d' : FOctreeNodeData}
    (hch : ∀ j, ∃ dj, ch j = .leaf dj ∧ dj.Depth = dj.MaxDepth) (hd : d'.Depth = d'.MaxDepth) :
    ∀ j, ∃ dj, Function.update ch i (.leaf d') j = .leaf dj ∧ dj.Depth = dj.MaxDepth := by
  intro j
  by_cases hj : j = i
  · subst hj
    exact ⟨d', by simp, hd⟩
  · simpa [Function.update_noteq hj] using hch j

theorem ReinsertExisting_leaves_at_max (loc : AActor → FVector) (fuel : Nat) (k : UClass)
    (ch : Fin 8 → FOctreeNode) (e : AActor)
    (hch : ∀ j, ∃ dj, ch j = .leaf dj ∧ dj.Depth = dj.MaxDepth) :
    ∃ ch', ReinsertExisting loc (FOctreeNode.Insert loc (fuel + 1)) k ch e = some ch' ∧
      ∀ j, ∃ dj, ch' j = .leaf dj ∧ dj.Depth = dj.MaxDepth := by
  cases hf : FindChild ch (loc e) with
  | none => exact ⟨ch, by simp [ReinsertExisting, hf], hch⟩
  | some i =>
    obtain ⟨di, hdi, hmax⟩ := hch i
    obtain ⟨d', hd', hmax'⟩ := Insert_leaf_at_max_depth loc fuel di e (loc e) k hmax
    refine ⟨Function.update ch i (.leaf d'), ?_, update_leaves_at_max hch hmax'⟩
    simp [ReinsertExisting, hf, hdi, hd']

theorem Redistribute_leaves_at_max (loc : AActor → FVector) (fuel : Nat) (k : UClass) :
    ∀ (es : List AActor) (ch : Fin 8 → FOctreeNode),
      (∀ j, ∃ dj, ch j = .leaf dj ∧ dj.Depth = dj.MaxDepth) →
      ∃ ch', es.foldlM (ReinsertExisting loc (FOctreeNode.Insert loc (fuel + 1)) k) ch = some ch' ∧
        ∀ j, ∃ dj, ch' j = .leaf dj ∧ dj.Depth = dj.MaxDepth := by
  intro es
  induction es with
  | nil => intro ch hch; exact ⟨ch, rfl, hch⟩
  | cons e es ih =>
    intro ch hch
    obtain ⟨ch1, h1, hch1⟩ := ReinsertExisting_leaves_at_max loc fuel k ch e hch
    obtain ⟨ch2, h2, hch2⟩ := ih ch1 hch1
    exact ⟨ch2, by rw [List.foldlM_cons, h1]; exact h2, hch2⟩

theorem InsertIntoChild_leaves_at_max (loc : AActor → FVector) (fuel : Nat)
    (d : FOctreeNodeData) (ch : Fin 8 → FOctreeNode) (o : AActor) (p : FVector) (k : UClass)
    (hch : ∀ j, ∃ dj, ch j = .leaf dj ∧ dj.Depth = dj.MaxDepth) :
    ∃ ch', InsertIntoChild (FOctreeNode.Insert loc (fuel + 1)) d ch o p k = some (.node d ch') ∧
      ∀ j, ∃ dj, ch' j = .leaf dj ∧ dj.Depth = dj.MaxDepth := by
  cases hf : FindChild ch p with
  | none => exact ⟨ch, by simp [InsertIntoChild, hf], hch⟩
  | some i =>
    obtain ⟨di, hdi, hmax⟩ := hch i
    obtain ⟨d', hd', hmax'⟩ := Insert_leaf_at_max_depth loc fuel di o p k hmax
    refine ⟨Function.update ch i (.leaf d'), ?_, update_leaves_at_max hch hmax'⟩
    simp [InsertIntoChild, hf, hdi, hd']

theorem SubdivisionCount_leaf_children (d : FOctreeNodeData) (ch : Fin 8 → FOctreeNode)
    (hch : ∀ j, (ch j).IsLeaf = true) : SubdivisionCount (.node d ch) = 1 := by
  have h0 : ∀ j, SubdivisionCount (ch j) = 0 := by
    intro j
    have := hch j
    cases hc : ch j with
    | leaf dj => rfl
    | node dj cj => rw [hc] at this; exact Bool.noConfusion this
  simp [SubdivisionCount, h0]

/-- C14, as amended: with capacity 10 and maximum depth 1, eleven inserts of objects located in
one octant of the root make exactly one subdivision: the root ends up with eight children that
are all leaves. -/
theorem C14_one_subdivision_at_max_depth_one (loc : AActor → FVector) (fuel : Nat) (b : FBox)
    (calls : List (AActor × UClass)) (i : Fin 8) (hlen : calls.length = 11)
    (hcluster : ∀ c ∈ calls, (ChildBounds b i).IsInside (loc c.1) = true) :
    ∃ d Children,
      InsertAll loc (fuel + 2) calls (FOctreeNode.new b 10 0 1) = some (.node d Children) ∧
      (∀ j, (Children j).IsLeaf = true) ∧ SubdivisionCount (.node d Children) = 1 := by
  have hin : ∀ c ∈ calls, b.IsInside (loc c.1) = true :=
    fun c hc => ChildBounds_inside_parent (hcluster c hc)
  have hsplit : calls = calls.take 10 ++ calls.drop 10 := (List.take_append_drop 10 calls).symm
  have hdrop : ∃ c, calls.drop 10 = [c] := by
    have h1 : (calls.drop 10).length = 1 := by simp [hlen]
    match hd : calls.drop 10, h1 with
    | [c], _ => exact ⟨c, rfl⟩
  obtain ⟨c, hc⟩ := hdrop
  have hcmem : c ∈ calls := List.mem_of_mem_drop (hc ▸ List.mem_singleton_self c)
  have htake : (calls.take 10).length = 10 := by simp [hlen]
  obtain ⟨buckets, hfill⟩ := InsertAll_fills_leaf loc (fuel + 1) (calls.take 10)
    ⟨b, [], 10, 1, 0, 0⟩ (fun c hc => hin c (List.mem_of_mem_take hc)) (by simp [htake])
  obtain ⟨o, k⟩ := c
  have hino := hin (o, k) hcmem
  simp only [htake, Nat.cast_ofNat, zero_add] at hfill
  obtain ⟨ch1, hr, hch1⟩ := Redistribute_leaves_at_max loc fuel k (BucketEntries buckets)
    (Subdivide ⟨b, buckets, 10, 1, 0, 10⟩) (fun j => ⟨_, rfl, rfl⟩)
  obtain ⟨ch2, hi2, hch2⟩ := InsertIntoChild_leaves_at_max loc fuel
    ⟨b, [], 10, 1, 0, 10⟩ ch1 o (loc o) k hch1
  have hleaf : ∀ j, (ch2 j).IsLeaf = true := by
    intro j
    obtain ⟨dj, hdj, _⟩ := hch2 j
    rw [hdj]; rfl
  refine ⟨⟨b, [], 10, 1, 0, 10⟩, ch2, ?_, hleaf, SubdivisionCount_leaf_children _ ch2 hleaf⟩
  have hnot : ¬ ((10 : Int) < 10 ∨ (0 : Int) = 1) := by norm_num
  have step : InsertAll loc (fuel + 2) [(o, k)] (.leaf ⟨b, buckets, 10, 1, 0, 10⟩)
      = some (.node ⟨b, [], 10, 1, 0, 10⟩ ch2) := by
    simp only [InsertAll]
    rw [Insert_leaf_subdivide loc (fuel + 1) ⟨b, buckets, 10, 1, 0, 10⟩ o (loc o) k hino hnot,
      hr]
    simp only [hi2, Option.bind]
  have hnew : FOctreeNode.new b 10 0 1 = .leaf ⟨b, [], 10, 1, 0, 0⟩ := rfl
  rw [hsplit, InsertAll_append, hc, hnew, hfill]
  exact step

/-- Witness of C14 as amended: the eleven actors of `ShiftedWorld`, all in octant `7` of the
root with bounds `+-1000`. -/
theorem C14_one_subdivision_at_max_depth_one_witness :
    ElevenOfClass7.length = 11 ∧
    (∀ c ∈ ElevenOfClass7,
      (ChildBounds (FBox.BuildAABB ⟨0, 0, 0⟩ ⟨1000, 1000, 1000⟩) 7).IsInside
        (ShiftedWorld c.1) = true) ∧
    ∃ d Children,
      InsertAll ShiftedWorld (0 + 2) ElevenOfClass7
        (FOctreeNode.new (FBox.BuildAABB ⟨0, 0, 0⟩ ⟨1000, 1000, 1000⟩) 10 0 1)
        = some (.node d Children) ∧
      (∀ j, (Children j).IsLeaf = true) ∧ SubdivisionCount (.node d Children) = 1 :=
  ⟨by decide, by decide!,
    C14_one_subdivision_at_max_depth_one ShiftedWorld 0 _ ElevenOfClass7 7 (by decide)
      (by decide!)⟩

/-- C14 fails on the code as stated (any maximum depth): with the maximum depth 3 of
`Initialize`, eleven actors that lie in octant `7` of the root, in octant `0` of that octant
and in octant `0` again one level down make three subdivisions, one per level; child `7` of the
root is not a leaf. -/
theorem C14_cluster_subdivides_at_every_level :
    (∀ c ∈ ElevenOfClass7,
      (ChildBounds Root1000.Bounds 7).IsInside (ShiftedWorld c.1) = true ∧
      (ChildBounds (ChildBounds Root1000.Bounds 7) 0).IsInside (ShiftedWorld c.1) = true ∧
      (ChildBounds (ChildBounds (ChildBounds Root1000.Bounds 7) 0) 0).IsInside
        (ShiftedWorld c.1) = true) ∧
    (InsertAll ShiftedWorld 5 ElevenOfClass7 Root1000).map
      (fun t => (SubdivisionCount t, (RootChild t 7).IsLeaf, StoredObjects t))
      = some (3, false, [0, 1, 2, 3, 4, 5, 6, 7, 8, 9, 10]) := by
  decide!

/-! ## Debounced registration -/

theorem TMap_Contains_iff {K V : Type} [DecidableEq K] (m : List (K × V)) (k : K) :
    TMap.Contains m k = (TMap.Find m k).isSome := by
  induction m with
  | nil => rfl
  | cons p ps ih =>
    by_cases hp : p.1 = k
    · simp [TMap.Contains, TMap.Find, List.find?_cons, hp]
    · simpa [TMap.Contains, TMap.Find, List.find?_cons, hp] using ih

theorem TMap_Find_Add {K V : Type} [DecidableEq K] (m : List (K × V)) (k k' : K) (v : V) :
    TMap.Find (TMap.Add m k v) k' = if k' = k then some v else TMap.Find m k' := by
  unfold TMap.Add
  rw [TMap_Contains_iff]
  cases hf : TMap.Find m k with
  | none =>
    simp only [Option.isSome_none, Bool.false_eq_true, if_false]
    exact TMap_Find_append_none m k k' v hf
  | some w =>
    simp only [Option.isSome_some, if_true]
    by_cases hk : k' = k
    · subst hk
      simp only [if_true]
      exact TMap_Find_Set_self m k' v w hf
    · simp only [hk, if_false]
      exact TMap_Find_Set_other m k k' v hk

theorem RegisterObject_accepted (e : Engine) (s : UShoniSignificanceManager) (o : UObject)
    (tag : ESignificanceTag) (hs : e.IsSpatial o = true) (hw : e.HasWorld o = true) :
    RegisterObject e s (some o) tag
      = { s with
          ElementsToAdd := s.ElementsToAdd ++ [(o, tag)]
          bRequiresUpdate := true
          bDebouncePending := true
          NextTickUpdateContainers :=
            if s.bDebouncePending then s.NextTickUpdateContainers
            else s.NextTickUpdateContainers + 1 } := by
  cases hd : s.bDebouncePending <;> simp [RegisterObject, hs, hw, hd]

theorem RegisterAll_accepted (e : Engine) :
    ∀ (objs : List (UObject × ESignificanceTag)) (s : UShoniSignificanceManager),
      objs ≠ [] → (∀ p ∈ objs, e.IsSpatial p.1 = true ∧ e.HasWorld p.1 = true) →
      RegisterAll e s objs
        = { s with
            ElementsToAdd := s.ElementsToAdd ++ objs
            bRequiresUpdate := true
            bDebouncePending := true
            NextTickUpdateContainers :=
              if s.bDebouncePending then s.NextTickUpdateContainers
              else s.NextTickUpdateContainers + 1 } := by
  intro objs
  induction objs with
  | nil => intro s h; exact absurd rfl h
  | cons p ps ih =>
    intro s _ hok
    obtain ⟨o, tag⟩ := p
    have h1 := RegisterObject_accepted e s o tag (hok (o, tag) (List.mem_cons_self _ _)).1
      (hok (o, tag) (List.mem_cons_self _ _)).2
    by_cases hps : ps = []
    · subst hps
      simpa [RegisterAll] using h1
    · have h2 := ih (RegisterObject e s (some o) tag) hps
        (fun q hq => hok q (List.mem_cons_of_mem _ hq))
      simp only [RegisterAll, List.foldl_cons] at h2 ⊢
      rw [h2, h1]
      simp

theorem AddStep_fold (e : Engine) :
    ∀ (objs : List (UObject × ESignificanceTag)) (recs : List FSignificanceObject)
      (tbl : List (UObject × Nat)),
      (∀ p ∈ objs, e.IsValid p.1 = true) → (objs.map Prod.fst).Nodup →
      (objs.foldl (AddStep e) (recs, tbl)).1
        = recs ++ objs.map (fun p => FSignificanceObject.new p.1 p.2) ∧
      (∀ k, k ∉ objs.map Prod.fst →
        TMap.Find (objs.foldl (AddStep e) (recs, tbl)).2 k = TMap.Find tbl k) ∧
      ∀ idx p, objs[idx]? = some p →
        TMap.Find (objs.foldl (AddStep e) (recs, tbl)).2 p.1 = some (recs.length + idx) := by
  intro objs
  induction objs with
  | nil =>
    intro recs tbl _ _
    exact ⟨by simp, fun _ _ => rfl, fun idx p h => by simp at h⟩
  | cons q qs ih =>
    intro recs tbl hv hnd
    have hq : e.IsValid q.1 = true := hv q (List.mem_cons_self _ _)
    have hstep : AddStep e (recs, tbl) q
        = (recs ++ [FSignificanceObject.new q.1 q.2], TMap.Add tbl q.1 recs.length) := by
      simp [AddStep, hq]
    simp only [List.map_cons, List.nodup_cons] at hnd
    obtain ⟨ih1, ih2, ih3⟩ := ih (recs ++ [FSignificanceObject.new q.1 q.2])
      (TMap.Add tbl q.1 recs.length) (fun p hp => hv p (List.mem_cons_of_mem _ hp)) hnd.2
    simp only [List.foldl_cons, hstep]
    refine ⟨?_, ?_, ?_⟩
    · rw [ih1]; simp
    · intro k hk
      simp only [List.map_cons, List.mem_cons, not_or] at hk
      rw [ih2 k hk.2, TMap_Find_Add]
      simp [hk.1]
    · intro idx p hp
      cases idx with
      | zero =>
        simp only [List.getElem?_cons_zero, Option.some.injEq] at hp
        subst hp
        rw [ih2 _ hnd.1, TMap_Find_Add]
        simp
      | succ n =>
        simp only [List.getElem?_cons_succ] at hp
        rw [ih3 n p hp]
        simp only [List.length_append, List.length_singleton]
        congr 1
        omega

/-- C17: from a state with nothing pending (debounce flag clear, no callback held, both queues
empty), `n >= 1` calls of `RegisterObject` within one tick, for distinct spatial objects that
have a world and are alive at the reconciliation, leave exactly one `UpdateContainers` callback
held for the next tick; when it runs, no callback is held any more, both queues are empty, the
debounce flag is clear, and every one of the objects has a table entry that points at a record
made for it with its tag. -/
theorem C17_registrations_coalesce (e : Engine) (s : UShoniSignificanceManager)
    (objs : List (UObject × ESignificanceTag)) (hn : 1 ≤ objs.length)
    (hidle : s.bDebouncePending = false ∧ s.NextTickUpdateContainers = 0 ∧
      s.ElementsToAdd = [] ∧ s.ElementsToRemove = [])
    (hdistinct : (objs.map Prod.fst).Nodup)
    (hok : ∀ p ∈ objs, e.IsValid p.1 = true ∧ e.IsSpatial p.1 = true ∧ e.HasWorld p.1 = true) :
    (RegisterAll e s objs).NextTickUpdateContainers = 1 ∧
    (NextTick e (RegisterAll e s objs)).NextTickUpdateContainers = 0 ∧
    (NextTick e (RegisterAll e s objs)).ElementsToAdd = [] ∧
    (NextTick e (RegisterAll e s objs)).ElementsToRemove = [] ∧
    (NextTick e (RegisterAll e s objs)).bDebouncePending = false ∧
    ∀ p ∈ objs, ∃ i r,
      TMap.Find (NextTick e (RegisterAll e s objs)).ObjectLookupTable p.1 = some i ∧
      (NextTick e (RegisterAll e s objs)).RegisteredObjects[i]? = some r ∧
      r.Source = p.1 ∧ r.SignificanceTag = p.2 := by
  obtain ⟨hd, hc, ha, hr⟩ := hidle
  have hne : objs ≠ [] := by
    intro h; rw [h] at hn; simp at hn
  have hreg := RegisterAll_accepted e objs s hne (fun p hp => ⟨(hok p hp).2.1, (hok p hp).2.2⟩)
  rw [hreg]
  simp only [hd, hc, ha, hr, Bool.false_eq_true, if_false, List.nil_append, zero_add]
  have hlen : objs.length ≠ 0 := by omega
  obtain ⟨f1, _, f3⟩ := AddStep_fold e objs s.RegisteredObjects s.ObjectLookupTable
    (fun p hp => (hok p hp).1) hdistinct
  refine ⟨trivial, ?_⟩
  simp only [NextTick, one_ne_zero, if_false, UpdateContainers, hlen, ne_eq, not_false_eq_true,
    true_or, if_true, List.foldl_nil, Nat.sub_self, List.length_nil, not_true_eq_false, or_false]
  refine ⟨trivial, trivial, trivial, trivial, ?_⟩
  intro p hp
  obtain ⟨idx, hidx⟩ := List.getElem?_of_mem hp
  refine ⟨s.RegisteredObjects.length + idx, FSignificanceObject.new p.1 p.2, f3 idx p hidx, ?_,
    rfl, rfl⟩
  rw [f1, List.getElem?_append_right (Nat.le_add_right _ _)]
  simp [hidx]

/-- Witness of C17 with `n = 3`: objects `1`, `2`, `3` registered in one tick on the
initialised manager. -/
theorem C17_registrations_coalesce_witness :
    1 ≤ [((1 : UObject), ESignificanceTag.SIG_Gameplay), (2, .SIG_Audio),
      (3, .SIG_Niagara)].length ∧
    (RegisterAll PlainEngine (Init true UShoniSignificanceManager.initial)
      [(1, .SIG_Gameplay), (2, .SIG_Audio), (3, .SIG_Niagara)]).NextTickUpdateContainers = 1 ∧
    (NextTick PlainEngine (RegisterAll PlainEngine (Init true UShoniSignificanceManager.initial)
      [(1, .SIG_Gameplay), (2, .SIG_Audio), (3, .SIG_Niagara)])).NextTickUpdateContainers = 0 ∧
    (NextTick PlainEngine (RegisterAll PlainEngine (Init true UShoniSignificanceManager.initial)
      [(1, .SIG_Gameplay), (2, .SIG_Audio), (3, .SIG_Niagara)])).ElementsToAdd = [] ∧
    (NextTick PlainEngine (RegisterAll PlainEngine (Init true UShoniSignificanceManager.initial)
      [(1, .SIG_Gameplay), (2, .SIG_Audio), (3, .SIG_Niagara)])).ElementsToRemove = [] ∧
    (NextTick PlainEngine (RegisterAll PlainEngine (Init true UShoniSignificanceManager.initial)
      [(1, .SIG_Gameplay), (2, .SIG_Audio), (3, .SIG_Niagara)])).bDebouncePending = false ∧
    ∀ p ∈ [((1 : UObject), ESignificanceTag.SIG_Gameplay), (2, .SIG_Audio), (3, .SIG_Niagara)],
      ∃ i r,
        TMap.Find (NextTick PlainEngine (RegisterAll PlainEngine
          (Init true UShoniSignificanceManager.initial)
          [(1, .SIG_Gameplay), (2, .SIG_Audio), (3, .SIG_Niagara)])).ObjectLookupTable p.1
          = some i ∧
        (NextTick PlainEngine (RegisterAll PlainEngine
          (Init true UShoniSignificanceManager.initial)
          [(1, .SIG_Gameplay), (2, .SIG_Audio), (3, .SIG_Niagara)])).RegisteredObjects[i]?
          = some r ∧
        r.Source = p.1 ∧ r.SignificanceTag = p.2 :=
  ⟨by decide,
    C17_registrations_coalesce PlainEngine (Init true UShoniSignificanceManager.initial)
      [(1, .SIG_Gameplay), (2, .SIG_Audio), (3, .SIG_Niagara)] (by decide)
      ⟨rfl, rfl, rfl, rfl⟩ (by decide) (by decide)⟩

/-! ## Notifications over consecutive scoring cycles -/

theorem ReconcileRecords_map (e : Engine) (first : Bool) (score : FSignificanceObject → ℚ)
    (T : FSignificanceObject → FTransform) :
    ∀ rs : List FSignificanceObject,
      ReconcileRecords e first rs (rs.map (fun r => (T r, score r)))
        = some (rs.flatMap (fun r => (ReconcileRecord e first r (score r)).1),
                rs.map (fun r => (ReconcileRecord e first r (score r)).2)) := by
  intro rs
  induction rs with
  | nil => rfl
  | cons r rs ih =>
    simp only [ReconcileRecords, List.map_cons, List.tail_cons, ih, List.head?_cons,
      List.flatMap_cons]
    by_cases hskip : (first && !e.IsValid r.Source) = true
    · have h1 : (ReconcileRecord e first r (score r)) = ([], r) := by
        simp only [Bool.and_eq_true, Bool.not_eq_true'] at hskip
        simp [ReconcileRecord, hskip.1, hskip.2]
      simp [hskip, h1]
    · simp [hskip]

/-- One scoring cycle on an idle initialised manager with records and no pending registry
change applies the loop body to every record with the score of its snapshot entry. -/
theorem ScoringCycle_idle (e : Engine) (cam : CameraView) (s : UShoniSignificanceManager)
    (hinit : s.bIsInited = true) (hidle : s.bAsyncOperationInProgress = false)
    (hupd : s.bRequiresUpdate = false) (hrec : s.RegisteredObjects ≠ []) :
    ScoringCycle e cam s
      = some (s.RegisteredObjects.flatMap
                (fun r => (ReconcileRecord e s.bFirstPassComplete r (RecordScore e cam r)).1),
              { s with
                RegisteredObjects := s.RegisteredObjects.map
                  (fun r => (ReconcileRecord e s.bFirstPassComplete r (RecordScore e cam r)).2)
                AsyncTransformQueue := []
                bAsyncOperationInProgress := false
                bFirstPassComplete := true }) := by
  have hlen : s.RegisteredObjects.length ≠ 0 := by
    intro h; exact hrec (List.length_eq_zero.mp h)
  have hcalc : CalculateSignificance e true s
      = { s with
          AsyncTransformQueue :=
            s.RegisteredObjects.map (fun r => (r.GetTransform e, (0 : ℚ)))
          bAsyncOperationInProgress := true } := by
    simp [CalculateSignificance, hinit, hidle, hlen]
  have hq : (s.RegisteredObjects.map (fun r => (r.GetTransform e, (0 : ℚ)))).map
      (fun q => (q.1, ComputeSignificance (cam.Dist q.1) (cam.FacingDot q.1)))
      = s.RegisteredObjects.map (fun r => (r.GetTransform e, RecordScore e cam r)) := by
    simp [List.map_map, Function.comp_def, RecordScore]
  simp only [ScoringCycle, hcalc, hidle, Bool.not_false, Bool.and_self, if_true, BackgroundPass,
    CompleteCycle, hq, ReconcileRecords_map, hupd, Bool.false_and, Bool.false_eq_true, if_false]

theorem ReconcileRecord_live (e : Engine) (first : Bool) (r : FSignificanceObject) (v : ℚ)
    (hv : e.IsValid r.Source = true) (hi : e.ImplementsInterface r.Source = true) :
    ReconcileRecord e first r v
      = ((SelectNotifications first true r.SignificanceTag (e.IsVillager r.Source)
            r.CachedSignificance v).map (fun n => (r.Source, n)),
         { r with CachedSignificance := v }) := by
  simp [ReconcileRecord, hv, hi]

theorem RecordAfter_append (e : Engine) :
    ∀ (pre : List ℚ) (a : ℚ) (first : Bool) (r : FSignificanceObject),
      e.IsValid r.Source = true → e.ImplementsInterface r.Source = true →
      RecordAfter e first r (pre ++ [a]) = { r with CachedSignificance := a } := by
  intro pre
  induction pre with
  | nil =>
    intro a first r hv hi
    simp [RecordAfter, ReconcileRecord_live e first r a hv hi]
  | cons v vs ih =>
    intro a first r hv hi
    simp only [List.cons_append, RecordAfter, ReconcileRecord_live e first r v hv hi]
    exact ih a true { r with CachedSignificance := v } hv hi

theorem RecordCalls_length (e : Engine) :
    ∀ (vs : List ℚ) (first : Bool) (r : FSignificanceObject),
      (RecordCalls e first r vs).length = vs.length := by
  intro vs
  induction vs with
  | nil => intro _ _; rfl
  | cons v vs ih => intro first r; simp [RecordCalls, ih]

theorem RecordCalls_getD (e : Engine) :
    ∀ (pre : List ℚ) (a b : ℚ) (post : List ℚ) (first : Bool) (r : FSignificanceObject),
      e.IsValid r.Source = true → e.ImplementsInterface r.Source = true →
      (RecordCalls e first r (pre ++ a :: b :: post)).getD (pre.length + 1) []
        = (SelectNotifications true true r.SignificanceTag (e.IsVillager r.Source) a b).map
            (fun n => (r.Source, n)) := by
  intro pre
  induction pre with
  | nil =>
    intro a b post first r hv hi
    simp only [List.nil_append, RecordCalls, ReconcileRecord_live e first r a hv hi,
      List.length_nil, zero_add, List.getD_cons_succ, List.getD_cons_zero]
    rw [ReconcileRecord_live e true { r with CachedSignificance := a } b hv hi]
  | cons v vs ih =>
    intro a b post first r hv hi
    simp only [List.cons_append, RecordCalls, ReconcileRecord_live e first r v hv hi,
      List.length_cons, List.getD_cons_succ]
    exact ih a b post true { r with CachedSignificance := v } hv hi

theorem split_at_consecutive {vs : List ℚ} {k : Nat} {a b : ℚ} (ha : vs[k]? = some a)
    (hb : vs[k + 1]? = some b) :
    ∃ pre post, vs = pre ++ a :: b :: post ∧ pre.length = k := by
  induction vs generalizing k with
  | nil => simp at ha
  | cons v vs ih =>
    cases k with
    | zero =>
      simp only [List.getElem?_cons_zero, Option.some.injEq] at ha
      simp only [zero_add, List.getElem?_cons_succ] at hb
      cases vs with
      | nil => simp at hb
      | cons w ws =>
        simp only [List.getElem?_cons_zero, Option.some.injEq] at hb
        exact ⟨[], ws, by simp [ha, hb], rfl⟩
    | succ n =>
      simp only [List.getElem?_cons_succ] at ha hb
      obtain ⟨pre, post, h1, h2⟩ := ih ha hb
      exact ⟨v :: pre, post, by simp [h1], by simp [h2]⟩

theorem mem_map_pair_iff {o : UObject} {n : Notification} {l : List Notification} :
    (o, n) ∈ l.map (fun m => (o, m)) ↔ n ∈ l := by
  simp

theorem SelectNotifications_later_significant (tag : ESignificanceTag) (vill : Bool) (a b : ℚ)
    (ht : tag ≠ .SIG_Niagara) :
    Notification.OnSignificanceChanged true ∈ SelectNotifications true true tag vill a b
      ↔ a ≤ 0 ∧ 0 < b := by
  unfold SelectNotifications
  rcases lt_or_le 0 b with h1 | h1 <;> rcases lt_or_le 0 a with h2 | h2 <;> cases vill <;>
    simp [h1, h2, ht, not_le_of_lt, not_lt_of_le]

theorem SelectNotifications_later_insignificant (tag : ESignificanceTag) (vill : Bool)
    (a b : ℚ) (ht : tag ≠ .SIG_Niagara) :
    Notification.OnSignificanceChanged false ∈ SelectNotifications true true tag vill a b
      ↔ 0 < a ∧ b ≤ 0 := by
  unfold SelectNotifications
  rcases lt_or_le 0 b with h1 | h1 <;> rcases lt_or_le 0 a with h2 | h2 <;> cases vill <;>
    simp [h1, h2, ht, not_le_of_lt, not_lt_of_le]

/-- Between a positive and a non-positive entry of a sequence there is a step from a positive
entry to a non-positive one. -/
theorem exists_down_step (f : Nat → ℚ) :
    ∀ (n lo : Nat), 0 < f lo → f (lo + n + 1) ≤ 0 →
      ∃ m, lo ≤ m ∧ m ≤ lo + n ∧ 0 < f m ∧ f (m + 1) ≤ 0 := by
  intro n
  induction n with
  | zero => intro lo h1 h2; exact ⟨lo, le_refl _, le_refl _, h1, h2⟩
  | succ n ih =>
    intro lo h1 h2
    rcases lt_or_le 0 (f (lo + 1)) with h | h
    · obtain ⟨m, hm1, hm2, hm3, hm4⟩ := ih (lo + 1) h (by
        have : lo + 1 + n + 1 = lo + (n + 1) + 1 := by omega
        rw [this]; exact h2)
      exact ⟨m, by omega, by omega, hm3, hm4⟩
    · exact ⟨lo, le_refl _, by omega, h1, h⟩

/-- Between a non-positive and a positive entry of a sequence there is a step from a
non-positive entry to a positive one. -/
theorem exists_up_step (f : Nat → ℚ) :
    ∀ (n lo : Nat), f lo ≤ 0 → 0 < f (lo + n + 1) →
      ∃ m, lo ≤ m ∧ m ≤ lo + n ∧ f m ≤ 0 ∧ 0 < f (m + 1) := by
  intro n
  induction n with
  | zero => intro lo h1 h2; exact ⟨lo, le_refl _, le_refl _, h1, h2⟩
  | succ n ih =>
    intro lo h1 h2
    rcases lt_or_le 0 (f (lo + 1)) with h | h
    · exact ⟨lo, le_refl _, by omega, h1, h⟩
    · obtain ⟨m, hm1, hm2, hm3, hm4⟩ := ih (lo + 1) h (by
        have : lo + 1 + n + 1 = lo + (n + 1) + 1 := by omega
        rw [this]; exact h2)
      exact ⟨m, by omega, by omega, hm3, hm4⟩

theorem DeliveredIn_lt_length {trace : List (List (UObject × Notification))} {k : Nat}
    {o : UObject} {n : Notification} (h : DeliveredIn trace k o n) : k < trace.length := by
  by_contra hk
  unfold DeliveredIn at h
  rw [List.getD_eq_default _ _ (not_lt.mp hk)] at h
  exact absurd h (List.not_mem_nil _)

theorem getElem?_eq_some_getD {vs : List ℚ} {k : Nat} (h : k < vs.length) :
    vs[k]? = some (vs.getD k 0) := by
  rw [List.getD_eq_getElem?_getD, List.getElem?_eq_getElem h]
  rfl

theorem RecordCalls_step (e : Engine) (r : FSignificanceObject) (scores : List ℚ)
    (hv : e.IsValid r.Source = true) (hi : e.ImplementsInterface r.Source = true)
    (ht : r.SignificanceTag ≠ .SIG_Niagara) (k : Nat) (a b : ℚ) (ha : scores[k]? = some a)
    (hb : scores[k + 1]? = some b) :
    (DeliveredIn (RecordCalls e false r scores) (k + 1) r.Source (.OnSignificanceChanged true)
      ↔ a ≤ 0 ∧ 0 < b) ∧
    (DeliveredIn (RecordCalls e false r scores) (k + 1) r.Source (.OnSignificanceChanged false)
      ↔ 0 < a ∧ b ≤ 0) := by
  obtain ⟨pre, post, h1, h2⟩ := split_at_consecutive ha hb
  subst h1
  subst h2
  unfold DeliveredIn
  rw [RecordCalls_getD e pre a b post false r hv hi]
  exact ⟨mem_map_pair_iff.trans (SelectNotifications_later_significant _ _ a b ht),
    mem_map_pair_iff.trans (SelectNotifications_later_insignificant _ _ a b ht)⟩

/-- C11: for a live object that implements the interface and is not of the effects category,
in consecutive scoring cycles of an unchanged registry that start with the first pass and have
the given scores: in a cycle after the first, became-significant is delivered exactly when the
score of the cycle before was `<= 0` and the score of this cycle is `> 0`, and
became-insignificant exactly when the score before was `> 0` and this one is `<= 0`; the cached
score after each cycle is the score of that cycle; and between two cycles (after the first) that
deliver the same crossing there is a cycle that delivers the opposite crossing. -/
theorem C11_crossing_notifications (e : Engine) (r : FSignificanceObject) (scores : List ℚ)
    (hv : e.IsValid r.Source = true) (hi : e.ImplementsInterface r.Source = true)
    (ht : r.SignificanceTag ≠ .SIG_Niagara) :
    (∀ k a b, scores[k]? = some a → scores[k + 1]? = some b →
      (DeliveredIn (RecordCalls e false r scores) (k + 1) r.Source
          (.OnSignificanceChanged true) ↔ a ≤ 0 ∧ 0 < b) ∧
      (DeliveredIn (RecordCalls e false r scores) (k + 1) r.Source
          (.OnSignificanceChanged false) ↔ 0 < a ∧ b ≤ 0)) ∧
    (∀ k a, scores[k]? = some a →
      (RecordAfter e false r (scores.take (k + 1))).CachedSignificance = a) ∧
    (∀ p q, 1 ≤ p → p < q →
      DeliveredIn (RecordCalls e false r scores) p r.Source (.OnSignificanceChanged true) →
      DeliveredIn (RecordCalls e false r scores) q r.Source (.OnSignificanceChanged true) →
      ∃ c, p < c ∧ c < q ∧
        DeliveredIn (RecordCalls e false r scores) c r.Source (.OnSignificanceChanged false)) ∧
    (∀ p q, 1 ≤ p → p < q →
      DeliveredIn (RecordCalls e false r scores) p r.Source (.OnSignificanceChanged false) →
      DeliveredIn (RecordCalls e false r scores) q r.Source (.OnSignificanceChanged false) →
      ∃ c, p < c ∧ c < q ∧
        DeliveredIn (RecordCalls e false r scores) c r.Source (.OnSignificanceChanged true)) := by
  have step := RecordCalls_step e r scores hv hi ht
  have stepD : ∀ k, k + 1 < scores.length →
      (DeliveredIn (RecordCalls e false r scores) (k + 1) r.Source
          (.OnSignificanceChanged true) ↔ scores.getD k 0 ≤ 0 ∧ 0 < scores.getD (k + 1) 0) ∧
      (DeliveredIn (RecordCalls e false r scores) (k + 1) r.Source
          (.OnSignificanceChanged false) ↔ 0 < scores.getD k 0 ∧ scores.getD (k + 1) 0 ≤ 0) :=
    fun k hk => step k _ _ (getElem?_eq_some_getD (by omega)) (getElem?_eq_some_getD hk)
  have hlen : ∀ {k n}, DeliveredIn (RecordCalls e false r scores) k r.Source n →
      k < scores.length := by
    intro k n h
    have := DeliveredIn_lt_length h
    rwa [RecordCalls_length] at this
  refine ⟨step, ?_, ?_, ?_⟩
  · intro k a ha
    have hk : k < scores.length := by
      by_contra hk
      rw [List.getElem?_eq_none (not_lt.mp hk)] at ha
      exact Option.noConfusion ha
    have : scores.take (k + 1) = scores.take k ++ [a] := by
      rw [List.take_succ, ha]; rfl
    rw [this, RecordAfter_append e _ a false r hv hi]
  · intro p q hp hpq h1 h2
    obtain ⟨p', rfl⟩ : ∃ p', p = p' + 1 := ⟨p - 1, by omega⟩
    obtain ⟨q', rfl⟩ : ∃ q', q = q' + 1 := ⟨q - 1, by omega⟩
    have hq := hlen h2
    have f1 := ((stepD p' (by omega)).1.mp h1).2
    have f2 := ((stepD q' hq).1.mp h2).1
    have hne : p' + 1 ≠ q' := by
      intro h; rw [h] at f1; exact absurd f1 (not_lt_of_le f2)
    obtain ⟨n, hn⟩ : ∃ n, q' = p' + 1 + n + 1 := ⟨q' - p' - 2, by omega⟩
    obtain ⟨m, hm1, hm2, hm3, hm4⟩ := exists_down_step (fun k => scores.getD k 0) n (p' + 1) f1
      (by rw [← hn]; exact f2)
    exact ⟨m + 1, by omega, by omega, (stepD m (by omega)).2.mpr ⟨hm3, hm4⟩⟩
  · intro p q hp hpq h1 h2
    obtain ⟨p', rfl⟩ : ∃ p', p = p' + 1 := ⟨p - 1, by omega⟩
    obtain ⟨q', rfl⟩ : ∃ q', q = q' + 1 := ⟨q - 1, by omega⟩
    have hq := hlen h2
    have f1 := ((stepD p' (by omega)).2.mp h1).2
    have f2 := ((stepD q' hq).2.mp h2).1
    have hne : p' + 1 ≠ q' := by
      intro h; rw [h] at f1; exact absurd f2 (not_lt_of_le f1)
    obtain ⟨n, hn⟩ : ∃ n, q' = p' + 1 + n + 1 := ⟨q' - p' - 2, by omega⟩
    obtain ⟨m, hm1, hm2, hm3, hm4⟩ := exists_up_step (fun k => scores.getD k 0) n (p' + 1) f1
      (by rw [← hn]; exact f2)
    exact ⟨m + 1, by omega, by omega, (stepD m (by omega)).1.mpr ⟨hm3, hm4⟩⟩

/-- Witness of C11: a villager (continuously tracked) that scores `0`, `3/5`, `4/5` from the
first pass on is told became-insignificant, became-significant and value-changed(3/5, 4/5),
both in the trace of its record and in three scoring cycles of the manager in which the camera
approaches it along the X axis. -/
theorem C11_crossing_notifications_witness :
    VillagerEngine.IsValid 20000 = true ∧ VillagerEngine.ImplementsInterface 20000 = true ∧
    ESignificanceTag.SIG_Gameplay ≠ ESignificanceTag.SIG_Niagara ∧
    (DeliveredIn (RecordCalls VillagerEngine false ⟨20000, .SIG_Gameplay, 0⟩ [0, 3 / 5, 4 / 5]) 1
        20000 (.OnSignificanceChanged true) ↔ (0 : ℚ) ≤ 0 ∧ (0 : ℚ) < 3 / 5) ∧
    (DeliveredIn (RecordCalls VillagerEngine false ⟨20000, .SIG_Gameplay, 0⟩ [0, 3 / 5, 4 / 5]) 2
        20000 (.OnSignificanceChanged true) ↔ (3 / 5 : ℚ) ≤ 0 ∧ (0 : ℚ) < 4 / 5) ∧
    RecordCalls VillagerEngine false ⟨20000, .SIG_Gameplay, 0⟩ [0, 3 / 5, 4 / 5]
      = [[(20000, .OnSignificanceChanged false)], [(20000, .OnSignificanceChanged true)],
         [(20000, .OnSignificanceValueChanged (3 / 5) (4 / 5))]] ∧
    CycleCalls VillagerEngine [CameraOnAxis 0, CameraOnAxis 12000, CameraOnAxis 16000]
        (IdleWith [⟨20000, .SIG_Gameplay, 0⟩] [(20000, 0)])
      = some [[(20000, .OnSignificanceChanged false)], [(20000, .OnSignificanceChanged true)],
         [(20000, .OnSignificanceValueChanged (3 / 5) (4 / 5))]] :=
  ⟨rfl, rfl, by decide,
    ((C11_crossing_notifications VillagerEngine ⟨20000, .SIG_Gameplay, 0⟩ [0, 3 / 5, 4 / 5]
      rfl rfl (by decide)).1 0 0 (3 / 5) rfl rfl).1,
    ((C11_crossing_notifications VillagerEngine ⟨20000, .SIG_Gameplay, 0⟩ [0, 3 / 5, 4 / 5]
      rfl rfl (by decide)).1 1 (3 / 5) (4 / 5) rfl rfl).1,
    by decide!, by decide!⟩

theorem ReconcileRecord_Source (e : Engine) (first : Bool) (r : FSignificanceObject) (v : ℚ) :
    (ReconcileRecord e first r v).2.Source = r.Source := by
  unfold ReconcileRecord
  split_ifs <;> rfl

theorem RecordScore_congr (e : Engine) (cam : CameraView) {r r' : FSignificanceObject}
    (h : r'.Source = r.Source) : RecordScore e cam r' = RecordScore e cam r := by
  simp [RecordScore, FSignificanceObject.GetTransform, h]

/-- The scoring cycles of a manager that holds one record and has no pending registry change
deliver the calls of the trace of that record, with the scores computed from the camera
snapshots. -/
theorem CycleCalls_single_record (e : Engine) :
    ∀ (cams : List CameraView) (s : UShoniSignificanceManager) (r : FSignificanceObject),
      s.bIsInited = true → s.bAsyncOperationInProgress = false → s.bRequiresUpdate = false →
      s.RegisteredObjects = [r] →
      CycleCalls e cams s
        = some (RecordCalls e s.bFirstPassComplete r
            (cams.map (fun cam => RecordScore e cam r))) := by
  intro cams
  induction cams with
  | nil => intro s r _ _ _ _; rfl
  | cons cam cams ih =>
    intro s r h1 h2 h3 h4
    have hc := ScoringCycle_idle e cam s h1 h2 h3 (by rw [h4]; simp)
    rw [h4] at hc
    simp only [List.flatMap_cons, List.flatMap_nil, List.append_nil, List.map_cons,
      List.map_nil] at hc
    obtain ⟨S', hS, g1, g2, g3, g4, g5⟩ : ∃ S',
        ScoringCycle e cam s
          = some ((ReconcileRecord e s.bFirstPassComplete r (RecordScore e cam r)).1, S') ∧
        S'.bIsInited = true ∧ S'.bAsyncOperationInProgress = false ∧
        S'.bRequiresUpdate = false ∧
        S'.RegisteredObjects
          = [(ReconcileRecord e s.bFirstPassComplete r (RecordScore e cam r)).2] ∧
        S'.bFirstPassComplete = true :=
      ⟨_, hc, h1, rfl, h3, rfl, rfl⟩
    simp only [CycleCalls, hS, List.map_cons, RecordCalls]
    rw [ih S' _ g1 g2 g3 g4, g5]
    have hs : (cams.map (fun cam' => RecordScore e cam'
          (ReconcileRecord e s.bFirstPassComplete r (RecordScore e cam r)).2))
        = cams.map (fun cam' => RecordScore e cam' r) := by
      apply List.map_congr_left
      intro cam' _
      exact RecordScore_congr e cam' (ReconcileRecord_Source e _ r _)
    simp [hs]

/-! ## The in-flight guard -/

theorem RegisterObject_bAsync (e : Engine) (s : UShoniSignificanceManager)
    (o : Option UObject) (tag : ESignificanceTag) :
    (RegisterObject e s o tag).bAsyncOperationInProgress = s.bAsyncOperationInProgress ∧
    (RegisterObject e s o tag).RegisteredObjects = s.RegisteredObjects ∧
    (RegisterObject e s o tag).ObjectLookupTable = s.ObjectLookupTable := by
  unfold RegisterObject
  cases o with
  | none => exact ⟨rfl, rfl, rfl⟩
  | some o => simp only []; split_ifs <;> exact ⟨rfl, rfl, rfl⟩

theorem DeregisterObject_bAsync (e : Engine) (s : UShoniSignificanceManager)
    (o : Option UObject) :
    (DeregisterObject e s o).bAsyncOperationInProgress = s.bAsyncOperationInProgress ∧
    (DeregisterObject e s o).RegisteredObjects = s.RegisteredObjects ∧
    (DeregisterObject e s o).ObjectLookupTable = s.ObjectLookupTable := by
  unfold DeregisterObject
  cases o with
  | none => exact ⟨rfl, rfl, rfl⟩
  | some o => simp only []; split_ifs <;> exact ⟨rfl, rfl, rfl⟩

theorem SchedulerInFlight_reachable : SchedulerReachable SchedulerInFlight :=
  .step (.step (.step .init (.register PlainEngine _ (some 5000) .SIG_Gameplay))
    (.nextTick PlainEngine _)) (.timerTick PlainEngine true _)

theorem mem_RemoveAtSwap {l : List FSignificanceObject} {Idx : Nat} {r : FSignificanceObject}
    (h : r ∈ RemoveAtSwap l Idx) : r ∈ l := by
  unfold RemoveAtSwap at h
  cases hl : l.getLast? with
  | none => rw [hl] at h; exact h
  | some last =>
    rw [hl] at h
    have h1 : r ∈ l.set Idx last := List.mem_of_mem_dropLast h
    rcases List.mem_or_eq_of_mem_set h1 with h2 | h2
    · exact h2
    · rw [h2]; exact List.mem_of_getLast?_eq_some hl

theorem RemoveStep_CachedInUnit (e : Engine)
    (st : List FSignificanceObject × List (UObject × Nat)) (Obj : UObject)
    (h : CachedInUnit st.1) : CachedInUnit (RemoveStep e st Obj).1 := by
  unfold RemoveStep
  split_ifs
  · cases TMap.Find st.2 Obj with
    | none => exact h
    | some Idx =>
      simp only []
      cases st.1[Idx]? with
      | none => exact h
      | some r =>
        simp only []
        split_ifs
        · exact fun r hr => h r (mem_RemoveAtSwap hr)
        · exact h
  · exact h

theorem AddStep_CachedInUnit (e : Engine)
    (st : List FSignificanceObject × List (UObject × Nat)) (Obj : UObject × ESignificanceTag)
    (h : CachedInUnit st.1) : CachedInUnit (AddStep e st Obj).1 := by
  unfold AddStep
  split_ifs
  · intro r hr
    simp only [List.mem_append, List.mem_singleton] at hr
    rcases hr with hr | hr
    · exact h r hr
    · rw [hr]; exact ⟨le_refl _, zero_le_one⟩
  · exact h

theorem foldl_CachedInUnit {α : Type}
    (f : List FSignificanceObject × List (UObject × Nat) → α →
      List FSignificanceObject × List (UObject × Nat))
    (hf : ∀ st a, CachedInUnit st.1 → CachedInUnit (f st a).1) :
    ∀ (l : List α) (st : List FSignificanceObject × List (UObject × Nat)),
      CachedInUnit st.1 → CachedInUnit (l.foldl f st).1 := by
  intro l
  induction l with
  | nil => intro st h; exact h
  | cons a l ih => intro st h; exact ih (f st a) (hf st a h)

theorem UpdateContainers_CachedInUnit (e : Engine) (s : UShoniSignificanceManager)
    (h : CachedInUnit s.RegisteredObjects) :
    CachedInUnit (UpdateContainers e s).RegisteredObjects := by
  unfold UpdateContainers
  simp only []
  split_ifs
  · exact foldl_CachedInUnit _ (AddStep_CachedInUnit e) _ _
      (foldl_CachedInUnit _ (RemoveStep_CachedInUnit e) _ _ h)
  · exact h

theorem NextTick_CachedInUnit (e : Engine) (s : UShoniSignificanceManager)
    (h : CachedInUnit s.RegisteredObjects) : CachedInUnit (NextTick e s).RegisteredObjects := by
  unfold NextTick
  split_ifs
  · exact h
  · exact UpdateContainers_CachedInUnit e _ h

theorem CalculateSignificance_records (e : Engine) (cv : Bool) (s : UShoniSignificanceManager) :
    (CalculateSignificance e cv s).RegisteredObjects = s.RegisteredObjects := by
  unfold CalculateSignificance
  cases h1 : s.bIsInited <;> cases h2 : s.bAsyncOperationInProgress <;> cases cv <;>
    by_cases h3 : s.RegisteredObjects = [] <;> simp [h3]

theorem ReconcileRecord_CachedInUnit (e : Engine) (first : Bool) (r : FSignificanceObject)
    (v : ℚ) (hr : 0 ≤ r.CachedSignificance ∧ r.CachedSignificance ≤ 1) (hv : 0 ≤ v ∧ v ≤ 1) :
    0 ≤ (ReconcileRecord e first r v).2.CachedSignificance ∧
      (ReconcileRecord e first r v).2.CachedSignificance ≤ 1 := by
  have h2 : (ReconcileRecord e first r v).2
      = if (first && !e.IsValid r.Source) = true then r
        else { r with CachedSignificance := v } := by
    unfold ReconcileRecord
    split_ifs <;> rfl
  rw [h2]
  split_ifs
  · exact hr
  · exact hv

theorem ReconcileRecords_CachedInUnit (e : Engine) (first : Bool) :
    ∀ (rs : List FSignificanceObject) (queue : List (FTransform × ℚ))
      (res : List (UObject × Notification) × List FSignificanceObject),
      ReconcileRecords e first rs queue = some res → CachedInUnit rs →
      (∀ q ∈ queue, 0 ≤ q.2 ∧ q.2 ≤ 1) → CachedInUnit res.2 := by
  intro rs
  induction rs with
  | nil =>
    intro queue res h _ _
    simp only [ReconcileRecords, Option.some.injEq] at h
    rw [← h]
    exact fun r hr => absurd hr (List.not_mem_nil _)
  | cons r rs ih =>
    intro queue res h hrs hq
    simp only [ReconcileRecords] at h
    cases hrec : ReconcileRecords e first rs queue.tail with
    | none => simp [hrec] at h
    | some res1 =>
      have ih1 := ih queue.tail res1 hrec (fun x hx => hrs x (List.mem_cons_of_mem _ hx))
        (fun q hq' => hq q (List.mem_of_mem_tail hq'))
      simp only [hrec] at h
      split_ifs at h with hskip
      · simp only [Option.some.injEq] at h
        rw [← h]
        intro x hx
        rcases List.mem_cons.1 hx with hx | hx
        · rw [hx]; exact hrs r (List.mem_cons_self _ _)
        · exact ih1 x hx
      · cases hh : queue.head? with
        | none => simp [hh] at h
        | some q =>
          simp only [hh, Option.some.injEq] at h
          rw [← h]
          intro x hx
          rcases List.mem_cons.1 hx with hx | hx
          · rw [hx]
            exact ReconcileRecord_CachedInUnit e first r q.2 (hrs r (List.mem_cons_self _ _))
              (hq q (List.mem_of_mem_head? hh))
          · exact ih1 x hx

theorem CompleteCycle_CachedInUnit {e : Engine} {s : UShoniSignificanceManager}
    {res : List (UObject × Notification) × UShoniSignificanceManager}
    (h : CompleteCycle e s = some res) (hrs : CachedInUnit s.RegisteredObjects)
    (hq : ∀ q ∈ s.AsyncTransformQueue, 0 ≤ q.2 ∧ q.2 ≤ 1) :
    CachedInUnit res.2.RegisteredObjects := by
  unfold CompleteCycle at h
  cases hr : ReconcileRecords e s.bFirstPassComplete s.RegisteredObjects
      s.AsyncTransformQueue with
  | none => simp [hr] at h
  | some res0 =>
    have h0 := ReconcileRecords_CachedInUnit e _ _ _ _ hr hrs hq
    simp only [hr, Option.some.injEq] at h
    rw [← h]
    simp only []
    split_ifs
    · exact UpdateContainers_CachedInUnit e _ h0
    · exact h0

theorem BackgroundPass_scores (cam : CameraView) (s : UShoniSignificanceManager)
    (hcam : ∀ p, 0 ≤ cam.Dist p) :
    (BackgroundPass cam s).RegisteredObjects = s.RegisteredObjects ∧
    ∀ q ∈ (BackgroundPass cam s).AsyncTransformQueue, 0 ≤ q.2 ∧ q.2 ≤ 1 := by
  refine ⟨rfl, ?_⟩
  intro q hq
  simp only [BackgroundPass, List.mem_map] at hq
  obtain ⟨q0, _, rfl⟩ := hq
  exact ComputeSignificance_mem_unit _ _ (hcam q0.1)

theorem SchedulerStep_CachedInUnit {σ σ' : Scheduler} (hstep : SchedulerStep σ σ')
    (ih : CachedInUnit σ.Manager.RegisteredObjects) :
    CachedInUnit σ'.Manager.RegisteredObjects := by
  cases hstep with
  | register e _ o tag =>
    simp only [Scheduler.Register, (RegisterObject_bAsync e σ.Manager o tag).2.1]
    exact ih
  | deregister e _ o =>
    simp only [Scheduler.Deregister, (DeregisterObject_bAsync e σ.Manager o).2.1]
    exact ih
  | nextTick e _ => exact NextTick_CachedInUnit e _ ih
  | timerTick e cv _ =>
    simp only [Scheduler.TimerTick, CalculateSignificance_records]
    exact ih
  | passCompletes e cam _ _ hcam hc =>
    unfold Scheduler.PassCompletes at hc
    split_ifs at hc with hpos
    simp only [Option.map_eq_some'] at hc
    obtain ⟨res, hres, rfl⟩ := hc
    exact CompleteCycle_CachedInUnit hres ih (BackgroundPass_scores cam σ.Manager hcam).2

theorem SchedulerReachable_CachedInUnit {σ : Scheduler} (h : SchedulerReachable σ) :
    CachedInUnit σ.Manager.RegisteredObjects := by
  induction h with
  | init => exact fun r hr => absurd hr (List.not_mem_nil _)
  | step _ hstep ih => exact SchedulerStep_CachedInUnit hstep ih

theorem GetSignificance_mem (s : UShoniSignificanceManager) (Caller : UObject) :
    GetSignificance s Caller = 0 ∨
      ∃ r ∈ s.RegisteredObjects, GetSignificance s Caller = r.CachedSignificance := by
  unfold GetSignificance
  cases TMap.Find s.ObjectLookupTable Caller with
  | none => exact Or.inl rfl
  | some Index =>
    simp only []
    cases hr : s.RegisteredObjects[Index]? with
    | none => exact Or.inl rfl
    | some r => exact Or.inr ⟨r, List.getElem?_mem hr, rfl⟩

/-- C12: for every distance `>= 0` and every facing dot product the computed score lies in
`[0, 1]`; and in every reachable state of the scheduler every cached significance and every
value returned by `GetSignificance` lies in `[0, 1]`. -/
theorem C12_significance_in_unit_interval (Dist FacingDot : ℚ) (hD : 0 ≤ Dist) (σ : Scheduler)
    (hreach : SchedulerReachable σ) (Caller : UObject) :
    (0 ≤ ComputeSignificance Dist FacingDot ∧ ComputeSignificance Dist FacingDot ≤ 1) ∧
    (∀ r ∈ σ.Manager.RegisteredObjects, 0 ≤ r.CachedSignificance ∧ r.CachedSignificance ≤ 1) ∧
    (0 ≤ GetSignificance σ.Manager Caller ∧ GetSignificance σ.Manager Caller ≤ 1) := by
  have hc := SchedulerReachable_CachedInUnit hreach
  refine ⟨ComputeSignificance_mem_unit Dist FacingDot hD, hc, ?_⟩
  rcases GetSignificance_mem σ.Manager Caller with h | ⟨r, hr, h⟩
  · rw [h]; exact ⟨le_refl _, zero_le_one⟩
  · rw [h]; exact hc r hr

theorem SchedulerAfterCycle_reachable : SchedulerReachable SchedulerAfterCycle :=
  .step SchedulerInFlight_reachable
    (.passCompletes PlainEngine OriginCamera _ _ (fun p => abs_nonneg p.X) (by decide!))

/-- Witness of C12: distance `5000` straight ahead scores `3/4`; after one scoring cycle the
record of object `5000` caches `3/4` and `GetSignificance 5000` returns it. -/
theorem C12_significance_in_unit_interval_witness :
    (0 : ℚ) ≤ 5000 ∧ SchedulerReachable SchedulerAfterCycle ∧
    GetSignificance SchedulerAfterCycle.Manager 5000 = 3 / 4 ∧
    (0 ≤ ComputeSignificance 5000 1 ∧ ComputeSignificance 5000 1 ≤ 1) ∧
    (∀ r ∈ SchedulerAfterCycle.Manager.RegisteredObjects,
      0 ≤ r.CachedSignificance ∧ r.CachedSignificance ≤ 1) ∧
    (0 ≤ GetSignificance SchedulerAfterCycle.Manager 5000 ∧
      GetSignificance SchedulerAfterCycle.Manager 5000 ≤ 1) :=
  ⟨by norm_num, SchedulerAfterCycle_reachable, by decide!,
    C12_significance_in_unit_interval 5000 1 (by norm_num) SchedulerAfterCycle
      SchedulerAfterCycle_reachable 5000⟩

/-! ## The facing dot product -/

/-- C28: for a distance `d >= 0` and facing dot products `-1 <= a <= b`, the effective horizon
`20000 * lerp(0.5, 1, (dot + 1) / 2)` is `10000` at `-1`, `20000` at `1`, not smaller at `b`
than at `a`, and the score at `b` is not lower than the score at `a`. -/
theorem C28_score_monotone_in_facing (d a b : ℚ) (hd : 0 ≤ d) (ha : -1 ≤ a) (hab : a ≤ b) :
    ScaledMaxDist (-1) = 10000 ∧ ScaledMaxDist 1 = 20000 ∧
    ScaledMaxDist a ≤ ScaledMaxDist b ∧
    ComputeSignificance d a ≤ ComputeSignificance d b := by
  have hHa : 0 < ScaledMaxDist a := by rw [ScaledMaxDist_eq]; linarith
  have hH : ScaledMaxDist a ≤ ScaledMaxDist b := by
    rw [ScaledMaxDist_eq, ScaledMaxDist_eq]; linarith
  have hHb : 0 < ScaledMaxDist b := lt_of_lt_of_le hHa hH
  refine ⟨by rw [ScaledMaxDist_eq]; norm_num, by rw [ScaledMaxDist_eq]; norm_num, hH, ?_⟩
  by_cases h1 : d ≤ ScaledMaxDist a
  · have h2 : d ≤ ScaledMaxDist b := le_trans h1 hH
    rw [ComputeSignificance_eq d a, ComputeSignificance_eq d b]
    simp only [h1, h2, hHa, hHb, gt_iff_lt, and_self, if_true]
    have : d / ScaledMaxDist b ≤ d / ScaledMaxDist a := div_le_div_of_nonneg_left hd hHa hH
    linarith
  · have h0 : ComputeSignificance d a = 0 := by
      rw [ComputeSignificance_eq]; simp [h1]
    rw [h0]
    exact (ComputeSignificance_mem_unit d b hd).1

/-- Witness of C28: distance `12000`, seen from the side (`0`) and straight ahead (`1`). -/
theorem C28_score_monotone_in_facing_witness :
    (0 : ℚ) ≤ 12000 ∧ (-1 : ℚ) ≤ 0 ∧ (0 : ℚ) ≤ 1 ∧
    ComputeSignificance 12000 0 = 1 / 5 ∧ ComputeSignificance 12000 1 = 2 / 5 ∧
    ScaledMaxDist (-1) = 10000 ∧ ScaledMaxDist 1 = 20000 ∧
    ScaledMaxDist 0 ≤ ScaledMaxDist 1 ∧
    ComputeSignificance 12000 0 ≤ ComputeSignificance 12000 1 :=
  ⟨by norm_num, by norm_num, by norm_num, by decide!, by decide!,
    C28_score_monotone_in_facing 12000 0 1 (by norm_num) (by norm_num) (by norm_num)⟩

/-! ## The two flags of the debounce -/

theorem RegisterObject_flags (e : Engine) (s : UShoniSignificanceManager) (o : Option UObject)
    (tag : ESignificanceTag) (h : s.bRequiresUpdate = s.bDebouncePending) :
    (RegisterObject e s o tag).bRequiresUpdate = (RegisterObject e s o tag).bDebouncePending := by
  unfold RegisterObject
  cases o with
  | none => exact h
  | some o =>
    simp only []
    cases hs : e.IsSpatial o <;> cases hd : s.bDebouncePending <;> simp [h, hd]

theorem DeregisterObject_flags (e : Engine) (s : UShoniSignificanceManager)
    (o : Option UObject) (h : s.bRequiresUpdate = s.bDebouncePending) :
    (DeregisterObject e s o).bRequiresUpdate = (DeregisterObject e s o).bDebouncePending := by
  unfold DeregisterObject
  cases o with
  | none => exact h
  | some o =>
    simp only []
    cases hs : e.HasWorld o <;> cases hd : s.bDebouncePending <;> simp [h, hd]

theorem NextTick_flags (e : Engine) (s : UShoniSignificanceManager)
    (h : s.bRequiresUpdate = s.bDebouncePending) :
    (NextTick e s).bRequiresUpdate = (NextTick e s).bDebouncePending := by
  unfold NextTick
  split_ifs
  · exact h
  · rfl

theorem CalculateSignificance_flags (e : Engine) (cv : Bool) (s : UShoniSignificanceManager) :
    (CalculateSignificance e cv s).bRequiresUpdate = s.bRequiresUpdate ∧
    (CalculateSignificance e cv s).bDebouncePending = s.bDebouncePending := by
  unfold CalculateSignificance
  cases h1 : s.bIsInited <;> cases h2 : s.bAsyncOperationInProgress <;> cases cv <;>
    by_cases h3 : s.RegisteredObjects = [] <;> simp [h3]

theorem CompleteCycle_eq_without_update (e : Engine) (s : UShoniSignificanceManager)
    (h : s.bRequiresUpdate = s.bDebouncePending) :
    CompleteCycle e s = CompleteCycleWithoutUpdate e s := by
  unfold CompleteCycle CompleteCycleWithoutUpdate
  cases hr : ReconcileRecords e s.bFirstPassComplete s.RegisteredObjects
      s.AsyncTransformQueue with
  | none => rfl
  | some res =>
    cases hd : s.bDebouncePending <;> simp [h, hd]

theorem CompleteCycleWithoutUpdate_flags {e : Engine} {s : UShoniSignificanceManager}
    {res : List (UObject × Notification) × UShoniSignificanceManager}
    (hres : CompleteCycleWithoutUpdate e s = some res) :
    res.2.bRequiresUpdate = s.bRequiresUpdate ∧ res.2.bDebouncePending = s.bDebouncePending := by
  unfold CompleteCycleWithoutUpdate at hres
  cases hr : ReconcileRecords e s.bFirstPassComplete s.RegisteredObjects
      s.AsyncTransformQueue with
  | none => simp [hr] at hres
  | some res0 =>
    simp only [hr, Option.some.injEq] at hres
    rw [← hres]
    exact ⟨rfl, rfl⟩

theorem SchedulerStep_flags {σ σ' : Scheduler} (hstep : SchedulerStep σ σ')
    (ih : σ.Manager.bRequiresUpdate = σ.Manager.bDebouncePending) :
    σ'.Manager.bRequiresUpdate = σ'.Manager.bDebouncePending := by
  cases hstep with
  | register e _ o tag => exact RegisterObject_flags e σ.Manager o tag ih
  | deregister e _ o => exact DeregisterObject_flags e σ.Manager o ih
  | nextTick e _ => exact NextTick_flags e σ.Manager ih
  | timerTick e cv _ =>
    simp only [Scheduler.TimerTick, (CalculateSignificance_flags e cv σ.Manager).1,
      (CalculateSignificance_flags e cv σ.Manager).2]
    exact ih
  | passCompletes e cam _ _ _ hc =>
    unfold Scheduler.PassCompletes at hc
    split_ifs at hc with hpos
    simp only [Option.map_eq_some'] at hc
    obtain ⟨res, hres, rfl⟩ := hc
    have hb : (BackgroundPass cam σ.Manager).bRequiresUpdate
        = (BackgroundPass cam σ.Manager).bDebouncePending := ih
    rw [CompleteCycle_eq_without_update e _ hb] at hres
    obtain ⟨f1, f2⟩ := CompleteCycleWithoutUpdate_flags hres
    simp only [f1, f2]
    exact hb

theorem SchedulerReachable_flags {σ : Scheduler} (h : SchedulerReachable σ) :
    σ.Manager.bRequiresUpdate = σ.Manager.bDebouncePending := by
  induction h with
  | init => rfl
  | step _ hstep ih => exact SchedulerStep_flags hstep ih

/-- C30: in every reachable state of the scheduler the flags `bRequiresUpdate` and
`bDebouncePending` are equal, so the condition `bRequiresUpdate && !bDebouncePending` tested at
the end of the game-thread task is false, and that task, whenever it runs, is the task without
its final `UpdateContainers` call. -/
theorem C30_flags_equal (σ : Scheduler) (hreach : SchedulerReachable σ) (e : Engine)
    (cam : CameraView) :
    σ.Manager.bRequiresUpdate = σ.Manager.bDebouncePending ∧
    (σ.Manager.bRequiresUpdate && !σ.Manager.bDebouncePending) = false ∧
    CompleteCycle e (BackgroundPass cam σ.Manager)
      = CompleteCycleWithoutUpdate e (BackgroundPass cam σ.Manager) := by
  have h := SchedulerReachable_flags hreach
  refine ⟨h, ?_, CompleteCycle_eq_without_update e _ h⟩
  rw [h]
  cases σ.Manager.bDebouncePending <;> rfl

/-- Witness of C30: a pass is in flight and an object was registered meanwhile; both flags are
set and the game-thread task does not reconcile the registry. -/
theorem C30_flags_equal_witness :
    SchedulerReachable (SchedulerInFlight.Register PlainEngine (some 10000) .SIG_Gameplay) ∧
    (SchedulerInFlight.Register PlainEngine (some 10000) .SIG_Gameplay).Manager.bRequiresUpdate
      = true ∧
    (SchedulerInFlight.Register PlainEngine (some 10000) .SIG_Gameplay).Manager.bRequiresUpdate
      = (SchedulerInFlight.Register PlainEngine (some 10000)
          .SIG_Gameplay).Manager.bDebouncePending ∧
    ((SchedulerInFlight.Register PlainEngine (some 10000) .SIG_Gameplay).Manager.bRequiresUpdate
      && !(SchedulerInFlight.Register PlainEngine (some 10000)
          .SIG_Gameplay).Manager.bDebouncePending) = false ∧
    CompleteCycle PlainEngine (BackgroundPass OriginCamera
        (SchedulerInFlight.Register PlainEngine (some 10000) .SIG_Gameplay).Manager)
      = CompleteCycleWithoutUpdate PlainEngine (BackgroundPass OriginCamera
        (SchedulerInFlight.Register PlainEngine (some 10000) .SIG_Gameplay).Manager) :=
  ⟨.step SchedulerInFlight_reachable (.register PlainEngine _ (some 10000) .SIG_Gameplay),
    by decide!,
    C30_flags_equal _
      (.step SchedulerInFlight_reachable (.register PlainEngine _ (some 10000) .SIG_Gameplay))
      PlainEngine OriginCamera⟩

/-! ## The octants made by `Subdivide` -/

theorem bit_tests (i : Fin 8) :
    (i.val &&& 1 ≠ 0 ↔ i.val.testBit 0 = true) ∧ (i.val &&& 2 ≠ 0 ↔ i.val.testBit 1 = true) ∧
    (i.val &&& 4 ≠ 0 ↔ i.val.testBit 2 = true) := by
  revert i
  decide

theorem ChildBounds_eq (b : FBox) (i : Fin 8) :
    ChildBounds b i
      = { Min := ⟨if i.val.testBit 0 = true then b.GetCenter.X else b.Min.X,
                  if i.val.testBit 1 = true then b.GetCenter.Y else b.Min.Y,
                  if i.val.testBit 2 = true then b.GetCenter.Z else b.Min.Z⟩
          Max := ⟨if i.val.testBit 0 = true then b.Max.X else b.GetCenter.X,
                  if i.val.testBit 1 = true then b.Max.Y else b.GetCenter.Y,
                  if i.val.testBit 2 = true then b.Max.Z else b.GetCenter.Z⟩ } := by
  obtain ⟨h0, h1, h2⟩ := bit_tests i
  simp only [ChildBounds, FBox.BuildAABB, FBox.GetCenter, FBox.GetExtent, FBox.mk.injEq,
    FVector.mk.injEq, ← h0, ← h1, ← h2]
  refine ⟨⟨?_, ?_, ?_⟩, ?_, ?_, ?_⟩ <;> split_ifs <;> ring

theorem bits_determine :
    ∀ i j : Fin 8, i.val.testBit 0 = j.val.testBit 0 → i.val.testBit 1 = j.val.testBit 1 →
      i.val.testBit 2 = j.val.testBit 2 → i = j := by
  decide

theorem ChildBounds_interiors_disjoint (b : FBox) (i j : Fin 8) (p : FVector)
    (hi : (ChildBounds b i).IsInside p = true) (hj : (ChildBounds b j).IsInside p = true) :
    i = j := by
  rw [ChildBounds_eq] at hi hj
  simp only [FBox.IsInside, Bool.and_eq_true, decide_eq_true_eq] at hi hj
  obtain ⟨⟨⟨⟨⟨ix1, ix2⟩, iy1⟩, iy2⟩, iz1⟩, iz2⟩ := hi
  obtain ⟨⟨⟨⟨⟨jx1, jx2⟩, jy1⟩, jy2⟩, jz1⟩, jz2⟩ := hj
  apply bits_determine
  · cases hbi : i.val.testBit 0 <;> cases hbj : j.val.testBit 0 <;> simp_all <;> linarith
  · cases hbi : i.val.testBit 1 <;> cases hbj : j.val.testBit 1 <;> simp_all <;> linarith
  · cases hbi : i.val.testBit 2 <;> cases hbj : j.val.testBit 2 <;> simp_all <;> linarith

theorem ChildBounds_closed_inside_parent (b : FBox) (k : Fin 8) (p : FVector)
    (h : (ChildBounds b k).IsInsideOrOn p = true) : b.IsInsideOrOn p = true := by
  rw [ChildBounds_eq] at h
  simp only [FBox.IsInsideOrOn, FBox.GetCenter, Bool.and_eq_true, decide_eq_true_eq, ge_iff_le]
    at h ⊢
  obtain ⟨⟨⟨⟨⟨hx1, hx2⟩, hy1⟩, hy2⟩, hz1⟩, hz2⟩ := h
  refine ⟨⟨⟨⟨⟨?_, ?_⟩, ?_⟩, ?_⟩, ?_⟩, ?_⟩
  · split_ifs at hx1 hx2 <;> linarith
  · split_ifs at hx1 hx2 <;> linarith
  · split_ifs at hy1 hy2 <;> linarith
  · split_ifs at hy1 hy2 <;> linarith
  · split_ifs at hz1 hz2 <;> linarith
  · split_ifs at hz1 hz2 <;> linarith

/-- The child whose index has the given three bits. -/
theorem exists_child_with_bits (x y z : Bool) :
    ∃ k : Fin 8, k.val.testBit 0 = x ∧ k.val.testBit 1 = y ∧ k.val.testBit 2 = z := by
  revert x y z
  decide

theorem parent_closed_covered (b : FBox) (p : FVector) (h : b.IsInsideOrOn p = true) :
    ∃ k, (ChildBounds b k).IsInsideOrOn p = true := by
  obtain ⟨k, h0, h1, h2⟩ := exists_child_with_bits (decide (b.GetCenter.X ≤ p.X))
    (decide (b.GetCenter.Y ≤ p.Y)) (decide (b.GetCenter.Z ≤ p.Z))
  refine ⟨k, ?_⟩
  rw [ChildBounds_eq]
  simp only [FBox.IsInsideOrOn, Bool.and_eq_true, decide_eq_true_eq, ge_iff_le] at h ⊢
  obtain ⟨⟨⟨⟨⟨hx1, hx2⟩, hy1⟩, hy2⟩, hz1⟩, hz2⟩ := h
  rw [h0, h1, h2]
  simp only [decide_eq_true_eq]
  refine ⟨⟨⟨⟨⟨?_, ?_⟩, ?_⟩, ?_⟩, ?_⟩, ?_⟩ <;> split_ifs <;> first | assumption | linarith

/-- C23: `Subdivide` makes eight children; child `i` has on each axis (X for bit 0 of `i`, Y for
bit 1, Z for bit 2) the interval from the centre to the maximum when the bit is set and from
the minimum to the centre otherwise; a point lies in the closed region of the parent exactly
when it lies in the closed region of some child; two different children share no interior
point; and each child is a leaf without entries that inherits capacity and maximum depth and
sits one level deeper. -/
theorem C23_subdivide_makes_octants (d : FOctreeNodeData) (i j : Fin 8) (p : FVector) :
    ChildBounds d.Bounds i
      = { Min := ⟨if i.val.testBit 0 = true then d.Bounds.GetCenter.X else d.Bounds.Min.X,
                  if i.val.testBit 1 = true then d.Bounds.GetCenter.Y else d.Bounds.Min.Y,
                  if i.val.testBit 2 = true then d.Bounds.GetCenter.Z else d.Bounds.Min.Z⟩
          Max := ⟨if i.val.testBit 0 = true then d.Bounds.Max.X else d.Bounds.GetCenter.X,
                  if i.val.testBit 1 = true then d.Bounds.Max.Y else d.Bounds.GetCenter.Y,
                  if i.val.testBit 2 = true then d.Bounds.Max.Z else d.Bounds.GetCenter.Z⟩ } ∧
    d.Bounds.GetCenter
      = ⟨(d.Bounds.Min.X + d.Bounds.Max.X) / 2, (d.Bounds.Min.Y + d.Bounds.Max.Y) / 2,
         (d.Bounds.Min.Z + d.Bounds.Max.Z) / 2⟩ ∧
    (d.Bounds.IsInsideOrOn p = true ↔ ∃ k, (ChildBounds d.Bounds k).IsInsideOrOn p = true) ∧
    (i = j ∨ ¬ ((ChildBounds d.Bounds i).IsInside p = true ∧
      (ChildBounds d.Bounds j).IsInside p = true)) ∧
    Subdivide d i
      = .leaf { Bounds := ChildBounds d.Bounds i, ClassBuckets := [],
                MaxObjectsPerNode := d.MaxObjectsPerNode, MaxDepth := d.MaxDepth,
                Depth := d.Depth + 1, TotalObjectCount := 0 } := by
  refine ⟨ChildBounds_eq d.Bounds i, ?_, ⟨parent_closed_covered d.Bounds p, ?_⟩, ?_, rfl⟩
  · simp only [FBox.GetCenter, FVector.mk.injEq]
    refine ⟨?_, ?_, ?_⟩ <;> ring
  · rintro ⟨k, hk⟩
    exact ChildBounds_closed_inside_parent d.Bounds k p hk
  · by_cases hij : i = j
    · exact Or.inl hij
    · exact Or.inr (fun h => hij (ChildBounds_interiors_disjoint d.Bounds i j p h.1 h.2))

/-- C22 fails on the code: the centre `(0,0,0)` and the point `(0,5,5)` on a bisecting plane are
inside the root with bounds `+-1000`, but inside none of its eight children, so the descent
loops find no child for them; the point `(5,5,5)` is inside child `7` only. -/
theorem C22_no_child_on_bisecting_plane :
    Root1000.Bounds.IsInside ⟨0, 0, 0⟩ = true ∧
    (List.finRange 8).filter (fun i => (ChildBounds Root1000.Bounds i).IsInside ⟨0, 0, 0⟩) = [] ∧
    FindChild (Subdivide Root1000.data) ⟨0, 0, 0⟩ = none ∧
    Root1000.Bounds.IsInside ⟨0, 5, 5⟩ = true ∧
    (List.finRange 8).filter (fun i => (ChildBounds Root1000.Bounds i).IsInside ⟨0, 5, 5⟩) = [] ∧
    FindChild (Subdivide Root1000.data) ⟨0, 5, 5⟩ = none ∧
    (List.finRange 8).filter (fun i => (ChildBounds Root1000.Bounds i).IsInside ⟨5, 5, 5⟩)
      = [7] := by
  decide!

/-! ## The object counter of a leaf -/

/-- C29 fails on the code: the root leaf holds actor `0` under class `7`; `Remove` for actor `1`,
which is not stored, with the location of actor `0` and class `7` finds the bucket, removes
nothing and still decrements `TotalObjectCount`: the counter is `0`, the leaf holds one
entry. -/
theorem C29_remove_of_absent_entity_decrements :
    (InsertAll ShiftedWorld 5 [(0, 7)] Root1000).map LeafCounts = some [(1, 1)] ∧
    (InsertAll ShiftedWorld 5 [(0, 7)] Root1000).map
      (fun t => (LeafCounts (t.Remove 1 (ShiftedWorld 0) 7),
        StoredObjects (t.Remove 1 (ShiftedWorld 0) 7)))
      = some ([(0, 1)], [0]) := by
  decide!

/-! ## Registry changes while a pass is outstanding, and the debounce without a world -/

theorem SchedulerShrunkInFlight_reachable : SchedulerReachable SchedulerShrunkInFlight :=
  .step (.step (.step (.step (.step (.step .init
    (.register PlainEngine _ (some 5000) .SIG_Gameplay))
    (.register PlainEngine _ (some 10000) .SIG_Gameplay))
    (.nextTick PlainEngine _)) (.timerTick PlainEngine true _))
    (.deregister PlainEngine _ (some 5000))) (.nextTick PlainEngine _)

theorem SchedulerGrownInFlight_reachable : SchedulerReachable SchedulerGrownInFlight :=
  .step (.step SchedulerInFlight_reachable
    (.register PlainEngine _ (some 10000) .SIG_Gameplay)) (.nextTick PlainEngine _)

/-- C25 fails on the code: `UpdateContainers` runs on the next tick also while a pass is
outstanding. After a removal the snapshot has two entries for one record, and the game-thread
task gives the record of object `10000` the score `3/4` computed from the transform of object
`5000` (its own score is `1/2`); after an addition the snapshot has one entry for two records
and the task reads `AsyncTransformQueue[1]` past the end. -/
theorem C25_snapshot_out_of_step_with_records :
    SchedulerReachable SchedulerShrunkInFlight ∧
    SchedulerShrunkInFlight.OutstandingPasses = 1 ∧
    SchedulerShrunkInFlight.Manager.RegisteredObjects = [⟨10000, .SIG_Gameplay, 0⟩] ∧
    SchedulerShrunkInFlight.Manager.AsyncTransformQueue
      = [(⟨5000, 0, 0⟩, 0), (⟨10000, 0, 0⟩, 0)] ∧
    (SchedulerShrunkInFlight.PassCompletes PlainEngine OriginCamera).map
      (fun σ => σ.Manager.RegisteredObjects) = some [⟨10000, .SIG_Gameplay, 3 / 4⟩] ∧
    RecordScore PlainEngine OriginCamera ⟨10000, .SIG_Gameplay, 0⟩ = 1 / 2 ∧
    SchedulerReachable SchedulerGrownInFlight ∧
    SchedulerGrownInFlight.OutstandingPasses = 1 ∧
    SchedulerGrownInFlight.Manager.RegisteredObjects.length = 2 ∧
    SchedulerGrownInFlight.Manager.AsyncTransformQueue.length = 1 ∧
    SchedulerGrownInFlight.PassCompletes PlainEngine OriginCamera = none :=
  ⟨SchedulerShrunkInFlight_reachable, by decide!, by decide!, by decide!, by decide!,
    by decide!, SchedulerGrownInFlight_reachable, by decide!, by decide!, by decide!,
    by decide!⟩

/-- C27 fails on the code: `RegisterObject` for a spatial object without a world sets the
debounce flag but hands no callback to the timer manager; the registration of object `2`, which
has a world, then schedules nothing either, and the next tick applies neither. -/
theorem C27_debounce_flag_without_callback :
    SchedulerReachable SchedulerStuck ∧
    NoWorldEngine.IsSpatial 1 = true ∧
    Scheduler.initial.Manager.bDebouncePending = false ∧
    SchedulerStuck.Manager.ElementsToAdd = [(1, .SIG_Gameplay)] ∧
    SchedulerStuck.Manager.bDebouncePending = true ∧
    SchedulerStuck.Manager.NextTickUpdateContainers = 0 ∧
    ((SchedulerStuck.Register NoWorldEngine (some 2) .SIG_Gameplay).NextTick
      NoWorldEngine).Manager.NextTickUpdateContainers = 0 ∧
    ((SchedulerStuck.Register NoWorldEngine (some 2) .SIG_Gameplay).NextTick
      NoWorldEngine).Manager.RegisteredObjects = [] ∧
    ((SchedulerStuck.Register NoWorldEngine (some 2) .SIG_Gameplay).NextTick
      NoWorldEngine).Manager.ElementsToAdd = [(1, .SIG_Gameplay), (2, .SIG_Gameplay)] :=
  ⟨.step .init (.register NoWorldEngine _ (some 1) .SIG_Gameplay), by decide!, by decide!,
    by decide!, by decide!, by decide!, by decide!, by decide!, by decide!⟩

/-! ## The shape of a tree under `Insert` and `Remove` -/

theorem BucketAdd_nonempty {m : List (UClass × List AActor)} (k : UClass) (o : AActor)
    (hm : ∀ p ∈ m, p.2 ≠ []) : ∀ p ∈ BucketAdd m k o, p.2 ≠ [] := by
  intro p hp
  unfold BucketAdd at hp
  cases hf : TMap.Find m k with
  | none =>
    simp only [hf, List.mem_append, List.mem_singleton] at hp
    rcases hp with hp | rfl
    · exact hm p hp
    · simp
  | some bucket =>
    simp only [hf, TMap.Set, List.mem_map] at hp
    obtain ⟨q, hq, rfl⟩ := hp
    split_ifs
    · simp
    · exact hm q hq

theorem update_child_storage {ch : Fin 8 → FOctreeNode} {i : Fin 8} {c : FOctreeNode}
    (hch : ∀ j, StorageOK (ch j)) (hc : StorageOK c) :
    ∀ j, StorageOK (Function.update ch i c j) := by
  intro j
  by_cases hj : j = i
  · subst hj
    simpa only [Function.update_same] using hc
  · simpa only [Function.update_noteq hj] using hch j

theorem ReinsertExisting_storage {loc : AActor → FVector}
    {ins : FOctreeNode → AActor → FVector → UClass → Option FOctreeNode}
    (hins : InsertKeepsStorage ins) {k : UClass} {ch ch' : Fin 8 → FOctreeNode} {e : AActor}
    (hch : ∀ j, StorageOK (ch j)) (h : ReinsertExisting loc ins k ch e = some ch') :
    ∀ j, StorageOK (ch' j) := by
  unfold ReinsertExisting at h
  cases hf : FindChild ch (loc e) with
  | none =>
    simp only [hf, Option.some.injEq] at h
    exact h ▸ hch
  | some i =>
    simp only [hf, Option.map_eq_some'] at h
    obtain ⟨c, hc, rfl⟩ := h
    exact update_child_storage hch (hins _ _ _ _ _ (hch i) hc)

theorem Redistribute_storage {loc : AActor → FVector}
    {ins : FOctreeNode → AActor → FVector → UClass → Option FOctreeNode}
    (hins : InsertKeepsStorage ins) (k : UClass) :
    ∀ (es : List AActor) (ch ch' : Fin 8 → FOctreeNode), (∀ j, StorageOK (ch j)) →
      es.foldlM (ReinsertExisting loc ins k) ch = some ch' → ∀ j, StorageOK (ch' j) := by
  intro es
  induction es with
  | nil =>
    intro ch ch' hch h
    simp only [List.foldlM_nil, pure, Option.some.injEq] at h
    exact h ▸ hch
  | cons e es ih =>
    intro ch ch' hch h
    rw [List.foldlM_cons] at h
    cases h1 : ReinsertExisting loc ins k ch e with
    | none => simp [h1, bind, Option.bind] at h
    | some ch1 =>
      simp only [h1, bind, Option.bind] at h
      exact ih ch1 ch' (ReinsertExisting_storage hins hch h1) h

theorem InsertIntoChild_storage
    {ins : FOctreeNode → AActor → FVector → UClass → Option FOctreeNode}
    (hins : InsertKeepsStorage ins) {d : FOctreeNodeData} {ch : Fin 8 → FOctreeNode}
    {o : AActor} {p : FVector} {k : UClass} {n' : FOctreeNode}
    (hch : ∀ j, StorageOK (ch j)) (h : InsertIntoChild ins d ch o p k = some n') :
    ∃ ch', n' = .node d ch' ∧ ∀ j, StorageOK (ch' j) := by
  unfold InsertIntoChild at h
  cases hf : FindChild ch p with
  | none =>
    simp only [hf, Option.some.injEq] at h
    exact ⟨ch, h.symm, hch⟩
  | some i =>
    simp only [hf, Option.map_eq_some'] at h
    obtain ⟨c, hc, rfl⟩ := h
    exact ⟨_, rfl, update_child_storage hch (hins _ _ _ _ _ (hch i) hc)⟩

theorem Subdivide_storage (d : FOctreeNodeData) (j : Fin 8) : StorageOK (Subdivide d j) := by
  intro p hp
  simp [FOctreeNode.new] at hp

theorem Insert_keeps_storage (loc : AActor → FVector) :
    ∀ fuel, InsertKeepsStorage (FOctreeNode.Insert loc fuel) := by
  intro fuel
  induction fuel with
  | zero => intro n o p k n' _ h; simp [FOctreeNode.Insert] at h
  | succ fuel ih =>
    intro n o p k n' hn h
    cases hin : n.Bounds.IsInside p with
    | false =>
      simp only [FOctreeNode.Insert, hin, Bool.not_false, if_true, Option.some.injEq] at h
      subst h
      exact hn
    | true =>
      cases n with
      | leaf d =>
        simp only [FOctreeNode.Insert, hin, Bool.not_true, Bool.false_eq_true, if_false] at h
        split_ifs at h with hroom
        · simp only [Option.some.injEq] at h
          subst h
          exact BucketAdd_nonempty k o hn
        · cases hr : (BucketEntries d.ClassBuckets).foldlM
              (ReinsertExisting loc (FOctreeNode.Insert loc fuel) k) (Subdivide d) with
          | none => simp [hr] at h
          | some ch1 =>
            simp only [hr] at h
            have s1 := Redistribute_storage ih k _ _ _ (Subdivide_storage d) hr
            obtain ⟨ch2, rfl, s2⟩ := InsertIntoChild_storage ih s1 h
            exact ⟨rfl, s2⟩
      | node d ch =>
        simp only [FOctreeNode.Insert, hin, Bool.not_true, Bool.false_eq_true, if_false] at h
        obtain ⟨ch2, rfl, s2⟩ := InsertIntoChild_storage ih hn.2 h
        exact ⟨hn.1, s2⟩

theorem Remove_keeps_shape (md : Int) (o : AActor) (p : FVector) (k : UClass) :
    ∀ n, DepthOK md n → StorageOK n →
      DepthOK md (n.Remove o p k) ∧ StorageOK (n.Remove o p k) ∧
      (n.Remove o p k).data.Depth = n.data.Depth := by
  intro n
  induction n with
  | leaf d =>
    intro hd hs
    cases hin : d.Bounds.IsInside p with
    | false =>
      have e : (FOctreeNode.leaf d).Remove o p k = .leaf d := by
        simp only [FOctreeNode.Remove, hin, Bool.not_false, if_true]
      rw [e]
      exact ⟨hd, hs, rfl⟩
    | true =>
      cases hf : TMap.Find d.ClassBuckets k with
      | none =>
        have e : (FOctreeNode.leaf d).Remove o p k = .leaf d := by
          simp only [FOctreeNode.Remove, hin, hf, Bool.not_true, Bool.false_eq_true, if_false]
        rw [e]
        exact ⟨hd, hs, rfl⟩
      | some bucket =>
        simp only [FOctreeNode.Remove, hin, hf, Bool.not_true, Bool.false_eq_true, if_false]
        refine ⟨hd, ?_, rfl⟩
        intro q hq
        simp only at hq
        split_ifs at hq with hlen
        · exact hs q (List.mem_of_mem_filter hq)
        · simp only [TMap.Set, List.mem_map] at hq
          obtain ⟨r, hr, rfl⟩ := hq
          split_ifs
          · exact fun h0 => hlen (by
              have h1 : bucket.erase o = [] := h0
              rw [h1]
              rfl)
          · exact hs r hr
  | node d ch ih =>
    intro hd hs
    cases hin : d.Bounds.IsInside p with
    | false =>
      have e : (FOctreeNode.node d ch).Remove o p k = .node d ch := by
        simp only [FOctreeNode.Remove, hin, Bool.not_false, if_true]
      rw [e]
      exact ⟨hd, hs, rfl⟩
    | true =>
      cases hf : FindChild ch p with
      | none =>
        have e : (FOctreeNode.node d ch).Remove o p k = .node d ch := by
          simp only [FOctreeNode.Remove, hin, hf, Bool.not_true, Bool.false_eq_true, if_false]
        rw [e]
        exact ⟨hd, hs, rfl⟩
      | some i =>
        simp only [FOctreeNode.Remove, hin, hf, Bool.not_true, Bool.false_eq_true, if_false]
        have hi := ih i (hd.2.2 i).2 (hs.2 i)
        exact ⟨⟨hd.1, hd.2.1, update_child_depth hd.2.2 ⟨hi.1, hi.2.2⟩⟩,
          ⟨hs.1, update_child_storage hs.2 hi.2.1⟩, rfl⟩

theorem BuiltWithRemove_shape {loc : AActor → FVector} {t : FOctreeNode}
    (h : BuiltWithRemove loc t) : ∃ md : Int, DepthOK md t ∧ StorageOK t := by
  induction h with
  | init c d =>
    exact ⟨3, ⟨rfl, by simp [Initialize, FOctreeNode.new]⟩,
      fun p hp => by simp [Initialize, FOctreeNode.new] at hp⟩
  | reset c d =>
    exact ⟨10, ⟨rfl, by simp [ResetOctree, FOctreeNode.new]⟩,
      fun p hp => by simp [ResetOctree, FOctreeNode.new] at hp⟩
  | insert fuel o k _ hins ih =>
    obtain ⟨md, h1, h2⟩ := ih
    exact ⟨md, (Insert_keeps_depth loc md fuel _ _ _ _ _ h1 hins).1,
      Insert_keeps_storage loc fuel _ _ _ _ _ h2 hins⟩
  | remove o p k _ ih =>
    obtain ⟨md, h1, h2⟩ := ih
    have := Remove_keeps_shape md o p k _ h1 h2
    exact ⟨md, this.1, this.2.1⟩

theorem shape_of_IsNodeOf {md : Int} {n t : FOctreeNode} (hn : IsNodeOf n t) :
    DepthOK md t → StorageOK t → DepthOK md n ∧ StorageOK n := by
  induction hn with
  | self => exact fun h1 h2 => ⟨h1, h2⟩
  | child d ch i _ ih => exact fun h1 h2 => ih (h1.2.2 i).2 (h2.2 i)

/-- C21: in every tree reached from an initialized or reset root by `Insert` calls that are
passed the object's own location and by `Remove` calls, every node has no children or eight
children; a node with children has an empty `ClassBuckets` map and each of its children is one
level deeper; no node maps a class to an empty bucket; and no node is deeper than
`MaxDepth`. -/
theorem C21_shape_of_reachable_trees (loc : AActor → FVector) (t : FOctreeNode)
    (hbuilt : BuiltWithRemove loc t) (n : FOctreeNode) (hn : IsNodeOf n t) :
    (n.ChildCount = 0 ∨ n.ChildCount = 8) ∧
    (n.ChildCount = 8 → n.data.ClassBuckets = []) ∧
    (∀ d Children, n = .node d Children → ∀ i, (Children i).data.Depth = d.Depth + 1) ∧
    (∀ p ∈ n.data.ClassBuckets, p.2 ≠ []) ∧
    n.data.Depth ≤ n.data.MaxDepth := by
  obtain ⟨md, h1, h2⟩ := BuiltWithRemove_shape hbuilt
  obtain ⟨hd, hs⟩ := shape_of_IsNodeOf hn h1 h2
  cases n with
  | leaf d =>
    refine ⟨Or.inl rfl, fun h => ?_, fun _ _ h => ?_, hs, ?_⟩
    · simp [FOctreeNode.ChildCount] at h
    · cases h
    · show d.Depth ≤ d.MaxDepth
      rw [hd.1]
      exact hd.2
  | node d ch =>
    refine ⟨Or.inr rfl, fun _ => hs.1, ?_, ?_, ?_⟩
    · intro d' ch' h i
      cases h
      exact (hd.2.2 i).1
    · intro p hp
      have : d.ClassBuckets = [] := hs.1
      simp [FOctreeNode.data, this] at hp
    · show d.Depth ≤ d.MaxDepth
      rw [hd.1]
      exact le_of_lt hd.2.1

/-- Witness of C21: eleven inserts (the root subdivides) and one removal; the root has eight
children and stores nothing. -/
theorem C21_shape_of_reachable_trees_witness :
    BuiltWithRemove ShiftedWorld
      ((TreeAfter ShiftedWorld ElevenOfClass7).Remove 5 (ShiftedWorld 5) 7) ∧
    IsNodeOf ((TreeAfter ShiftedWorld ElevenOfClass7).Remove 5 (ShiftedWorld 5) 7)
      ((TreeAfter ShiftedWorld ElevenOfClass7).Remove 5 (ShiftedWorld 5) 7) ∧
    ((TreeAfter ShiftedWorld ElevenOfClass7).Remove 5 (ShiftedWorld 5) 7).ChildCount = 8 ∧
    ((TreeAfter ShiftedWorld ElevenOfClass7).Remove 5 (ShiftedWorld 5) 7).data.ClassBuckets
      = [] ∧
    ((TreeAfter ShiftedWorld ElevenOfClass7).Remove 5 (ShiftedWorld 5) 7).data.Depth
      ≤ ((TreeAfter ShiftedWorld ElevenOfClass7).Remove 5 (ShiftedWorld 5) 7).data.MaxDepth :=
  ⟨.remove 5 _ 7 (BuiltWithRemove_of_Built (Built_TreeAfter (by decide!))), .self _,
    by decide!,
    (C21_shape_of_reachable_trees ShiftedWorld _
      (.remove 5 _ 7 (BuiltWithRemove_of_Built (Built_TreeAfter (by decide!)))) _
      (.self _)).2.1 (by decide!),
    (C21_shape_of_reachable_trees ShiftedWorld _
      (.remove 5 _ 7 (BuiltWithRemove_of_Built (Built_TreeAfter (by decide!)))) _
      (.self _)).2.2.2.2⟩

/-! ## Removals before additions -/

theorem AddStep_keeps_fresh (e : Engine) (st : List FSignificanceObject × List (UObject × Nat))
    (Obj : UObject × ESignificanceTag) (o : UObject) (h : RegisteredFresh st.1 st.2 o) :
    RegisteredFresh (AddStep e st Obj).1 (AddStep e st Obj).2 o := by
  unfold AddStep
  split_ifs with hv
  · by_cases ho : o = Obj.1
    · refine ⟨st.1.length, FSignificanceObject.new Obj.1 Obj.2, ?_, ?_, ho.symm, rfl⟩
      · simp only [TMap_Find_Add, ho, if_true]
      · simp
    · obtain ⟨i, r, h1, h2, h3, h4⟩ := h
      refine ⟨i, r, ?_, ?_, h3, h4⟩
      · simp only [TMap_Find_Add, ho, if_false]
        exact h1
      · have hi : i < st.1.length := by
          by_contra hcon
          rw [List.getElem?_eq_none (Nat.le_of_not_lt hcon)] at h2
          cases h2
        simp only [List.getElem?_append_left hi]
        exact h2
  · exact h

theorem AddStep_makes_fresh (e : Engine) (st : List FSignificanceObject × List (UObject × Nat))
    (o : UObject) (tag : ESignificanceTag) (hv : e.IsValid o = true) :
    RegisteredFresh (AddStep e st (o, tag)).1 (AddStep e st (o, tag)).2 o := by
  unfold AddStep
  simp only [hv, if_true]
  refine ⟨st.1.length, FSignificanceObject.new o tag, ?_, ?_, rfl, rfl⟩
  · simp only [TMap_Find_Add, if_true]
  · simp

theorem AddStep_fold_keeps_fresh (e : Engine) (o : UObject) :
    ∀ (objs : List (UObject × ESignificanceTag))
      (st : List FSignificanceObject × List (UObject × Nat)),
      RegisteredFresh st.1 st.2 o →
      RegisteredFresh (objs.foldl (AddStep e) st).1 (objs.foldl (AddStep e) st).2 o := by
  intro objs
  induction objs with
  | nil => exact fun _ h => h
  | cons x xs ih =>
    intro st h
    exact ih _ (AddStep_keeps_fresh e st x o h)

theorem AddStep_fold_makes_fresh (e : Engine) (o : UObject) (tag : ESignificanceTag)
    (hv : e.IsValid o = true) :
    ∀ (objs : List (UObject × ESignificanceTag))
      (st : List FSignificanceObject × List (UObject × Nat)),
      (o, tag) ∈ objs →
      RegisteredFresh (objs.foldl (AddStep e) st).1 (objs.foldl (AddStep e) st).2 o := by
  intro objs
  induction objs with
  | nil => intro _ h; cases h
  | cons x xs ih =>
    intro st h
    rcases List.mem_cons.1 h with rfl | h
    · exact AddStep_fold_keeps_fresh e o xs _ (AddStep_makes_fresh e st o tag hv)
    · exact ih _ h

theorem mem_AddUnique (l : List UObject) (o : UObject) : o ∈ AddUnique l o := by
  unfold AddUnique
  split_ifs with h
  · exact h
  · simp

theorem RemoveStep_applies (e : Engine) (st : List FSignificanceObject × List (UObject × Nat))
    (o : UObject) (i : Nat) (r : FSignificanceObject) (hvalid : e.IsValid o = true)
    (htable : TMap.Find st.2 o = some i) (hrecord : st.1[i]? = some r) (hsource : r.Source = o) :
    RemoveStep e st o = (RemoveAtSwap st.1 i, TMap.Remove st.2 o) := by
  have hv : e.IsValid r.Source = true := by rw [hsource]; exact hvalid
  simp only [RemoveStep, hvalid, htable, hrecord, hv, if_true, hsource]

theorem RemoveAtSwap_removes {l : List FSignificanceObject} {i : Nat} {r : FSignificanceObject}
    {o : UObject} (hrecord : l[i]? = some r)
    (honly : ∀ j x, l[j]? = some x → x.Source = o → j = i) :
    ∀ x ∈ RemoveAtSwap l i, x.Source ≠ o := by
  intro x hx hxo
  have hi : i < l.length := by
    by_contra hcon
    rw [List.getElem?_eq_none (Nat.le_of_not_lt hcon)] at hrecord
    cases hrecord
  unfold RemoveAtSwap at hx
  cases hl : l.getLast? with
  | none =>
    rw [List.getLast?_eq_none_iff] at hl
    rw [hl] at hi
    exact absurd hi (by simp)
  | some last =>
    rw [hl] at hx
    simp only [List.dropLast_eq_take, List.length_set] at hx
    obtain ⟨j, hj⟩ := List.mem_iff_getElem?.1 hx
    rw [List.getElem?_take] at hj
    split_ifs at hj with hjlt
    · by_cases hij : i = j
      · subst hij
        have hset : (l.set i last)[i]? = some last := by simp [hi]
        rw [hset] at hj
        simp only [Option.some.injEq] at hj
        subst hj
        rw [List.getLast?_eq_getElem?] at hl
        have := honly _ _ hl hxo
        omega
      · rw [List.getElem?_set_ne hij] at hj
        exact hij (honly j x hj hxo).symm

theorem RemoveStep_keeps_absent (e : Engine)
    (st : List FSignificanceObject × List (UObject × Nat)) (Obj o : UObject)
    (h : ∀ x ∈ st.1, x.Source ≠ o) : ∀ x ∈ (RemoveStep e st Obj).1, x.Source ≠ o := by
  unfold RemoveStep
  split_ifs
  · cases TMap.Find st.2 Obj with
    | none => exact h
    | some Idx =>
      simp only []
      cases st.1[Idx]? with
      | none => exact h
      | some r =>
        simp only []
        split_ifs
        · exact fun x hx => h x (mem_RemoveAtSwap hx)
        · exact h
  · exact h

theorem RemoveStep_fold_keeps_absent (e : Engine) (o : UObject) :
    ∀ (objs : List UObject) (st : List FSignificanceObject × List (UObject × Nat)),
      (∀ x ∈ st.1, x.Source ≠ o) → ∀ x ∈ (objs.foldl (RemoveStep e) st).1, x.Source ≠ o := by
  intro objs
  induction objs with
  | nil => exact fun _ h => h
  | cons a as ih => exact fun st h => ih _ (RemoveStep_keeps_absent e st a o h)

theorem AddStep_fold_records (e : Engine) :
    ∀ (objs : List (UObject × ESignificanceTag))
      (st : List FSignificanceObject × List (UObject × Nat)),
      (objs.foldl (AddStep e) st).1
        = st.1 ++ (objs.filter (fun x => e.IsValid x.1)).map
            (fun x => FSignificanceObject.new x.1 x.2) := by
  intro objs
  induction objs with
  | nil => intro st; simp
  | cons a as ih =>
    intro st
    rw [List.foldl_cons, ih]
    unfold AddStep
    cases hv : e.IsValid a.1 with
    | false => simp [hv]
    | true => simp [hv]

theorem fresh_records_of (e : Engine) (o : UObject) (hvalid : e.IsValid o = true)
    (recs : List FSignificanceObject) (hrecs : ∀ x ∈ recs, x.Source ≠ o)
    (objs : List (UObject × ESignificanceTag)) :
    (recs ++ (objs.filter (fun x => e.IsValid x.1)).map
        (fun x => FSignificanceObject.new x.1 x.2)).filter (fun x => decide (x.Source = o))
      = (objs.filter (fun x => decide (x.1 = o))).map
          (fun x => FSignificanceObject.new x.1 x.2) := by
  have h1 : recs.filter (fun x => decide (x.Source = o)) = [] := by
    rw [List.filter_eq_nil_iff]
    intro x hx hxo
    exact hrecs x hx (by simpa using hxo)
  rw [List.filter_append, h1, List.nil_append, List.filter_map, List.filter_filter]
  congr 1
  apply List.filter_congr
  intro x _
  simp only [Function.comp, FSignificanceObject.new]
  by_cases hx : x.1 = o
  · simp [hx, hvalid]
  · simp [hx]

/-- C26: `UpdateContainers` runs the whole removal loop and then the addition loop. For every
state and every valid object in the addition queue, the lookup table afterwards maps the object
to the index of a record of that object with cached significance `0`. The removal is applied
first: when the object heads the removal queue and the table points at its only record, that
record is taken out by `RemoveAtSwap` and its table entry erased before the first addition, so
that afterwards the records of the object are exactly the fresh ones made from the addition
queue (the old record with its old score is gone). Both hold for the two call orders within a
tick, `RegisterObject` then `DeregisterObject` and the reverse, of a spatial object that has a
world. -/
theorem C26_removals_before_additions (e : Engine) (s : UShoniSignificanceManager)
    (o : UObject) (tag : ESignificanceTag) (hvalid : e.IsValid o = true)
    (hadd : (o, tag) ∈ s.ElementsToAdd) :
    RegisteredFresh (UpdateContainers e s).RegisteredObjects
      (UpdateContainers e s).ObjectLookupTable o ∧
    (∀ (rest : List UObject) (i : Nat) (r : FSignificanceObject),
      s.ElementsToRemove = o :: rest → TMap.Find s.ObjectLookupTable o = some i →
      s.RegisteredObjects[i]? = some r → r.Source = o →
      (∀ j x, s.RegisteredObjects[j]? = some x → x.Source = o → j = i) →
      ((UpdateContainers e s).RegisteredObjects, (UpdateContainers e s).ObjectLookupTable)
        = s.ElementsToAdd.foldl (AddStep e)
            (rest.foldl (RemoveStep e)
              (RemoveAtSwap s.RegisteredObjects i, TMap.Remove s.ObjectLookupTable o)) ∧
      (UpdateContainers e s).RegisteredObjects.filter (fun x => decide (x.Source = o))
        = (s.ElementsToAdd.filter (fun x => decide (x.1 = o))).map
            (fun x => FSignificanceObject.new x.1 x.2)) ∧
    (e.IsSpatial o = true → e.HasWorld o = true →
      ∀ (s0 : UShoniSignificanceManager) (i : Nat) (r : FSignificanceObject),
      s0.ElementsToRemove = [] → TMap.Find s0.ObjectLookupTable o = some i →
      s0.RegisteredObjects[i]? = some r → r.Source = o →
      (∀ j x, s0.RegisteredObjects[j]? = some x → x.Source = o → j = i) →
      ∀ s1, (s1 = DeregisterObject e (RegisterObject e s0 (some o) tag) (some o) ∨
          s1 = RegisterObject e (DeregisterObject e s0 (some o)) (some o) tag) →
        RegisteredFresh (UpdateContainers e s1).RegisteredObjects
          (UpdateContainers e s1).ObjectLookupTable o ∧
        ((UpdateContainers e s1).RegisteredObjects, (UpdateContainers e s1).ObjectLookupTable)
          = (s0.ElementsToAdd ++ [(o, tag)]).foldl (AddStep e)
              (RemoveAtSwap s0.RegisteredObjects i, TMap.Remove s0.ObjectLookupTable o) ∧
        (UpdateContainers e s1).RegisteredObjects.filter (fun x => decide (x.Source = o))
          = ((s0.ElementsToAdd ++ [(o, tag)]).filter (fun x => decide (x.1 = o))).map
              (fun x => FSignificanceObject.new x.1 x.2)) := by
  have key : ∀ s1 : UShoniSignificanceManager, (o, tag) ∈ s1.ElementsToAdd →
      ((UpdateContainers e s1).RegisteredObjects, (UpdateContainers e s1).ObjectLookupTable)
        = s1.ElementsToAdd.foldl (AddStep e)
            (s1.ElementsToRemove.foldl (RemoveStep e)
              (s1.RegisteredObjects, s1.ObjectLookupTable)) := by
    intro s1 h1
    have hne : s1.ElementsToAdd.length ≠ 0 := by
      intro h0
      rw [List.length_eq_zero] at h0
      rw [h0] at h1
      cases h1
    simp only [UpdateContainers, hne, ne_eq, not_false_eq_true, true_or, if_true]
  have fresh : ∀ s1 : UShoniSignificanceManager, (o, tag) ∈ s1.ElementsToAdd →
      RegisteredFresh (UpdateContainers e s1).RegisteredObjects
        (UpdateContainers e s1).ObjectLookupTable o := by
    intro s1 h1
    have h2 := key s1 h1
    have h3 := AddStep_fold_makes_fresh e o tag hvalid s1.ElementsToAdd
      (s1.ElementsToRemove.foldl (RemoveStep e) (s1.RegisteredObjects, s1.ObjectLookupTable)) h1
    rw [← h2] at h3
    exact h3
  have removed : ∀ (s1 : UShoniSignificanceManager) (rest : List UObject) (i : Nat)
      (r : FSignificanceObject), (o, tag) ∈ s1.ElementsToAdd →
      s1.ElementsToRemove = o :: rest → TMap.Find s1.ObjectLookupTable o = some i →
      s1.RegisteredObjects[i]? = some r → r.Source = o →
      (∀ j x, s1.RegisteredObjects[j]? = some x → x.Source = o → j = i) →
      ((UpdateContainers e s1).RegisteredObjects, (UpdateContainers e s1).ObjectLookupTable)
        = s1.ElementsToAdd.foldl (AddStep e)
            (rest.foldl (RemoveStep e)
              (RemoveAtSwap s1.RegisteredObjects i, TMap.Remove s1.ObjectLookupTable o)) ∧
      (UpdateContainers e s1).RegisteredObjects.filter (fun x => decide (x.Source = o))
        = (s1.ElementsToAdd.filter (fun x => decide (x.1 = o))).map
            (fun x => FSignificanceObject.new x.1 x.2) := by
    intro s1 rest i r h1 hq ht hr hs ho
    have h2 := key s1 h1
    rw [hq, List.foldl_cons,
      RemoveStep_applies e (s1.RegisteredObjects, s1.ObjectLookupTable) o i r hvalid ht hr hs]
      at h2
    refine ⟨h2, ?_⟩
    have h3 : (UpdateContainers e s1).RegisteredObjects
        = (s1.ElementsToAdd.foldl (AddStep e) (rest.foldl (RemoveStep e)
            (RemoveAtSwap s1.RegisteredObjects i, TMap.Remove s1.ObjectLookupTable o))).1 := by
      rw [← h2]
    rw [h3, AddStep_fold_records]
    exact fresh_records_of e o hvalid _
      (RemoveStep_fold_keeps_absent e o rest _ (RemoveAtSwap_removes hr ho)) _
  refine ⟨fresh s hadd, fun rest i r => removed s rest i r hadd, ?_⟩
  intro hsp hw s0 i r hq ht hr hs ho s1 hs1
  have hstate : s1.ElementsToAdd = s0.ElementsToAdd ++ [(o, tag)] ∧
      s1.ElementsToRemove = [o] ∧ s1.RegisteredObjects = s0.RegisteredObjects ∧
      s1.ObjectLookupTable = s0.ObjectLookupTable := by
    rcases hs1 with rfl | rfl
    · simp only [DeregisterObject, RegisterObject, hsp, hw, Bool.not_true, Bool.false_eq_true,
        if_false]
      split_ifs <;> simp [AddUnique, hq]
    · simp only [DeregisterObject, RegisterObject, hsp, hw, Bool.not_true, Bool.false_eq_true,
        if_false]
      split_ifs <;> simp [AddUnique, hq]
  obtain ⟨ha, hr1, hrec, htab⟩ := hstate
  have hmem : (o, tag) ∈ s1.ElementsToAdd := by rw [ha]; simp
  have := removed s1 [] i r hmem hr1 (by rw [htab]; exact ht) (by rw [hrec]; exact hr) hs
    (by rw [hrec]; exact ho)
  rw [ha, hrec, htab] at this
  exact ⟨fresh s1 hmem, this.1, this.2⟩

/-- Witness of C26: object `5000` is registered with cached significance `3/4`; within one tick
it is registered again and then deregistered, so it is in both queues. After
`UpdateContainers` the old record is gone and the only record is the fresh one. -/
theorem C26_removals_before_additions_witness :
    PlainEngine.IsValid 5000 = true ∧
    (DeregisterObject PlainEngine
      (RegisterObject PlainEngine SchedulerAfterCycle.Manager (some 5000) .SIG_Gameplay)
      (some 5000)).RegisteredObjects = [⟨5000, .SIG_Gameplay, 3 / 4⟩] ∧
    (DeregisterObject PlainEngine
      (RegisterObject PlainEngine SchedulerAfterCycle.Manager (some 5000) .SIG_Gameplay)
      (some 5000)).ElementsToRemove = [5000] ∧
    (5000, ESignificanceTag.SIG_Gameplay) ∈ (DeregisterObject PlainEngine
      (RegisterObject PlainEngine SchedulerAfterCycle.Manager (some 5000) .SIG_Gameplay)
      (some 5000)).ElementsToAdd ∧
    (UpdateContainers PlainEngine (DeregisterObject PlainEngine
      (RegisterObject PlainEngine SchedulerAfterCycle.Manager (some 5000) .SIG_Gameplay)
      (some 5000))).RegisteredObjects = [⟨5000, .SIG_Gameplay, 0⟩] ∧
    (UpdateContainers PlainEngine (DeregisterObject PlainEngine
      (RegisterObject PlainEngine SchedulerAfterCycle.Manager (some 5000) .SIG_Gameplay)
      (some 5000))).ObjectLookupTable = [(5000, 0)] ∧
    RegisteredFresh
      (UpdateContainers PlainEngine (DeregisterObject PlainEngine
        (RegisterObject PlainEngine SchedulerAfterCycle.Manager (some 5000) .SIG_Gameplay)
        (some 5000))).RegisteredObjects
      (UpdateContainers PlainEngine (DeregisterObject PlainEngine
        (RegisterObject PlainEngine SchedulerAfterCycle.Manager (some 5000) .SIG_Gameplay)
        (some 5000))).ObjectLookupTable 5000 ∧
    (UpdateContainers PlainEngine (DeregisterObject PlainEngine
      (RegisterObject PlainEngine SchedulerAfterCycle.Manager (some 5000) .SIG_Gameplay)
      (some 5000))).RegisteredObjects.filter (fun x => decide (x.Source = 5000))
      = [FSignificanceObject.new 5000 .SIG_Gameplay] :=
  ⟨by decide!, by decide!, by decide!, by decide!, by decide!, by decide!,
    (C26_removals_before_additions PlainEngine _ 5000 .SIG_Gameplay (by decide!)
      (by decide!)).1,
    ((C26_removals_before_additions PlainEngine _ 5000 .SIG_Gameplay (by decide!)
      (by decide!)).2.1 [] 0 ⟨5000, .SIG_Gameplay, 3 / 4⟩ (by decide!) (by decide!)
      (by decide!) rfl (by
        intro j x hj _
        have hrec : (DeregisterObject PlainEngine
            (RegisterObject PlainEngine SchedulerAfterCycle.Manager (some 5000) .SIG_Gameplay)
            (some 5000)).RegisteredObjects = [⟨5000, .SIG_Gameplay, 3 / 4⟩] := by decide!
        rw [hrec] at hj
        cases j with
        | zero => rfl
        | succ j => simp at hj)).2⟩

/-! ## The order of the results of a leaf -/

theorem ClassesInOrder_snoc (l : List (AActor × UClass)) (x : AActor × UClass) :
    ClassesInOrder (l ++ [x])
      = if x.2 ∈ ClassesInOrder l then ClassesInOrder l else ClassesInOrder l ++ [x.2] := by
  simp only [ClassesInOrder, List.foldl_append, List.foldl_cons, List.foldl_nil]

theorem mem_ClassesInOrder :
    ∀ (l : List (AActor × UClass)) (k : UClass),
      k ∈ ClassesInOrder l ↔ ∃ x ∈ l, x.2 = k := by
  intro l
  induction l using List.reverseRecOn with
  | nil => intro k; simp [ClassesInOrder]
  | append_singleton l x ih =>
    intro k
    have hr : (∃ y ∈ l ++ [x], y.2 = k) ↔ (k ∈ ClassesInOrder l ∨ x.2 = k) := by
      rw [ih k]
      constructor
      · rintro ⟨y, hy, hk⟩
        rcases List.mem_append.1 hy with hy | hy
        · exact Or.inl ⟨y, hy, hk⟩
        · rw [List.mem_singleton] at hy
          subst hy
          exact Or.inr hk
      · rintro (⟨y, hy, hk⟩ | hk)
        · exact ⟨y, List.mem_append_left _ hy, hk⟩
        · exact ⟨x, by simp, hk⟩
    rw [hr, ClassesInOrder_snoc]
    split_ifs with hx
    · constructor
      · exact Or.inl
      · rintro (h | h)
        · exact h
        · exact h ▸ hx
    · rw [List.mem_append, List.mem_singleton]
      constructor
      · rintro (h | h)
        · exact Or.inl h
        · exact Or.inr h.symm
      · rintro (h | h)
        · exact Or.inl h
        · exact Or.inr h.symm

theorem TMap_Find_keyed (f : UClass → List AActor) (k : UClass) :
    ∀ ks : List UClass,
      TMap.Find (ks.map (fun c => (c, f c))) k = if k ∈ ks then some (f k) else none := by
  intro ks
  induction ks with
  | nil => rfl
  | cons a as ih =>
    by_cases ha : a = k
    · subst ha
      simp [TMap.Find, List.find?_cons]
    · have hk : ¬ k = a := fun h => ha h.symm
      simp only [List.map_cons, List.mem_cons, hk, false_or]
      rw [← ih]
      simp [TMap.Find, List.find?_cons, ha]

theorem foldl_BucketAdd_eq :
    ∀ l : List (AActor × UClass),
      l.foldl (fun m x => BucketAdd m x.2 x.1) []
        = (ClassesInOrder l).map
            (fun k => (k, (l.filter (fun x => decide (x.2 = k))).map Prod.fst)) := by
  intro l
  induction l using List.reverseRecOn with
  | nil => rfl
  | append_singleton l x ih =>
    rw [List.foldl_append, List.foldl_cons, List.foldl_nil, ih, ClassesInOrder_snoc]
    by_cases hx : x.2 ∈ ClassesInOrder l
    · have hf := TMap_Find_keyed
        (fun k => (l.filter (fun y => decide (y.2 = k))).map Prod.fst) x.2 (ClassesInOrder l)
      rw [if_pos hx] at hf
      simp only [BucketAdd, hf, if_pos hx, TMap.Set, List.map_map]
      apply List.map_congr_left
      intro k _
      by_cases hkx : k = x.2
      · subst hkx
        simp [List.filter_append]
      · have hxk : ¬ x.2 = k := fun h => hkx h.symm
        simp [hkx, hxk, List.filter_append]
    · have hf := TMap_Find_keyed
        (fun k => (l.filter (fun y => decide (y.2 = k))).map Prod.fst) x.2 (ClassesInOrder l)
      rw [if_neg hx] at hf
      have hnil : l.filter (fun y => decide (y.2 = x.2)) = [] := by
        rw [List.filter_eq_nil_iff]
        intro y hy hyx
        exact hx ((mem_ClassesInOrder l x.2).2 ⟨y, hy, by simpa using hyx⟩)
      simp only [BucketAdd, hf, if_neg hx, List.map_append, List.map_cons, List.map_nil]
      congr 1
      · apply List.map_congr_left
        intro k hk
        have hxk : ¬ x.2 = k := by
          rintro rfl
          exact hx hk
        simp [List.filter_append, hxk]
      · simp [List.filter_append, hnil]

theorem InsertAll_leaf_buckets (loc : AActor → FVector) (fuel : Nat) :
    ∀ (l : List (AActor × UClass)) (d : FOctreeNodeData),
      (∀ c ∈ l, d.Bounds.IsInside (loc c.1) = true) →
      d.TotalObjectCount + l.length ≤ d.MaxObjectsPerNode →
      InsertAll loc (fuel + 1) l (.leaf d)
        = some (.leaf { d with
            ClassBuckets := l.foldl (fun m x => BucketAdd m x.2 x.1) d.ClassBuckets,
            TotalObjectCount := d.TotalObjectCount + l.length }) := by
  intro l
  induction l with
  | nil =>
    intro d _ _
    simp [InsertAll]
  | cons c cs ih =>
    intro d hin hcap
    obtain ⟨o, k⟩ := c
    have hroom : d.TotalObjectCount < d.MaxObjectsPerNode := by
      simp only [List.length_cons, Nat.cast_add, Nat.cast_one] at hcap
      omega
    have h1 := Insert_leaf_room loc fuel d o (loc o) k (hin (o, k) (List.mem_cons_self _ _))
      (Or.inl hroom)
    have hb := ih
      { d with ClassBuckets := BucketAdd d.ClassBuckets k o,
               TotalObjectCount := d.TotalObjectCount + 1 }
      (fun c hc => hin c (List.mem_cons_of_mem _ hc))
      (by simp only [List.length_cons, Nat.cast_add, Nat.cast_one] at hcap ⊢; omega)
    simp only [InsertAll, h1, Option.bind, hb, List.length_cons, Nat.cast_add, Nat.cast_one,
      List.foldl_cons]
    congr 3
    ring

/-- C24 as stated fails: actors `0` (class `1`), `1` (class `2`) and `2` (class `1`) are
inserted in this order into the root leaf; the query without filter whose circle covers all
three returns `0, 2, 1`. -/
theorem C24_interleaved_classes_not_in_insertion_order :
    (InsertAll ShiftedWorld 5 InterleavedClasses Root1000).map FOctreeNode.IsLeaf = some true ∧
    InterleavedClasses.map Prod.fst = [0, 1, 2] ∧
    InterleavedClasses.all (fun x => InQueryRange ShiftedWorld ⟨0, 0⟩ 100 x.1) = true ∧
    (InsertAll ShiftedWorld 5 InterleavedClasses Root1000).map
      (fun t => QueryOctree2D ShiftedWorld t ⟨0, 0⟩ 100 none) = some [0, 2, 1] := by
  decide!

/-- C24, amended: a leaf without entries receives a sequence of `Insert` calls, each with the
object's own location inside the bounds, and has room for all of them. Then the calls return a
leaf, and a query without filter whose circle covers all the objects returns them grouped by
class: the classes in the order of their first call, the objects of one class in call order.
A subdivided node whose bounds meet the circle returns the results of its children `0 .. 7`
concatenated in this order. -/
theorem C24_leaf_results_grouped_by_class (loc : AActor → FVector) (fuel : Nat)
    (d : FOctreeNodeData) (calls : List (AActor × UClass)) (c : FVector2D) (r : ℚ)
    (hempty : d.ClassBuckets = [])
    (hin : ∀ x ∈ calls, d.Bounds.IsInside (loc x.1) = true)
    (hroom : d.TotalObjectCount + calls.length ≤ d.MaxObjectsPerNode)
    (hcover : ∀ x ∈ calls, InQueryRange loc c r x.1 = true) :
    (∃ t, InsertAll loc (fuel + 1) calls (.leaf d) = some t ∧ t.IsLeaf = true ∧
      QueryOctree2D loc t c r none = GroupedByClass calls) ∧
    ∀ (dn : FOctreeNodeData) (Children : Fin 8 → FOctreeNode) (FilterClass : Option UClass),
      Intersects2D dn.Bounds c r = true →
      QueryOctree2D loc (.node dn Children) c r FilterClass
        = QueryOctree2D loc (Children 0) c r FilterClass ++
          QueryOctree2D loc (Children 1) c r FilterClass ++
          QueryOctree2D loc (Children 2) c r FilterClass ++
          QueryOctree2D loc (Children 3) c r FilterClass ++
          QueryOctree2D loc (Children 4) c r FilterClass ++
          QueryOctree2D loc (Children 5) c r FilterClass ++
          QueryOctree2D loc (Children 6) c r FilterClass ++
          QueryOctree2D loc (Children 7) c r FilterClass := by
  refine ⟨⟨_, InsertAll_leaf_buckets loc fuel calls d hin hroom, rfl, ?_⟩, ?_⟩
  · rw [hempty, foldl_BucketAdd_eq]
    have hentries : BucketEntries ((ClassesInOrder calls).map
        (fun k => (k, (calls.filter (fun x => decide (x.2 = k))).map Prod.fst)))
        = GroupedByClass calls := by
      simp only [BucketEntries, GroupedByClass, List.flatMap, List.map_map]
      rfl
    cases calls with
    | nil =>
      cases hI : Intersects2D d.Bounds c r <;>
        simp [QueryOctree2D, hI, GroupedByClass, ClassesInOrder, BucketEntries]
    | cons x xs =>
      have hI : Intersects2D d.Bounds c r = true :=
        Intersects2D_of_inside (hin x (List.mem_cons_self _ _))
          (hcover x (List.mem_cons_self _ _))
      simp only [QueryOctree2D, hI, Bool.not_true, Bool.false_eq_true, if_false,
        Option.bind, hentries]
      rw [List.filter_eq_self]
      intro a ha
      simp only [GroupedByClass, List.mem_flatMap, List.mem_map, List.mem_filter] at ha
      obtain ⟨k, _, y, ⟨hy, _⟩, rfl⟩ := ha
      exact hcover y hy
  · intro dn Children FilterClass hI
    simp only [QueryOctree2D, hI, Bool.not_true, Bool.false_eq_true, if_false]
    simp [List.finRange, List.flatMap, List.pmap, List.range, List.range.loop]
    rfl

/-- Witness of C24: the three interleaved inserts into the root leaf; the result `0, 2, 1` is
the grouping by class. -/
theorem C24_leaf_results_grouped_by_class_witness :
    Root1000.data.ClassBuckets = [] ∧
    (∀ x ∈ InterleavedClasses, Root1000.data.Bounds.IsInside (ShiftedWorld x.1) = true) ∧
    Root1000.data.TotalObjectCount + InterleavedClasses.length
      ≤ Root1000.data.MaxObjectsPerNode ∧
    (∀ x ∈ InterleavedClasses, InQueryRange ShiftedWorld ⟨0, 0⟩ 100 x.1 = true) ∧
    GroupedByClass InterleavedClasses = [0, 2, 1] ∧
    ∃ t, InsertAll ShiftedWorld (4 + 1) InterleavedClasses (.leaf Root1000.data) = some t ∧
      t.IsLeaf = true ∧
      QueryOctree2D ShiftedWorld t ⟨0, 0⟩ 100 none = GroupedByClass InterleavedClasses :=
  ⟨by decide!, by decide!, by decide!, by decide!, by decide!,
    (C24_leaf_results_grouped_by_class ShiftedWorld 4 Root1000.data InterleavedClasses ⟨0, 0⟩
      100 (by decide!) (by decide!) (by decide!) (by decide!)).1⟩

end ShoniIsland
